import Mathlib

/-! # CAN bootloader firmware-update core (`Tools/AP_Bootloader/can.cpp`)

A shallow embedding of the firmware-update engine of the DroneCAN bootloader:
the file-scope statics of `can.cpp` become one `State` record, every handler
becomes a function on that record, and the hardware and library entry points
that live outside `can.cpp` (flash primitives, clock, libcanard, the generated
DSDL codecs, the image checker) are the fields of an `Env` record.

Machine integers are natural numbers; every place where the C code can wrap
carries an explicit `% 256`, `% 65536` or `% 4294967296`.

Every call that leaves `can.cpp` towards flash or the bus is appended to
`State.trace` (newest event first), so that properties about calls can be
stated on the trace.
-/

namespace APBootloader

/-! ## Protocol constants and message types -/

/-- Modelled from the spec: `sizeof(uavcan_protocol_file_ReadResponse::data.data)`,
the payload bytes of one FileRead response (`dronecan_msgs.h` is not part of
the sources); the spec fixes it to 256 bytes. -/
def CHUNK : Nat := 256

/-- Modelled from the spec: `sizeof(uavcan_protocol_file_Path::path.data)`, the
bound of a remote path (200 bytes), from the missing `dronecan_msgs.h`. -/
def PATH_MAX : Nat := 200

/-- Modelled from the spec: `CANARD_BROADCAST_NODE_ID` of the missing `canard.h`;
the spec names 0 as the unassigned / broadcast node id. -/
def CANARD_BROADCAST_NODE_ID : Nat := 0

/-- The three kinds of transfer of `canard.h` (`CanardTransferType`). -/
inductive CanardTransferType where
  | response
  | request
  | broadcast
deriving DecidableEq, Repr

/-- Data type ids, signatures and priorities of `dronecan_msgs.h` and `canard.h`.
Their numeric values are not part of `can.cpp`; they are parameters. -/
structure Proto where
  GETNODEINFO_ID : Nat
  GETNODEINFO_SIGNATURE : Nat
  BEGINFIRMWAREUPDATE_ID : Nat
  BEGINFIRMWAREUPDATE_SIGNATURE : Nat
  RESTARTNODE_ID : Nat
  RESTARTNODE_SIGNATURE : Nat
  FILE_READ_ID : Nat
  FILE_READ_SIGNATURE : Nat
  ALLOCATION_ID : Nat
  ALLOCATION_SIGNATURE : Nat
  PRIORITY_HIGH : Nat
  PRIORITY_LOW : Nat
  BEGINFIRMWAREUPDATE_RESPONSE_ERROR_OK : Nat
deriving DecidableEq, Repr

/-- A received transfer (`CanardRxTransfer`): the fields `can.cpp` reads, and
the raw payload handed to the generated decoders. -/
structure CanardRxTransfer where
  source_node_id : Nat
  transfer_id : Nat
  data_type_id : Nat
  transfer_type : CanardTransferType
  priority : Nat
  payload : List Nat
deriving DecidableEq, Repr

/-- The decoded `uavcan_protocol_file_ReadResponse`: `len` is `data.len`,
`data` the bytes of `data.data` (bytes beyond the list read as 0). -/
structure ReadResponse where
  error : Nat
  len : Nat
  data : List Nat
deriving DecidableEq, Repr

/-- The decoded `uavcan_protocol_file_BeginFirmwareUpdateRequest`; the length
of `path` is `image_file_remote_path.path.len`. -/
structure BeginFirmwareUpdateRequest where
  source_node_id : Nat
  path : List Nat
deriving DecidableEq, Repr

/-- What is handed to libcanard for transmission. -/
inductive TxPayload where
  | read_request (path : List Nat) (offset : Nat)
  | begin_firmware_update_response (error : Nat)
  | raw (bytes : List Nat)
deriving DecidableEq, Repr

/-- The arguments of one `canardRequestOrRespond` / `canardBroadcast` call. -/
structure TxTransfer where
  dest : Nat
  signature : Nat
  data_type_id : Nat
  transfer_id : Nat
  priority : Nat
  kind : CanardTransferType
  payload : TxPayload
deriving DecidableEq, Repr

/-- A frame of the libcanard TX queue (`CanardCANFrame`). -/
structure CanardCANFrame where
  id : Nat
  data : List Nat
  data_len : Nat
deriving DecidableEq, Repr

/-! ## The update context `fw_update` -/

/-- One element of `fw_update.reads[]`. -/
structure ReadSlot where
  tx_id : Nat
  sent_ms : Nat
  offset : Nat
  have_reply : Bool
  pkt : ReadResponse
deriving DecidableEq, Repr

/-- The static `fw_update` record. -/
structure FwUpdate where
  rtt_ms : Nat
  ofs : Nat
  node_id : Nat
  path : List Nat
  sector : Nat
  sector_ofs : Nat
  transfer_id : Nat
  idx : Nat
  reads : List ReadSlot
  erased_to : Nat
deriving DecidableEq, Repr

/-- A slot after `memset(&fw_update, 0, ...)`. -/
def zeroSlot : ReadSlot :=
  { tx_id := 0, sent_ms := 0, offset := 0, have_reply := false,
    pkt := { error := 0, len := 0, data := [] } }

/-- The element `fw_update.reads[i]`. -/
def FwUpdate.slot (fw : FwUpdate) (i : Nat) : ReadSlot :=
  fw.reads.getD i zeroSlot

/-- Assignment to `fw_update.reads[i]`. -/
def FwUpdate.setSlot (fw : FwUpdate) (i : Nat) (r : ReadSlot) : FwUpdate :=
  { fw with reads := fw.reads.set i r }

/-- The record after `memset(&fw_update, 0, sizeof(fw_update))` for a pipeline
of `P` slots. -/
def zeroFw (P : Nat) : FwUpdate :=
  { rtt_ms := 0, ofs := 0, node_id := 0, path := List.replicate (PATH_MAX + 1) 0,
    sector := 0, sector_ofs := 0, transfer_id := 0, idx := 0,
    reads := List.replicate P zeroSlot, erased_to := 0 }

/-! ## Calls that leave `can.cpp` -/

/-- One entry of the call log. -/
inductive Event where
  | begin_update
  | keep_unlocked (b : Bool)
  | erase (sector : Nat)
  | write (addr len : Nat) (ok : Bool)
  | flush
  | check_fw (result : Nat)
  | jump_to_app
  | tx (t : TxTransfer) (result : Int)
  | can_send (f : CanardCANFrame) (ok : Bool)
deriving DecidableEq, Repr

/-- The environment of `can.cpp`: build-time parameters, constants of missing
headers and the external functions it calls, over an abstract hardware state
`W`. Sector sizes, times and status codes are `uint32_t` / `uint8_t` values on
the real hardware. -/
structure Env (W : Type) where
  /-- Build-time `FW_UPDATE_PIPELINE_LEN`: 1 with the ChibiOS CAN driver, else 4. -/
  P : Nat
  proto : Proto
  /-- Constant `check_fw_result_t::CHECK_FW_OK` of `AP_CheckFirmware.h`. -/
  CHECK_FW_OK : Nat
  /-- Constant `check_fw_result_t::FAIL_REASON_BAD_LENGTH_APP`. -/
  FAIL_REASON_BAD_LENGTH_APP : Nat
  /-- Clock `AP_HAL::millis()`. -/
  millis : W → Nat
  flash_func_sector_size : Nat → Nat
  flash_func_is_erased : W → Nat → Bool
  flash_func_erase_sector : W → Nat → W
  /-- Call `flash_write_buffer(address, words, nwords)`; the words are given as bytes. -/
  flash_write_buffer : W → Nat → List Nat → Nat → Bool × W
  flash_write_flush : W → W
  flash_set_keep_unlocked : W → Bool → W
  check_good_firmware : W → Nat
  /-- The libcanard enqueue behind `canardRequestOrRespond`: from the hardware
  state, the current TX queue and the transfer, the result code and the frames
  appended to the queue. -/
  enqueueTxFrames : W → List CanardCANFrame → TxTransfer → Int × List CanardCANFrame
  /-- One attempt to hand a frame to the CAN hardware (`canTransmit` resp. the
  `send` of every interface). -/
  can_send : W → CanardCANFrame → Bool × W
  /-- Decoder `uavcan_protocol_file_ReadResponse_decode(transfer, &pkt)`: the
  new content of `pkt` and the return value (`true` is failure). -/
  ReadResponse_decode : CanardRxTransfer → ReadResponse → ReadResponse × Bool
  /-- Decoder `uavcan_protocol_file_BeginFirmwareUpdateRequest_decode`; `none` is failure. -/
  BeginFirmwareUpdateRequest_decode : CanardRxTransfer → Option BeginFirmwareUpdateRequest

/-- All file-scope state of `can.cpp` that the handlers touch, the hardware
state and the call log (newest first). -/
structure State (W : Type) where
  fw : FwUpdate
  vendor_specific_status_code : Nat
  local_node_id : Nat
  tx_queue : List CanardCANFrame
  fail_count : Nat
  node_id_allocation_transfer_id : Nat
  send_next_node_id_allocation_request_at_ms : Nat
  node_id_allocation_unique_id_offset : Nat
  world : W
  trace : List Event

variable {W : Type}

/-- Append an entry to the call log. -/
def State.log (s : State W) (e : Event) : State W :=
  { s with trace := e :: s.trace }

/-- Wrapper for `flash_set_keep_unlocked(b)`. -/
def flash_set_keep_unlocked (env : Env W) (b : Bool) (s : State W) : State W :=
  { s with world := env.flash_set_keep_unlocked s.world b,
           trace := Event.keep_unlocked b :: s.trace }

/-- Wrapper for `flash_write_flush()`. -/
def flash_write_flush (env : Env W) (s : State W) : State W :=
  { s with world := env.flash_write_flush s.world, trace := Event.flush :: s.trace }

/-- Wrapper for `flash_func_erase_sector(sector)`. -/
def flash_func_erase_sector (env : Env W) (sector : Nat) (s : State W) : State W :=
  { s with world := env.flash_func_erase_sector s.world sector,
           trace := Event.erase sector :: s.trace }

/-- Modelled from the spec: `incrementTransferID` of libcanard (not under
`src/`); the outgoing transfer id advances modulo 32. -/
def incrementTransferID (tid : Nat) : Nat := (tid + 1) % 32

/-- Modelled from the spec: `canardRequestOrRespond` of libcanard (not under
`src/`): the frames of the transfer are appended to the TX queue and the
result code is returned. -/
def canardRequestOrRespond (env : Env W) (t : TxTransfer) (s : State W) : State W × Int :=
  let r := env.enqueueTxFrames s.world s.tx_queue t
  ({ s with tx_queue := s.tx_queue ++ r.2, trace := Event.tx t r.1 :: s.trace }, r.1)

/-! ## Transmit path -/

/-- The loop of `processTx` over the TX queue: a sent frame is popped and
clears `fail_count`; a failed send bumps `fail_count` (or pops the frame once
the count has reached 8) and leaves the loop. Both build variants have this
shape; `Env.can_send` stands for the hardware send. -/
def processTx_loop (env : Env W) : List CanardCANFrame → State W → State W
  | [], s => s
  | txf :: rest, s =>
    let r := env.can_send s.world txf
    let s1 := { s with world := r.2, trace := Event.can_send txf r.1 :: s.trace }
    if r.1 then
      processTx_loop env rest { s1 with tx_queue := rest, fail_count := 0 }
    else if s1.fail_count < 8 then
      { s1 with tx_queue := txf :: rest, fail_count := (s1.fail_count + 1) % 256 }
    else
      { s1 with tx_queue := rest }

/-- Function `processTx()`. -/
def processTx (env : Env W) (s : State W) : State W :=
  processTx_loop env s.tx_queue s

/-- The path sent in a read request: `strlen(fw_update.path)` bytes of the path. -/
def path_str (path : List Nat) : List Nat :=
  path.takeWhile (fun b => b != 0)

/-- Function `send_fw_read(idx)`: the returned flag is its `bool` result. -/
def send_fw_read (env : Env W) (idx : Nat) (s : State W) : State W × Bool :=
  let r := s.fw.slot idx
  let r1 : ReadSlot := { r with tx_id := s.fw.transfer_id, have_reply := false }
  let s1 : State W := { s with fw := s.fw.setSlot idx r1 }
  let t : TxTransfer :=
    { dest := s1.fw.node_id, signature := env.proto.FILE_READ_SIGNATURE,
      data_type_id := env.proto.FILE_READ_ID, transfer_id := s1.fw.transfer_id,
      priority := env.proto.PRIORITY_HIGH, kind := CanardTransferType.request,
      payload := TxPayload.read_request (path_str s1.fw.path) r.offset }
  let q := canardRequestOrRespond env t s1
  let fw2 : FwUpdate := { q.1.fw with transfer_id := incrementTransferID q.1.fw.transfer_id }
  let s2 : State W := { q.1 with fw := fw2 }
  if q.2 > 0 then
    let r2 : ReadSlot := { (s2.fw.slot idx) with sent_ms := env.millis s2.world % 4294967296 }
    ({ s2 with fw := s2.fw.setSlot idx r2 }, true)
  else
    (s2, false)

/-- The `for` loop of `send_fw_reads` over the remaining values of `i`. -/
def send_fw_reads_loop (env : Env W) (now : Nat) : List Nat → State W → State W
  | [], s => s
  | i :: rest, s =>
    let idx := (s.fw.idx + i) % env.P
    let r := s.fw.slot idx
    if r.have_reply then
      send_fw_reads_loop env now rest s
    else if r.sent_ms ≠ 0 ∧
        (now + 4294967296 - r.sent_ms) % 4294967296
          < (10 + 2 * max 250 s.fw.rtt_ms) % 4294967296 then
      send_fw_reads_loop env now rest s
    else
      let q := send_fw_read env idx s
      if q.2 then send_fw_reads_loop env now rest q.1 else q.1

/-- Function `send_fw_reads()`. -/
def send_fw_reads (env : Env W) (s : State W) : State W :=
  send_fw_reads_loop env (env.millis s.world % 4294967296) (List.range env.P) s

/-! ## Flash erase -/

/-- The `while` loop of `erase_to`, with fuel: the flag tells whether the loop
ended within the fuel. -/
def erase_loop (env : Env W) : Nat → State W → State W × Bool
  | 0, s =>
    (s, !(decide (env.flash_func_sector_size s.fw.erased_to ≠ 0) &&
          !(env.flash_func_is_erased s.world s.fw.erased_to)))
  | fuel + 1, s =>
    if env.flash_func_sector_size s.fw.erased_to ≠ 0 ∧
        env.flash_func_is_erased s.world s.fw.erased_to = false then
      let s1 := flash_func_erase_sector env s.fw.erased_to s
      let fw1 : FwUpdate := { s1.fw with erased_to := (s1.fw.erased_to + 1) % 65536 }
      erase_loop env fuel { s1 with fw := fw1 }
    else
      (s, true)

/-- Function `erase_to(sector)`; the flag tells whether it returned within the fuel. -/
def erase_to (env : Env W) (fuel : Nat) (sector : Nat) (s : State W) : State W × Bool :=
  if sector < s.fw.erased_to then
    (s, true)
  else
    let s1 := flash_func_erase_sector env sector s
    let fw1 : FwUpdate := { s1.fw with erased_to := (sector + 1) % 65536 }
    erase_loop env fuel { s1 with fw := fw1 }

/-! ## Round-trip estimate

`fw_update.rtt_ms = uint32_t(0.9 * fw_update.rtt_ms + 0.1 * rtt)` is computed
in IEEE-754 binary64. Every value that occurs is a natural multiple of
`2^-56`, so a double is represented by that multiple; each operation is
rounded to 53 significant bits, ties to even. -/

/-- The number of low bits that rounding to 53 significant bits drops. -/
def round_shift : Nat → Nat → Nat
  | 0, _ => 0
  | fuel + 1, n => if n < 9007199254740992 then 0 else round_shift fuel (n / 2) + 1

/-- Round to nearest, ties to even, at 53 significant bits. -/
def round53 (n : Nat) : Nat :=
  let sh := round_shift 128 n
  let q := n / 2 ^ sh
  let rem := n % 2 ^ sh
  let q1 := if 2 * rem > 2 ^ sh ∨ (2 * rem = 2 ^ sh ∧ q % 2 = 1) then q + 1 else q
  q1 * 2 ^ sh

/-- The double nearest to 0.9, `0x3FECCCCCCCCCCCCD`, in units of `2^-56`. -/
def DBL_0_9 : Nat := 64851834634135144

/-- The double nearest to 0.1, `0x3FB999999999999A`, in units of `2^-56`. -/
def DBL_0_1 : Nat := 7205759403792794

/-- The expression `uint32_t(0.9 * rtt_ms + 0.1 * rtt)`. -/
def rtt_filter (rtt_ms rtt : Nat) : Nat :=
  round53 (round53 (DBL_0_9 * rtt_ms) + round53 (DBL_0_1 * rtt)) / 72057594037927936

/-- The expression `MIN(3000, MAX(now - sent_ms, 25))` in `uint32_t` arithmetic. -/
def rtt_sample (now sent_ms : Nat) : Nat :=
  min 3000 (max ((now + 4294967296 - sent_ms) % 4294967296) 25)

/-! ## FileRead responses -/

/-- How one pass through the body of the commit loop ends: with the next
evaluation of the loop condition (end of body or `continue`), with `break`,
with `return`, or inside an `erase_to` that did not end within the fuel. -/
inductive Ctl where
  | next
  | brk
  | ret
  | stuck
deriving DecidableEq, Repr

/-- The search loop of `handle_file_read_response`: the first slot whose
`tx_id` is the transfer id of the response. -/
def find_slot (P : Nat) (fw : FwUpdate) (transfer_id : Nat) : Option Nat :=
  (List.range P).find? (fun i => decide ((fw.slot i).tx_id = transfer_id))

/-- The buffer `buf32` handed to `flash_write_buffer`, as bytes: `len` bytes of
the packet, zero padded to `len_words` words. -/
def chunk_bytes (pkt : ReadResponse) (len_words : Nat) : List Nat :=
  (List.range (4 * len_words)).map (fun i => if i < pkt.len then pkt.data.getD i 0 else 0)

/-- The closing statement of `handle_file_read_response`: the progress value,
stored in the status field, which the spec makes a `u8` (its declaration in
`dronecan_msgs.h` is not part of the sources). -/
def set_progress (s : State W) : State W :=
  { s with vendor_specific_status_code := (1 + s.fw.ofs / 1024) % 256 }

/-- Lines 293 to 296, the bad sequence branch: the slot at `idx` is cleared for
a new request. -/
def commit_bad_sequence (s : State W) : State W :=
  let r := s.fw.slot s.fw.idx
  let r1 : ReadSlot := { r with have_reply := false, sent_ms := 0 }
  { s with fw := s.fw.setSlot s.fw.idx r1 }

/-- Lines 311 to 315, the branch `sector_size == 0` (firmware is too big). -/
def commit_too_big (env : Env W) (s : State W) : State W :=
  let fw1 : FwUpdate := { s.fw with node_id := 0 }
  let s1 := flash_set_keep_unlocked env false (flash_write_flush env { s with fw := fw1 })
  { s1 with vendor_specific_status_code := env.FAIL_REASON_BAD_LENGTH_APP }

/-- Lines 318 to 323, the erase calls before the write; `len` and
`sector_size` are the locals of the loop body. The flag tells whether both
calls returned within the fuel. -/
def commit_erase (env : Env W) (efuel len sector_size : Nat) (s : State W) : State W × Bool :=
  let e1 := if s.fw.sector_ofs = 0 then erase_to env efuel s.fw.sector s else (s, true)
  if e1.2 = false then e1
  else if (e1.1.fw.sector_ofs + len) % 4294967296 > sector_size then
    erase_to env efuel (e1.1.fw.sector + 1) e1.1
  else (e1.1, true)

/-- Lines 328 to 333: the write position moves on by `len`. -/
def commit_position (env : Env W) (len sector_size : Nat) (s : State W) : State W :=
  let sector_ofs1 := (s.fw.sector_ofs + len) % 4294967296
  let roll := decide (sector_ofs1 ≥ env.flash_func_sector_size s.fw.sector)
  let fw1 : FwUpdate :=
    { s.fw with
      ofs := (s.fw.ofs + len) % 4294967296
      sector := if roll then (s.fw.sector + 1) % 256 else s.fw.sector
      sector_ofs := if roll then sector_ofs1 - sector_size else sector_ofs1 }
  { s with fw := fw1 }

/-- Lines 336 to 343, the branch `len < sizeof(data.data)`: end of file. The
call of `jump_to_app` is logged; it does not return on the hardware. -/
def commit_end_of_file (env : Env W) (s : State W) : State W :=
  let fw1 : FwUpdate := { s.fw with node_id := 0 }
  let s1 := flash_set_keep_unlocked env false (flash_write_flush env { s with fw := fw1 })
  let ok := env.check_good_firmware s1.world
  let s2 : State W :=
    { s1 with vendor_specific_status_code := ok, trace := Event.check_fw ok :: s1.trace }
  if ok = env.CHECK_FW_OK then s2.log Event.jump_to_app else s2

/-- Lines 347 to 349: the slot at `idx` is cleared and its offset moves on by
`P * CHUNK`. -/
def commit_clear_slot (env : Env W) (s : State W) : State W :=
  let r := s.fw.slot s.fw.idx
  let r1 : ReadSlot :=
    { r with have_reply := false, sent_ms := 0
             offset := (r.offset + env.P * CHUNK) % 4294967296 }
  { s with fw := s.fw.setSlot s.fw.idx r1 }

/-- Lines 347 to 353: the slot is prepared for its next read, the read is
issued, the TX queue is drained and `idx` rotates. -/
def commit_next_read (env : Env W) (s : State W) : State W :=
  let s1 := commit_clear_slot env s
  let s2 := processTx env (send_fw_read env s1.fw.idx s1).1
  let fw3 : FwUpdate := { s2.fw with idx := (s2.fw.idx + 1) % env.P }
  { s2 with fw := fw3 }

/-- The body of the commit loop after `flash_write_buffer` returned true
(lines 328 to 353). -/
def commit_advance (env : Env W) (len sector_size : Nat) (s : State W) : State W × Ctl :=
  let s1 := commit_position env len sector_size s
  if len < CHUNK then (commit_end_of_file env s1, Ctl.ret)
  else (commit_next_read env s1, Ctl.next)

/-- Lines 291 to 323 of the commit loop body, up to the call of
`flash_write_buffer`: `none` when the body reaches that call, otherwise the
way the body was left. -/
def commit_prepare (env : Env W) (efuel : Nat) (s : State W) : State W × Option Ctl :=
  let r := s.fw.slot s.fw.idx
  if r.offset ≠ s.fw.ofs then (commit_bad_sequence s, some Ctl.brk)
  else
    let s1 := if s.fw.ofs = 0 then flash_set_keep_unlocked env true s else s
    let sector_size := env.flash_func_sector_size s1.fw.sector
    if sector_size = 0 then (commit_too_big env s1, some Ctl.brk)
    else
      let e := commit_erase env efuel r.pkt.len sector_size s1
      if e.2 = false then (e.1, some Ctl.stuck) else (e.1, none)

/-- The call `flash_write_buffer(fw_update.ofs, buf32, len_words)` of line 324:
`s` is the state at the top of the loop body (it holds the buffered packet),
`s3` the state that reaches the call. -/
def commit_write (env : Env W) (s s3 : State W) : Bool × W :=
  let pkt := (s.fw.slot s.fw.idx).pkt
  env.flash_write_buffer s3.world s3.fw.ofs (chunk_bytes pkt ((pkt.len + 3) / 4))
    ((pkt.len + 3) / 4)

/-- The state after the call of line 324 was logged. -/
def after_write (env : Env W) (s s3 : State W) : State W :=
  { s3 with world := (commit_write env s s3).2,
            trace := Event.write s3.fw.ofs (s.fw.slot s.fw.idx).pkt.len
                       (commit_write env s s3).1 :: s3.trace }

/-- One pass through the body of the commit loop (lines 291 to 353), entered
with `reads[idx].have_reply` set. -/
def commit_chunk (env : Env W) (efuel : Nat) (s : State W) : State W × Ctl :=
  let len := (s.fw.slot s.fw.idx).pkt.len
  let sector_size := env.flash_func_sector_size s.fw.sector
  match commit_prepare env efuel s with
  | (s1, some c) => (s1, c)
  | (s3, none) =>
    if (commit_write env s s3).1 = false then (after_write env s s3, Ctl.next)
    else commit_advance env len sector_size (after_write env s s3)

/-- The commit loop `while (fw_update.reads[fw_update.idx].have_reply)` and the
progress statement after it, with fuel. The flag tells whether the handler
returned within the fuel; otherwise the state is the one reached so far. -/
def commit_loop (env : Env W) (efuel : Nat) : Nat → State W → State W × Bool
  | 0, s => if (s.fw.slot s.fw.idx).have_reply then (s, false) else (set_progress s, true)
  | fuel + 1, s =>
    if (s.fw.slot s.fw.idx).have_reply then
      match commit_chunk env efuel s with
      | (s1, Ctl.next) => commit_loop env efuel fuel s1
      | (s1, Ctl.brk) => (set_progress s1, true)
      | (s1, Ctl.ret) => (s1, true)
      | (s1, Ctl.stuck) => (s1, false)
    else (set_progress s, true)

/-- Line 280, the branch of a transfer id that matches no slot. -/
def rtt_backoff (s : State W) : State W :=
  let fw1 : FwUpdate := { s.fw with rtt_ms := min 3000 ((s.fw.rtt_ms + 250) % 4294967296) }
  { s with fw := fw1 }

/-- Line 283: the response is decoded into `reads[idx].pkt`; the flag is the
return value of the decoder (`true` is failure). -/
def decode_response (env : Env W) (transfer : CanardRxTransfer) (idx : Nat) (s : State W) :
    State W × Bool :=
  let d := env.ReadResponse_decode transfer (s.fw.slot idx).pkt
  let r1 : ReadSlot := { (s.fw.slot idx) with pkt := d.1 }
  ({ s with fw := s.fw.setSlot idx r1 }, d.2)

/-- Lines 286 to 288: the slot is marked and the round-trip estimate updated. -/
def mark_reply (env : Env W) (idx : Nat) (s : State W) : State W :=
  let r := s.fw.slot idx
  let r1 : ReadSlot := { r with have_reply := true }
  let rtt := rtt_sample (env.millis s.world % 4294967296) r.sent_ms
  let fw1 : FwUpdate := { (s.fw.setSlot idx r1) with rtt_ms := rtt_filter s.fw.rtt_ms rtt }
  { s with fw := fw1 }

/-- Function `handle_file_read_response(ins, transfer)`. `efuel` bounds the
passes of each erase loop, `fuel` the passes of the commit loop; the flag tells
whether the handler returned within the fuel, otherwise the state is the one
reached so far. -/
def handle_file_read_response (env : Env W) (efuel fuel : Nat) (transfer : CanardRxTransfer)
    (s : State W) : State W × Bool :=
  if transfer.source_node_id ≠ s.fw.node_id then (s, true) else
  match find_slot env.P s.fw transfer.transfer_id with
  | none => (rtt_backoff s, true)
  | some idx =>
    let d := decode_response env transfer idx s
    if d.2 then (d.1, true) else commit_loop env efuel fuel (mark_reply env idx d.1)

/-! ## BeginFirmwareUpdate requests -/

/-- The slots after the seeding loop: `reads[i].offset = i * CHUNK`; the
counter `i` is a `uint8_t`, so the product cannot wrap. -/
def seed_reads (P : Nat) : List ReadSlot :=
  (List.range P).map (fun i => { zeroSlot with offset := i * CHUNK })

/-- The reply part of `handle_begin_firmware_update` (lines 385 to 398). -/
def begin_firmware_update_reply (env : Env W) (transfer : CanardRxTransfer) (s : State W) :
    State W :=
  (canardRequestOrRespond env
    { dest := transfer.source_node_id,
      signature := env.proto.BEGINFIRMWAREUPDATE_SIGNATURE,
      data_type_id := env.proto.BEGINFIRMWAREUPDATE_ID,
      transfer_id := transfer.transfer_id,
      priority := transfer.priority,
      kind := CanardTransferType.response,
      payload := TxPayload.begin_firmware_update_response
        env.proto.BEGINFIRMWAREUPDATE_RESPONSE_ERROR_OK } s).1

/-- The context written by lines 373 to 382 for a decoded request. -/
def begin_context (env : Env W) (transfer : CanardRxTransfer)
    (pkt : BeginFirmwareUpdateRequest) : FwUpdate :=
  { zeroFw env.P with
    reads := seed_reads env.P
    path := pkt.path ++ List.replicate (PATH_MAX + 1 - pkt.path.length) 0
    node_id := if pkt.source_node_id = 0 then transfer.source_node_id else pkt.source_node_id }

/-- Function `handle_begin_firmware_update(ins, transfer)`. -/
def handle_begin_firmware_update (env : Env W) (transfer : CanardRxTransfer) (s : State W) :
    State W :=
  if s.fw.node_id = 0 then
    match env.BeginFirmwareUpdateRequest_decode transfer with
    | none => s
    | some pkt =>
      if pkt.path.length > PATH_MAX then s
      else
        begin_firmware_update_reply env transfer
          { s with fw := begin_context env transfer pkt, trace := Event.begin_update :: s.trace }
  else begin_firmware_update_reply env transfer s

/-! ## Accept filter -/

/-- Function `shouldAcceptTransfer`: the `bool` result and the value written to
`*out_data_type_signature`, if any. -/
def shouldAcceptTransfer (proto : Proto) (local_node_id : Nat) (data_type_id : Nat)
    (transfer_type : CanardTransferType) (_source_node_id : Nat) : Bool × Option Nat :=
  if local_node_id = CANARD_BROADCAST_NODE_ID then
    if transfer_type = CanardTransferType.broadcast ∧ data_type_id = proto.ALLOCATION_ID then
      (true, some proto.ALLOCATION_SIGNATURE)
    else (false, none)
  else if data_type_id = proto.GETNODEINFO_ID then (true, some proto.GETNODEINFO_SIGNATURE)
  else if data_type_id = proto.BEGINFIRMWAREUPDATE_ID then
    (true, some proto.BEGINFIRMWAREUPDATE_SIGNATURE)
  else if data_type_id = proto.RESTARTNODE_ID then (true, some proto.RESTARTNODE_SIGNATURE)
  else if data_type_id = proto.FILE_READ_ID then (true, some proto.FILE_READ_SIGNATURE)
  else (false, none)

/-! ## Auxiliary definitions for the statements -/

/-- A sample instance of the protocol constants, with the data type ids of the
DroneCAN DSDL definitions (GetNodeInfo 1, RestartNode 5, BeginFirmwareUpdate 40,
FileRead 48, Allocation 1). -/
def dronecan : Proto :=
  { GETNODEINFO_ID := 1, GETNODEINFO_SIGNATURE := 0xEE468A8121C46A9E,
    BEGINFIRMWAREUPDATE_ID := 40, BEGINFIRMWAREUPDATE_SIGNATURE := 0xB7D725DF72724126,
    RESTARTNODE_ID := 5, RESTARTNODE_SIGNATURE := 0x569E05394A3017F0,
    FILE_READ_ID := 48, FILE_READ_SIGNATURE := 0x8DCDCA939F33F678,
    ALLOCATION_ID := 1, ALLOCATION_SIGNATURE := 0x0B2A812620A11D40,
    PRIORITY_HIGH := 8, PRIORITY_LOW := 24,
    BEGINFIRMWAREUPDATE_RESPONSE_ERROR_OK := 0 }

/-- The four (data type, transfer type) pairs that the specification lets an
identified node accept. -/
def SpecAccepts (proto : Proto) (data_type_id : Nat) (transfer_type : CanardTransferType) :
    Prop :=
  (data_type_id = proto.GETNODEINFO_ID ∧ transfer_type = CanardTransferType.request) ∨
  (data_type_id = proto.BEGINFIRMWAREUPDATE_ID ∧ transfer_type = CanardTransferType.request) ∨
  (data_type_id = proto.RESTARTNODE_ID ∧ transfer_type = CanardTransferType.request) ∨
  (data_type_id = proto.FILE_READ_ID ∧ transfer_type = CanardTransferType.response)

/-- The case labels of the `switch` of `shouldAcceptTransfer` are pairwise
distinct (a C `switch` does not compile otherwise). -/
def DistinctIds (proto : Proto) : Prop :=
  proto.GETNODEINFO_ID ≠ proto.BEGINFIRMWAREUPDATE_ID ∧
  proto.GETNODEINFO_ID ≠ proto.RESTARTNODE_ID ∧
  proto.GETNODEINFO_ID ≠ proto.FILE_READ_ID ∧
  proto.BEGINFIRMWAREUPDATE_ID ≠ proto.RESTARTNODE_ID ∧
  proto.BEGINFIRMWAREUPDATE_ID ≠ proto.FILE_READ_ID ∧
  proto.RESTARTNODE_ID ≠ proto.FILE_READ_ID

/-! ## A simulated environment for concrete runs -/

/-- A simulated board: pipeline depth `P`, sector sizes `sizes`, a blank flash
(every sector reads as erased), a clock standing at 0, a bus that takes every
frame and an image check that succeeds. The hardware state is the number of
`flash_write_buffer` calls that will still fail. A FileRead response carries its
data as payload; a BeginFirmwareUpdate request carries the source node id
followed by the path. -/
def simEnv (P : Nat) (sizes : Nat → Nat) : Env Nat :=
  { P := P
    proto := dronecan
    CHECK_FW_OK := 0
    FAIL_REASON_BAD_LENGTH_APP := 11
    millis := fun _ => 0
    flash_func_sector_size := sizes
    flash_func_is_erased := fun _ _ => true
    flash_func_erase_sector := fun w _ => w
    flash_write_buffer := fun w _ _ _ => (decide (w = 0), w - 1)
    flash_write_flush := fun w => w
    flash_set_keep_unlocked := fun w _ => w
    check_good_firmware := fun _ => 0
    enqueueTxFrames := fun _ _ t => (1, [{ id := t.data_type_id, data := [], data_len := 0 }])
    can_send := fun w _ => (true, w)
    ReadResponse_decode := fun t _ =>
      if t.payload.length > CHUNK then ({ error := 0, len := 0, data := [] }, true)
      else ({ error := 0, len := t.payload.length, data := t.payload }, false)
    BeginFirmwareUpdateRequest_decode := fun t =>
      match t.payload with
      | [] => none
      | b :: path => some { source_node_id := b, path := path } }

/-- A state with no update in progress, on a node with id 42; `w` is the
simulated hardware state. -/
def idleState (P : Nat) (w : Nat) : State Nat :=
  { fw := zeroFw P
    vendor_specific_status_code := 0
    local_node_id := 42
    tx_queue := []
    fail_count := 0
    node_id_allocation_transfer_id := 0
    send_next_node_id_allocation_request_at_ms := 0
    node_id_allocation_unique_id_offset := 0
    world := w
    trace := [] }

/-- A BeginFirmwareUpdate request from node 10 with source node id field 0 and
the path "fw". -/
def beginRequest : CanardRxTransfer :=
  { source_node_id := 10, transfer_id := 3, data_type_id := 40,
    transfer_type := CanardTransferType.request, priority := 30,
    payload := [0, 102, 119] }

/-- A FileRead response from node 10 with the given transfer id and data. -/
def readResponse (transfer_id : Nat) (data : List Nat) : CanardRxTransfer :=
  { source_node_id := 10, transfer_id := transfer_id, data_type_id := 48,
    transfer_type := CanardTransferType.response, priority := 30,
    payload := data }

/-- The inputs of a run: a BeginFirmwareUpdate request, a pass of the main loop
through `send_fw_reads`, a FileRead response. -/
inductive SimInput where
  | begin_update (t : CanardRxTransfer)
  | reads
  | response (t : CanardRxTransfer)
deriving DecidableEq, Repr

/-- One input handled in state `s`. -/
def simStep (env : Env W) (fuel : Nat) (s : State W) : SimInput → State W
  | SimInput.begin_update t => handle_begin_firmware_update env t s
  | SimInput.reads => send_fw_reads env s
  | SimInput.response t => (handle_file_read_response env fuel fuel t s).1

/-- A run over a list of inputs. -/
def simRun (env : Env W) (fuel : Nat) (inputs : List SimInput) (s : State W) : State W :=
  inputs.foldl (simStep env fuel) s

/-- A full chunk of data. -/
def fullChunk : List Nat := List.replicate 256 0

/-- A flash of two sectors of 1024 bytes. -/
def sizes2k : Nat → Nat := fun i => if i < 2 then 1024 else 0

/-- The inputs of an update served in order: the request, a pass through
`send_fw_reads`, then `n` full chunks answering the requests one by one. -/
def servedInOrder (n : Nat) : List SimInput :=
  [SimInput.begin_update beginRequest, SimInput.reads] ++
    (List.range n).map (fun i => SimInput.response (readResponse (i % 32) fullChunk))

/-- The write calls of a log. -/
def isWrite : Event → Bool
  | Event.write _ _ _ => true
  | _ => false

/-- A single slot pipeline on the two sector flash at the top of the commit
loop, with a reply of `len` bytes buffered for offset 0; `w` is the number of
write calls that will fail. -/
def bufferedState (len w : Nat) : State Nat :=
  mark_reply (simEnv 1 sizes2k) 0
    (decode_response (simEnv 1 sizes2k) (readResponse 0 (List.replicate len 0)) 0
      (simRun (simEnv 1 sizes2k) 4 (servedInOrder 0) (idleState 1 w))).1

/-! ## The log of one update and the reachable states -/

/-- The flash calls of the current update: the erases and writes logged since
the last BeginFirmwareUpdate request was taken (newest first). -/
def flashLog : List Event → List Event
  | [] => []
  | Event.begin_update :: _ => []
  | Event.erase k :: tr => Event.erase k :: flashLog tr
  | Event.write a l ok :: tr => Event.write a l ok :: flashLog tr
  | _ :: tr => flashLog tr

/-- The bytes committed by the successful writes of a log. -/
def committed : List Event → Nat
  | [] => 0
  | Event.write _ len true :: tr => committed tr + len
  | _ :: tr => committed tr

/-- Every write call of the log, successful or not, is made at the address that
equals the bytes committed before it, reduced to `uint32_t`. -/
def WritesAtOfs : List Event → Prop
  | [] => True
  | Event.write a _ _ :: tr => a = committed tr % 4294967296 ∧ WritesAtOfs tr
  | _ :: tr => WritesAtOfs tr

/-- The states of one update: it starts when `handle_begin_firmware_update`
takes a request (no update in progress, the request decodes, the path fits);
then the main loop calls `send_fw_reads` while the update is in progress and
drains the TX queue, FileRead responses and further BeginFirmwareUpdate
requests arrive, and the hardware state (the clock among it) moves. A response
leads to a new state when the handler returns. -/
inductive Reachable (env : Env W) : State W → Prop where
  | start (s0 : State W) (t : CanardRxTransfer) (pkt : BeginFirmwareUpdateRequest) :
      s0.fw.node_id = 0 → env.BeginFirmwareUpdateRequest_decode t = some pkt →
      pkt.path.length ≤ PATH_MAX → Reachable env (handle_begin_firmware_update env t s0)
  | reads (s : State W) :
      Reachable env s → s.fw.node_id ≠ 0 → Reachable env (send_fw_reads env s)
  | response (s : State W) (efuel fuel : Nat) (t : CanardRxTransfer) :
      Reachable env s → (handle_file_read_response env efuel fuel t s).2 = true →
      Reachable env (handle_file_read_response env efuel fuel t s).1
  | busy (s : State W) (t : CanardRxTransfer) :
      Reachable env s → s.fw.node_id ≠ 0 → Reachable env (handle_begin_firmware_update env t s)
  | drain (s : State W) : Reachable env s → Reachable env (processTx env s)
  | hardware (s : State W) (w : W) : Reachable env s → Reachable env { s with world := w }

/-- A step that leaves the write position, the erase mark, the offsets and the
buffered packets of the slots and the flash log alone; the update may end
(`node_id` may become 0). -/
structure Benign (s s' : State W) : Prop where
  ofs : s'.fw.ofs = s.fw.ofs
  sector : s'.fw.sector = s.fw.sector
  sector_ofs : s'.fw.sector_ofs = s.fw.sector_ofs
  idx : s'.fw.idx = s.fw.idx
  erased_to : s'.fw.erased_to = s.fw.erased_to
  node : s'.fw.node_id = s.fw.node_id ∨ s'.fw.node_id = 0
  len : s'.fw.reads.length = s.fw.reads.length
  offset : ∀ i, (s'.fw.slot i).offset = (s.fw.slot i).offset
  pkt : ∀ i, (s'.fw.slot i).pkt = (s.fw.slot i).pkt
  log : flashLog s'.trace = flashLog s.trace

/-- The effect of line 336 on the commit state: the update is over. -/
def end_update (s : State W) : State W :=
  let fw1 : FwUpdate := { s.fw with node_id := 0 }
  { s with fw := fw1 }

/-- The effect of lines 347 to 353 on the commit state, without the bus
traffic: the slot at `idx` is cleared, its offset moves on by `P * CHUNK`, and
`idx` rotates. -/
def commit_rotate (env : Env W) (s : State W) : State W :=
  let s1 := commit_clear_slot env s
  let fw1 : FwUpdate := { s1.fw with idx := (s1.fw.idx + 1) % env.P }
  { s1 with fw := fw1 }

/-- What it takes for a predicate on states to hold along every run of
`handle_file_read_response`: it survives the steps that leave the commit state
alone, the decoding of a response into a slot, and each way through the body
of the commit loop. -/
structure CommitInvariant (env : Env W) (I : State W → Prop) : Prop where
  benign : ∀ s s', I s → Benign s s' → I s'
  decode : ∀ t idx s, I s → I (decode_response env t idx s).1
  stuck : ∀ efuel s s3, I s → commit_prepare env efuel s = (s3, some Ctl.stuck) → I s3
  failed : ∀ efuel s s3, I s → commit_prepare env efuel s = (s3, none) →
    (commit_write env s s3).1 = false → I (after_write env s s3)
  last : ∀ efuel s s3, I s → commit_prepare env efuel s = (s3, none) →
    (commit_write env s s3).1 = true → (s.fw.slot s.fw.idx).pkt.len < CHUNK →
    I (end_update (commit_position env (s.fw.slot s.fw.idx).pkt.len
        (env.flash_func_sector_size s.fw.sector) (after_write env s s3)))
  next : ∀ efuel s s3, I s → commit_prepare env efuel s = (s3, none) →
    (commit_write env s s3).1 = true → CHUNK ≤ (s.fw.slot s.fw.idx).pkt.len →
    I (commit_rotate env (commit_position env (s.fw.slot s.fw.idx).pkt.len
        (env.flash_func_sector_size s.fw.sector) (after_write env s s3)))

/-- The commit position agrees with the log of the update: `ofs` is the number
of bytes committed by the successful writes (reduced to `uint32_t`), every
write call was made at the `ofs` of its time, and at least `c` bytes are
committed. -/
def TileInv (c : Nat) (s : State W) : Prop :=
  s.fw.ofs = committed (flashLog s.trace) % 4294967296 ∧
  WritesAtOfs (flashLog s.trace) ∧
  c ≤ committed (flashLog s.trace)

/-- A decoder that keeps packets within the bound of the DSDL type
`uint8[<=256] data`: it does not leave a length above `CHUNK` in a packet
whose length was within `CHUNK`, whether it accepts the transfer or rejects
it. A decoder that fills the packet before it tests the length (`storingEnv`)
is not of this kind; the theorems on the window of the pipeline and on the
transfer ids do not assume it. -/
def DecoderBounded (env : Env W) : Prop :=
  ∀ t p, p.len ≤ CHUNK → (env.ReadResponse_decode t p).1.len ≤ CHUNK

/-- The pipeline depth is a positive number that the `uint8_t` loop counters
can reach. -/
def PipelineOk (env : Env W) : Prop := 0 < env.P ∧ env.P ≤ 255

/-- The sliding window of the pipeline while an update is in progress: counted
from `idx`, the `k`-th slot asks for offset `ofs + k * CHUNK` (in `uint32_t`
arithmetic). -/
def Window (env : Env W) (s : State W) : Prop :=
  s.fw.node_id ≠ 0 → ∀ k, k < env.P →
    (s.fw.slot ((s.fw.idx + k) % env.P)).offset = (s.fw.ofs + k * CHUNK) % 4294967296

/-- Each slot's offset is its initial `i * CHUNK` plus a multiple of
`P * CHUNK` (in `uint32_t` arithmetic). -/
def Strided (env : Env W) (s : State W) : Prop :=
  ∀ i, i < env.P → ∃ m, (s.fw.slot i).offset = (i * CHUNK + m * (env.P * CHUNK)) % 4294967296

/-- The invariant of the slots. -/
def SlotInv (env : Env W) (s : State W) : Prop :=
  s.fw.reads.length = env.P ∧ s.fw.idx < env.P ∧ s.fw.ofs < 4294967296 ∧
  (∀ i, i < env.P → (s.fw.slot i).pkt.len ≤ CHUNK) ∧
  Strided env s ∧ Window env s

/-- The state right after `beginRequest` was taken by an idle node with a
pipeline of `P` slots on a flash of sector sizes `sizes`. -/
def startedState (P : Nat) (sizes : Nat → Nat) : State Nat :=
  handle_begin_firmware_update (simEnv P sizes) beginRequest (idleState P 0)

/-! ## Flash geometry -/

/-- The offset at which sector `k` starts: the sizes of the sectors before it. -/
def sector_start (env : Env W) : Nat → Nat
  | 0 => 0
  | k + 1 => sector_start env k + env.flash_func_sector_size k

/-- A flash of `n` sectors that the integer types of `can.cpp` can address:
the sector index fits the `uint8_t` field `fw_update.sector` (at most 255
sectors), the sectors `0 .. n-1` exist and no other, and a chunk written
anywhere in the flash ends below `2^32`. -/
structure Geometry (env : Env W) (n : Nat) : Prop where
  count : n ≤ 255
  present : ∀ i, i < n → env.flash_func_sector_size i ≠ 0
  absent : ∀ i, n ≤ i → env.flash_func_sector_size i = 0
  fits : sector_start env n + CHUNK ≤ 4294967296

/-- Every existing sector is at least `CHUNK` bytes long. -/
def SectorsAtLeastChunk (env : Env W) (n : Nat) : Prop :=
  ∀ i, i < n → CHUNK ≤ env.flash_func_sector_size i

/-- Every sector size is a multiple of `CHUNK`. -/
def SectorsChunkMultiples (env : Env W) (n : Nat) : Prop :=
  ∀ i, i < n → CHUNK ∣ env.flash_func_sector_size i

/-- Sector `k` has a byte in `[a, a + l)`. -/
def Intersects (env : Env W) (k a l : Nat) : Prop :=
  ∃ b, a ≤ b ∧ b < a + l ∧ sector_start env k ≤ b ∧
    b < sector_start env k + env.flash_func_sector_size k

/-- Erase before write on a flash log (newest first): every successful write
is preceded in the log by an erase of every sector that intersects it. -/
def ErasedBeforeWrite (env : Env W) : List Event → Prop
  | [] => True
  | Event.write a l true :: tr =>
    (∀ k, Intersects env k a l → Event.erase k ∈ tr) ∧ ErasedBeforeWrite env tr
  | _ :: tr => ErasedBeforeWrite env tr

/-- The invariant of the write position and the erase mark on a flash of `n`
sectors. -/
def FlashInv (env : Env W) (n : Nat) (s : State W) : Prop :=
  s.fw.sector ≤ n ∧ s.fw.erased_to ≤ n + 1 ∧
  (s.fw.sector < n →
    s.fw.ofs = sector_start env s.fw.sector + s.fw.sector_ofs ∧
    s.fw.sector_ofs < env.flash_func_sector_size s.fw.sector) ∧
  (∀ j, j < s.fw.erased_to → Event.erase j ∈ flashLog s.trace) ∧
  (s.fw.sector < n →
    s.fw.sector < s.fw.erased_to ∨ (s.fw.sector = s.fw.erased_to ∧ s.fw.sector_ofs = 0)) ∧
  ErasedBeforeWrite env (flashLog s.trace) ∧
  (∀ i, (s.fw.slot i).pkt.len ≤ CHUNK)

/-- Every erase of a flash log is of one of the sectors `0 .. n-1`, and every
write call (of `len_words = (len + 3) / 4` words) covers only bytes below the
total size of the flash. -/
def InsideFlash (env : Env W) (n : Nat) : List Event → Prop
  | [] => True
  | Event.erase k :: tr => k < n ∧ InsideFlash env n tr
  | Event.write a l _ :: tr =>
    a + 4 * ((l + 3) / 4) ≤ sector_start env n ∧ InsideFlash env n tr
  | _ :: tr => InsideFlash env n tr

/-- The invariant behind C4: the flash invariant, slot offsets that are
multiples of `CHUNK`, an erase mark within the flash and a log that stays
inside the flash. -/
def InsideInv (env : Env W) (n : Nat) (s : State W) : Prop :=
  FlashInv env n s ∧ (∀ i, CHUNK ∣ (s.fw.slot i).offset) ∧ s.fw.erased_to ≤ n ∧
  InsideFlash env n (flashLog s.trace)

/-! ## Long runs of the simulated board -/

/-- The single slot pipeline of a simulated update that awaits its chunk number
`n` (counted from 0): the slot holds the request with transfer id `n mod 32`
for the offset `ofs`, no write is set to fail. -/
structure Lane (n : Nat) (s : State Nat) : Prop where
  node : s.fw.node_id = 10
  len : s.fw.reads.length = 1
  idx : s.fw.idx = 0
  tx : (s.fw.slot 0).tx_id = n % 32
  off : (s.fw.slot 0).offset = s.fw.ofs
  noreply : (s.fw.slot 0).have_reply = false
  tid : s.fw.transfer_id = (n + 1) % 32
  world : s.world = 0

/-- A flash of `N` sectors of 256 bytes. -/
def uniformFlash (N : Nat) : Nat → Nat := fun i => if i < N then 256 else 0

/-- A flash of one sector of `2^32 - 1` bytes. -/
def sizesOne : Nat → Nat := fun i => if i = 0 then 4294967295 else 0

/-- The state of the simulated single slot update on the flash `sizes` after
the request, a pass through `send_fw_reads` and `n` full chunks served in
order. -/
def servedState (sizes : Nat → Nat) (n : Nat) : State Nat :=
  simRun (simEnv 1 sizes) 4 (servedInOrder n) (idleState 1 0)

/-! ## Replies, erase calls and a silent bus -/

/-- The transfer handed to `canardRequestOrRespond` by lines 385 to 398 of
`handle_begin_firmware_update`: a BeginFirmwareUpdate response with
`error = OK` for the source node of the request. -/
def begin_response (env : Env W) (transfer : CanardRxTransfer) : TxTransfer :=
  { dest := transfer.source_node_id,
    signature := env.proto.BEGINFIRMWAREUPDATE_SIGNATURE,
    data_type_id := env.proto.BEGINFIRMWAREUPDATE_ID,
    transfer_id := transfer.transfer_id,
    priority := transfer.priority,
    kind := CanardTransferType.response,
    payload := TxPayload.begin_firmware_update_response
      env.proto.BEGINFIRMWAREUPDATE_RESPONSE_ERROR_OK }

/-- A BeginFirmwareUpdate request with an empty payload; the simulated decoder
rejects it. -/
def emptyRequest : CanardRxTransfer := { beginRequest with payload := [] }

/-- The erase calls of a log, newest first. -/
def erases : List Event → List Nat
  | [] => []
  | Event.erase k :: tr => k :: erases tr
  | _ :: tr => erases tr


/-- The decoded `uavcan_protocol_dynamic_node_id_Allocation`: `unique_id_len`
is `unique_id.len`, `unique_id` the bytes of `unique_id.data` (bytes beyond the
list read as 0). -/
structure Allocation where
  node_id : Nat
  first_part_of_unique_id : Bool
  unique_id_len : Nat
  unique_id : List Nat
deriving DecidableEq, Repr

/-- What the allocation code takes from outside `can.cpp`: two constants of
`dronecan_msgs.h`, the bytes stored at `UDID_START` and the generated decoder
(`none` is failure). -/
structure DnaEnv where
  MIN_REQUEST_PERIOD_MS : Nat
  MAX_FOLLOWUP_DELAY_MS : Nat
  UDID : List Nat
  Allocation_decode : CanardRxTransfer → Option Allocation

/-- The static locals `m_z` and `m_w` of `get_randomu16`. -/
structure Rng where
  m_z : Nat
  m_w : Nat
deriving DecidableEq, Repr

/-- Modelled from the spec:
`sizeof(uavcan_protocol_dynamic_node_id_Allocation::unique_id.data)`, the 16
bytes of a unique id (`dronecan_msgs.h` is not part of the sources). -/
def UNIQUE_ID_SIZE : Nat := 16

/-- Function `readUniqueID(out_uid)`: 16 bytes, the first `MIN(len, 12)` copied
from `UDID_START`, the others 0. -/
def readUniqueID (dna : DnaEnv) : List Nat :=
  (List.range UNIQUE_ID_SIZE).map
    (fun i => if i < min UNIQUE_ID_SIZE 12 then dna.UDID.getD i 0 else 0)

/-- Function `get_randomu16()` with its static state passed explicitly. -/
def get_randomu16 (r : Rng) : Nat × Rng :=
  let m_z := (36969 * (r.m_z % 65536) + r.m_z / 65536) % 4294967296
  let m_w := (18000 * (r.m_w % 65536) + r.m_w / 65536) % 4294967296
  ((((m_z * 65536) % 4294967296 + m_w) % 4294967296) % 65536, { m_z := m_z, m_w := m_w })

/-- Function `get_random_range(range)`; `range` is a `uint16_t`. -/
def get_random_range (range : Nat) (r : Rng) : Nat × Rng :=
  ((get_randomu16 r).1 % (range % 65536), (get_randomu16 r).2)

/-- The test `memcmp(a, b, n) == 0` on byte arrays. -/
def memcmp_eq (a b : List Nat) (n : Nat) : Bool :=
  (List.range n).all (fun i => a.getD i 0 == b.getD i 0)

/-- Modelled from the spec: `canardSetLocalNodeID` of libcanard (not under
`src/`): the given id is committed as the local node id. -/
def canardSetLocalNodeID (id : Nat) (s : State W) : State W :=
  { s with local_node_id := id }

/-- Function `handle_allocation_response(ins, transfer)`. -/
def handle_allocation_response (env : Env W) (dna : DnaEnv) (transfer : CanardRxTransfer)
    (s : State W) (rng : Rng) : State W × Rng :=
  let r := get_random_range dna.MAX_FOLLOWUP_DELAY_MS rng
  let s1 : State W :=
    { s with send_next_node_id_allocation_request_at_ms :=
        (env.millis s.world % 4294967296 + dna.MIN_REQUEST_PERIOD_MS + r.1) % 4294967296 }
  if transfer.source_node_id = CANARD_BROADCAST_NODE_ID then
    ({ s1 with node_id_allocation_unique_id_offset := 0 }, r.2)
  else
    match dna.Allocation_decode transfer with
    | none => (s1, r.2)
    | some msg =>
      if memcmp_eq msg.unique_id (readUniqueID dna) msg.unique_id_len = false then
        ({ s1 with node_id_allocation_unique_id_offset := 0 }, r.2)
      else if msg.unique_id_len < UNIQUE_ID_SIZE then
        ({ s1 with
            node_id_allocation_unique_id_offset := msg.unique_id_len
            send_next_node_id_allocation_request_at_ms :=
              (s1.send_next_node_id_allocation_request_at_ms + 4294967296
                - dna.MIN_REQUEST_PERIOD_MS % 4294967296) % 4294967296 }, r.2)
      else if msg.node_id ≠ CANARD_BROADCAST_NODE_ID then
        (canardSetLocalNodeID msg.node_id s1, r.2)
      else (s1, r.2)

/-- A simulated allocation setup: the unique id is `1, 2, .., 12`, and an
Allocation message carries the node id, the length of the unique id part and
its bytes. -/
def simDna : DnaEnv :=
  { MIN_REQUEST_PERIOD_MS := 600
    MAX_FOLLOWUP_DELAY_MS := 400
    UDID := [1, 2, 3, 4, 5, 6, 7, 8, 9, 10, 11, 12]
    Allocation_decode := fun t =>
      match t.payload with
      | node_id :: len :: bytes =>
        some { node_id := node_id, first_part_of_unique_id := false,
               unique_id_len := len, unique_id := bytes }
      | _ => none }

/-- An Allocation message from the allocator, node 1. -/
def allocationMessage (payload : List Nat) : CanardRxTransfer :=
  { source_node_id := 1, transfer_id := 0, data_type_id := 1,
    transfer_type := CanardTransferType.broadcast, priority := 30, payload := payload }

/-- A node that has no id yet. -/
def anonymousState : State Nat := { idleState 1 0 with local_node_id := 0 }


/-! ## A bus that takes no frame -/

/-- The simulated board on a bus on which every send fails. -/
def deafEnv : Env Nat :=
  { simEnv 1 sizes2k with can_send := fun w _ => (false, w) }

/-- Two frames to queue. -/
def frameA : CanardCANFrame := { id := 1, data := [], data_len := 0 }

/-- The second frame. -/
def frameB : CanardCANFrame := { id := 2, data := [], data_len := 0 }

/-- An idle node with the TX queue `q` and `n` failed sends counted. -/
def queuedState (q : List CanardCANFrame) (n : Nat) : State Nat :=
  { idleState 1 0 with tx_queue := q, fail_count := n }


/-! ## The read schedule in the words of the spec -/

/-- A FileRead response of 256 bytes with transfer id 0 whose source node id
is 0. -/
def anonymousResponse : CanardRxTransfer :=
  { readResponse 0 fullChunk with source_node_id := 0 }


/-! ## Responses that match no slot -/

/-- A run of FileRead responses handled one after the other. -/
def handle_responses (env : Env W) (efuel fuel : Nat) (ts : List CanardRxTransfer)
    (s : State W) : State W :=
  ts.foldl (fun x t => (handle_file_read_response env efuel fuel t x).1) s

/-- The transfer is a response from the server node whose transfer id is the
`tx_id` of no slot of `s`. -/
def Unmatched (env : Env W) (s : State W) (t : CanardRxTransfer) : Prop :=
  t.source_node_id = s.fw.node_id ∧ ∀ i, i < env.P → (s.fw.slot i).tx_id ≠ t.transfer_id


/-! ## Transfer dispatch and allocation requests -/

/-- What `handle_get_node_info` takes from outside `can.cpp`: the generated
encoder of the GetNodeInfo response, applied to the node status (uptime, mode,
vendor status) and the unique id; versions, board id and name are build
constants inside it. -/
structure InfoEnv where
  GetNodeInfoResponse_encode : Nat → Nat → Nat → List Nat → List Nat

/-- The node as the callbacks of `can.cpp` see it: the state of the update
engine, the statics of the random generator, the fields `uptime_sec` and `mode`
of `node_status`, and whether `NVIC_SystemReset()` was called. -/
structure Node (W : Type) where
  st : State W
  rng : Rng
  uptime_sec : Nat
  mode : Nat
  reset : Bool

/-- Function `handle_get_node_info(ins, transfer)`. -/
def handle_get_node_info (env : Env W) (dna : DnaEnv) (info : InfoEnv)
    (transfer : CanardRxTransfer) (n : Node W) : Node W :=
  let uptime := (env.millis n.st.world % 4294967296) / 1000
  let t : TxTransfer :=
    { dest := transfer.source_node_id,
      signature := env.proto.GETNODEINFO_SIGNATURE,
      data_type_id := env.proto.GETNODEINFO_ID,
      transfer_id := transfer.transfer_id,
      priority := transfer.priority,
      kind := CanardTransferType.response,
      payload := TxPayload.raw
        (info.GetNodeInfoResponse_encode uptime n.mode n.st.vendor_specific_status_code
          (readUniqueID dna)) }
  { n with st := (canardRequestOrRespond env t n.st).1, uptime_sec := uptime }

/-- Function `onTransferReceived(ins, transfer)`. The flag tells whether the
callback returned within the fuel of the FileRead handler; a RestartNode
transfer calls `NVIC_SystemReset()`, recorded in `reset`. -/
def onTransferReceived (env : Env W) (dna : DnaEnv) (info : InfoEnv) (efuel fuel : Nat)
    (transfer : CanardRxTransfer) (n : Node W) : Node W × Bool :=
  if n.st.local_node_id = CANARD_BROADCAST_NODE_ID then
    if transfer.transfer_type = CanardTransferType.broadcast ∧
        transfer.data_type_id = env.proto.ALLOCATION_ID then
      let r := handle_allocation_response env dna transfer n.st n.rng
      ({ n with st := r.1, rng := r.2 }, true)
    else (n, true)
  else if transfer.data_type_id = env.proto.GETNODEINFO_ID then
    (handle_get_node_info env dna info transfer n, true)
  else if transfer.data_type_id = env.proto.BEGINFIRMWAREUPDATE_ID then
    ({ n with st := handle_begin_firmware_update env transfer n.st }, true)
  else if transfer.data_type_id = env.proto.FILE_READ_ID then
    ({ n with st := (handle_file_read_response env efuel fuel transfer n.st).1 },
      (handle_file_read_response env efuel fuel transfer n.st).2)
  else if transfer.data_type_id = env.proto.RESTARTNODE_ID then
    ({ n with reset := true }, true)
  else (n, true)

/-- Modelled from the spec: `canardBroadcast` of libcanard (not under `src/`),
called through `canard_broadcast`: the frames of the transfer are appended to
the TX queue and the transfer id of the caller advances modulo 32. -/
def canardBroadcast (env : Env W) (t : TxTransfer) (s : State W) : State W × Int :=
  canardRequestOrRespond env t s

/-- The payload of an allocation request for the offset `ofs`: byte 0 is
`(BROADCAST << 1)`, with bit 0 set for the first part, followed by `uid_size`
bytes of the unique id from `ofs` on (bytes beyond the id read as 0). -/
def allocation_request (dna : DnaEnv) (ofs : Nat) : List Nat :=
  let byte0 := (CANARD_BROADCAST_NODE_ID * 2) % 256 + (if ofs = 0 then 1 else 0)
  let uid_size0 := (UNIQUE_ID_SIZE + 256 - ofs) % 256
  let uid_size := if uid_size0 > 6 then 6 else uid_size0
  byte0 :: (List.range uid_size).map (fun i => (readUniqueID dna).getD (ofs + i) 0)

/-- Function `can_handle_DNA()`. -/
def can_handle_DNA (env : Env W) (dna : DnaEnv) (n : Node W) : Node W :=
  if n.st.local_node_id ≠ CANARD_BROADCAST_NODE_ID then n
  else if env.millis n.st.world % 4294967296
      < n.st.send_next_node_id_allocation_request_at_ms then n
  else
    let r := get_random_range dna.MAX_FOLLOWUP_DELAY_MS n.rng
    let s1 : State W :=
      { n.st with send_next_node_id_allocation_request_at_ms :=
          (env.millis n.st.world % 4294967296 + dna.MIN_REQUEST_PERIOD_MS + r.1)
            % 4294967296 }
    let t : TxTransfer :=
      { dest := CANARD_BROADCAST_NODE_ID,
        signature := env.proto.ALLOCATION_SIGNATURE,
        data_type_id := env.proto.ALLOCATION_ID,
        transfer_id := s1.node_id_allocation_transfer_id,
        priority := env.proto.PRIORITY_LOW,
        kind := CanardTransferType.broadcast,
        payload := TxPayload.raw
          (allocation_request dna s1.node_id_allocation_unique_id_offset) }
    let s2 := (canardBroadcast env t s1).1
    let s3 : State W :=
      { s2 with
        node_id_allocation_transfer_id :=
          incrementTransferID s2.node_id_allocation_transfer_id
        node_id_allocation_unique_id_offset := 0 }
    { n with st := s3, rng := r.2 }

/-- What happens to a node between two looks at it: a transfer is received,
the main loop calls `can_handle_DNA`, `send_fw_reads` (while an update is in
progress) or `processTx`, or the hardware state (the clock among it) moves. -/
inductive NodeInput (W : Type) where
  | rx (t : CanardRxTransfer)
  | dna_poll
  | reads
  | drain
  | hardware (w : W)

/-- One input handled by the node. -/
def nodeStep (env : Env W) (dna : DnaEnv) (info : InfoEnv) (efuel fuel : Nat) (n : Node W) :
    NodeInput W → Node W
  | NodeInput.rx t => (onTransferReceived env dna info efuel fuel t n).1
  | NodeInput.dna_poll => can_handle_DNA env dna n
  | NodeInput.reads => if n.st.fw.node_id ≠ 0 then { n with st := send_fw_reads env n.st } else n
  | NodeInput.drain => { n with st := processTx env n.st }
  | NodeInput.hardware w => { n with st := { n.st with world := w } }

/-- A run of the node over a list of inputs. -/
def nodeRun (env : Env W) (dna : DnaEnv) (info : InfoEnv) (efuel fuel : Nat)
    (inputs : List (NodeInput W)) (n : Node W) : Node W :=
  inputs.foldl (nodeStep env dna info efuel fuel) n

/-- The identity of a node: its local node id and the allocation state. -/
def identity (n : Node W) : Nat × Nat × Nat × Nat × Rng :=
  (n.st.local_node_id, n.st.node_id_allocation_transfer_id,
    n.st.send_next_node_id_allocation_request_at_ms,
    n.st.node_id_allocation_unique_id_offset, n.rng)

/-- The same for the state of the update engine alone. -/
def stateIdentity (s : State W) : Nat × Nat × Nat × Nat :=
  (s.local_node_id, s.node_id_allocation_transfer_id,
    s.send_next_node_id_allocation_request_at_ms, s.node_id_allocation_unique_id_offset)

/-- A simulated encoder for GetNodeInfo responses. -/
def simInfo : InfoEnv :=
  { GetNodeInfoResponse_encode := fun uptime mode status uid => uptime :: mode :: status :: uid }

/-- A node without an id whose allocation request is due, with unique id offset
`ofs`. -/
def anonymousNode (ofs : Nat) : Node Nat :=
  { st := { anonymousState with node_id_allocation_unique_id_offset := ofs },
    rng := { m_z := 1234, m_w := 76542 }, uptime_sec := 0, mode := 0, reset := false }

/-- A node with id 42 and no update in progress. -/
def identifiedNode : Node Nat :=
  { st := idleState 1 0, rng := { m_z := 1234, m_w := 76542 }, uptime_sec := 0, mode := 0,
    reset := false }


/-! ## Transfer ids of the slots -/

/-- The simulated board with a pipeline of two slots whose hardware state is
the clock in milliseconds; every write succeeds. -/
def clockEnv : Env Nat :=
  { simEnv 2 sizes2k with
    millis := fun w => w
    flash_write_buffer := fun w _ _ _ => (true, w) }

/-- The inputs of an update between two looks at its state: a pass of the main
loop through `send_fw_reads`, a FileRead response, a move of the hardware state
(the clock among it). -/
inductive UpdateInput (W : Type) where
  | reads
  | response (t : CanardRxTransfer)
  | hardware (w : W)

/-- One input handled in state `s`. -/
def updateStep (env : Env W) (fuel : Nat) (s : State W) : UpdateInput W → State W
  | UpdateInput.reads => send_fw_reads env s
  | UpdateInput.response t => (handle_file_read_response env fuel fuel t s).1
  | UpdateInput.hardware w => { s with world := w }

/-- A run of an update over a list of inputs. -/
def updateRun (env : Env W) (fuel : Nat) (inputs : List (UpdateInput W)) (s : State W) :
    State W :=
  inputs.foldl (updateStep env fuel) s

/-- The run is one of an update in progress: `send_fw_reads` is called only
while `node_id != 0` and every response is handled within the fuel. -/
def runOk (env : Env W) (fuel : Nat) : List (UpdateInput W) → State W → Bool
  | [], _ => true
  | UpdateInput.reads :: rest, s =>
    decide (s.fw.node_id ≠ 0) && runOk env fuel rest (send_fw_reads env s)
  | UpdateInput.response t :: rest, s =>
    (handle_file_read_response env fuel fuel t s).2 &&
      runOk env fuel rest (handle_file_read_response env fuel fuel t s).1
  | UpdateInput.hardware w :: rest, s => runOk env fuel rest { s with world := w }

/-- The second slot is lost 32 times: the clock moves on by 600 ms and
`send_fw_reads` issues its read again. -/
def resends : Nat → List (UpdateInput Nat)
  | 0 => []
  | k + 1 => resends k ++ [UpdateInput.hardware (1000 + 600 * (k + 1)), UpdateInput.reads]

/-- A chunk of 256 bytes of value `b`. -/
def chunkOf (b : Nat) : List Nat := List.replicate 256 b

/-- A run on the two slot pipeline: both reads are issued (transfer ids 0 and
1), the first chunk is committed and slot 0 asks for offset 512 with transfer
id 2, its answer arrives and is buffered, and the read of slot 1 (offset 256)
is lost and issued again 32 times. -/
def aliasRun : List (UpdateInput Nat) :=
  [UpdateInput.reads, UpdateInput.response (readResponse 0 fullChunk),
    UpdateInput.response (readResponse 2 (chunkOf 1))] ++ resends 32

/-- The state the run ends in. -/
def aliasState : State Nat :=
  updateRun clockEnv 4 aliasRun
    (handle_begin_firmware_update clockEnv beginRequest (idleState 2 1000))

/-- The two slot pipeline of the simulated board after the request was taken
and both reads were issued. -/
def sentState : State Nat := send_fw_reads (simEnv 2 sizes2k) (startedState 2 sizes2k)

/-- The offsets of the read requests handed to libcanard since the update
began, newest first. -/
def issued : List Event → List Nat
  | [] => []
  | Event.begin_update :: _ => []
  | Event.tx t _ :: tr =>
    match t.payload with
    | TxPayload.read_request _ o => o :: issued tr
    | _ => issued tr
  | _ :: tr => issued tr

/-- The number of read requests issued after the newest request for offset `o`
(the length of the list when there is none). -/
def age : List Nat → Nat → Nat
  | [], _ => 0
  | o' :: l, o => if o' = o then 0 else age l o + 1

/-- Slot `i` has been sent in this update, and the latest read for its offset
is among the last 32 reads issued. -/
def Recent (s : State W) (i : Nat) : Prop :=
  age (issued s.trace) (s.fw.slot i).offset < min (issued s.trace).length 32

instance (s : State W) (i : Nat) : Decidable (Recent s i) :=
  inferInstanceAs (Decidable (_ < _))

/-- The transfer ids follow the reads issued: `transfer_id` is their number
modulo 32, and a slot that has been sent holds the number, modulo 32, that the
newest read for its offset had among them. -/
def TxInv (env : Env W) (s : State W) : Prop :=
  s.fw.transfer_id = (issued s.trace).length % 32 ∧
  ∀ i, i < env.P → age (issued s.trace) (s.fw.slot i).offset < (issued s.trace).length →
    (s.fw.slot i).tx_id
      = ((issued s.trace).length - 1 - age (issued s.trace) (s.fw.slot i).offset) % 32

/-- A step that issues no read: the transfer id, the ids and offsets of the
slots and the reads issued stay; the update may end. -/
structure SameTx (s s' : State W) : Prop where
  transfer_id : s'.fw.transfer_id = s.fw.transfer_id
  tx : ∀ i, (s'.fw.slot i).tx_id = (s.fw.slot i).tx_id
  offset : ∀ i, (s'.fw.slot i).offset = (s.fw.slot i).offset
  reads : issued s'.trace = issued s.trace
  node : s'.fw.node_id = s.fw.node_id ∨ s'.fw.node_id = 0


/-- The offsets of the slots form a ring: counted from `idx`, the `k`-th slot
asks for chunk number `c + k` of the file, for some `c` (in `uint32_t`
arithmetic). Nothing is said of `ofs`. -/
def OffsetRing (env : Env W) (s : State W) : Prop :=
  s.fw.reads.length = env.P ∧ s.fw.idx < env.P ∧
  ∃ c, ∀ k, k < env.P →
    (s.fw.slot ((s.fw.idx + k) % env.P)).offset = ((c + k) * CHUNK) % 4294967296

/-! ## Decodes that leave more than a chunk -/

/-- The decode that `handle_file_read_response` makes of transfer `t` in state
`s`, if it makes one, leaves a length of at most `CHUNK` in the slot, whether
the decoder accepts the transfer or not. -/
def DecodeBounded (env : Env W) (t : CanardRxTransfer) (s : State W) : Prop :=
  t.source_node_id = s.fw.node_id → ∀ idx, find_slot env.P s.fw t.transfer_id = some idx →
    (env.ReadResponse_decode t (s.fw.slot idx).pkt).1.len ≤ CHUNK

/-- The states of an update along whose run every decode left a length of at
most `CHUNK` in its slot: the steps of `Reachable`, with that condition on each
response handled. Nothing is asked of the decoder on other transfers. -/
inductive BoundedRun (env : Env W) : State W → Prop where
  | start (s0 : State W) (t : CanardRxTransfer) (pkt : BeginFirmwareUpdateRequest) :
      s0.fw.node_id = 0 → env.BeginFirmwareUpdateRequest_decode t = some pkt →
      pkt.path.length ≤ PATH_MAX → BoundedRun env (handle_begin_firmware_update env t s0)
  | reads (s : State W) :
      BoundedRun env s → s.fw.node_id ≠ 0 → BoundedRun env (send_fw_reads env s)
  | response (s : State W) (efuel fuel : Nat) (t : CanardRxTransfer) :
      BoundedRun env s → DecodeBounded env t s →
      (handle_file_read_response env efuel fuel t s).2 = true →
      BoundedRun env (handle_file_read_response env efuel fuel t s).1
  | busy (s : State W) (t : CanardRxTransfer) :
      BoundedRun env s → s.fw.node_id ≠ 0 →
      BoundedRun env (handle_begin_firmware_update env t s)
  | drain (s : State W) : BoundedRun env s → BoundedRun env (processTx env s)
  | hardware (s : State W) (w : W) : BoundedRun env s → BoundedRun env { s with world := w }

end APBootloader

namespace APBootloader

variable {W : Type}

/-! ## Basic facts about the slots -/

theorem slot_setSlot (fw : FwUpdate) (i j : Nat) (r : ReadSlot) :
    (fw.setSlot i r).slot j = if i = j ∧ i < fw.reads.length then r else fw.slot j := by
  unfold FwUpdate.setSlot FwUpdate.slot
  simp only [List.getD_eq_getElem?_getD, List.getElem?_set]
  by_cases h : i = j
  · subst h
    by_cases hl : i < fw.reads.length
    · simp [hl]
    · simp [hl, List.getElem?_eq_none (Nat.le_of_not_lt hl)]
  · simp [h]

@[simp] theorem setSlot_ofs (fw : FwUpdate) (i : Nat) (r : ReadSlot) :
    (fw.setSlot i r).ofs = fw.ofs := rfl

@[simp] theorem setSlot_node_id (fw : FwUpdate) (i : Nat) (r : ReadSlot) :
    (fw.setSlot i r).node_id = fw.node_id := rfl

@[simp] theorem setSlot_path (fw : FwUpdate) (i : Nat) (r : ReadSlot) :
    (fw.setSlot i r).path = fw.path := rfl

@[simp] theorem setSlot_sector (fw : FwUpdate) (i : Nat) (r : ReadSlot) :
    (fw.setSlot i r).sector = fw.sector := rfl

@[simp] theorem setSlot_sector_ofs (fw : FwUpdate) (i : Nat) (r : ReadSlot) :
    (fw.setSlot i r).sector_ofs = fw.sector_ofs := rfl

@[simp] theorem setSlot_transfer_id (fw : FwUpdate) (i : Nat) (r : ReadSlot) :
    (fw.setSlot i r).transfer_id = fw.transfer_id := rfl

@[simp] theorem setSlot_idx (fw : FwUpdate) (i : Nat) (r : ReadSlot) :
    (fw.setSlot i r).idx = fw.idx := rfl

@[simp] theorem setSlot_erased_to (fw : FwUpdate) (i : Nat) (r : ReadSlot) :
    (fw.setSlot i r).erased_to = fw.erased_to := rfl

@[simp] theorem setSlot_length (fw : FwUpdate) (i : Nat) (r : ReadSlot) :
    (fw.setSlot i r).reads.length = fw.reads.length := by
  simp [FwUpdate.setSlot]

/-! ## Frame facts -/

/-- The erase loop only moves `erased_to`, the hardware state and the log, and
logs nothing but erases. -/
theorem erase_loop_shape (env : Env W) (fuel : Nat) (s : State W) :
    ∃ E w T, (erase_loop env fuel s).1
        = { s with fw := { s.fw with erased_to := E }, world := w, trace := T ++ s.trace }
      ∧ ∀ e ∈ T, ∃ k, e = Event.erase k := by
  induction fuel generalizing s with
  | zero => exact ⟨s.fw.erased_to, s.world, [], by simp [erase_loop], by simp⟩
  | succ n ih =>
    unfold erase_loop
    split
    · obtain ⟨E, w, T, h, hT⟩ := ih
        { (flash_func_erase_sector env s.fw.erased_to s) with
          fw := { (flash_func_erase_sector env s.fw.erased_to s).fw with
            erased_to := ((flash_func_erase_sector env s.fw.erased_to s).fw.erased_to + 1)
              % 65536 } }
      refine ⟨E, w, T ++ [Event.erase s.fw.erased_to], ?_, ?_⟩
      · simp only [h]
        simp [flash_func_erase_sector]
      · intro e he
        rcases List.mem_append.1 he with h1 | h1
        · exact hT e h1
        · exact ⟨s.fw.erased_to, by simpa using h1⟩
    · exact ⟨s.fw.erased_to, s.world, [], by simp, by simp⟩

theorem erase_to_shape (env : Env W) (fuel sector : Nat) (s : State W) :
    ∃ E w T, (erase_to env fuel sector s).1
        = { s with fw := { s.fw with erased_to := E }, world := w, trace := T ++ s.trace }
      ∧ ∀ e ∈ T, ∃ k, e = Event.erase k := by
  unfold erase_to
  split
  · exact ⟨s.fw.erased_to, s.world, [], by simp, by simp⟩
  · obtain ⟨E, w, T, h, hT⟩ := erase_loop_shape env fuel
        { (flash_func_erase_sector env sector s) with
          fw := { (flash_func_erase_sector env sector s).fw with
            erased_to := (sector + 1) % 65536 } }
    refine ⟨E, w, T ++ [Event.erase sector], ?_, ?_⟩
    · simp only [h]
      simp [flash_func_erase_sector]
    · intro e he
      rcases List.mem_append.1 he with h1 | h1
      · exact hT e h1
      · exact ⟨sector, by simpa using h1⟩

theorem erase_to_fw (env : Env W) (fuel sector : Nat) (s : State W) :
    (erase_to env fuel sector s).1.fw
      = { s.fw with erased_to := (erase_to env fuel sector s).1.fw.erased_to } := by
  obtain ⟨E, w, T, h, _⟩ := erase_to_shape env fuel sector s
  rw [h]

theorem erase_to_status (env : Env W) (fuel sector : Nat) (s : State W) :
    (erase_to env fuel sector s).1.vendor_specific_status_code
      = s.vendor_specific_status_code := by
  obtain ⟨E, w, T, h, _⟩ := erase_to_shape env fuel sector s
  rw [h]

theorem erase_to_tx_queue (env : Env W) (fuel sector : Nat) (s : State W) :
    (erase_to env fuel sector s).1.tx_queue = s.tx_queue := by
  obtain ⟨E, w, T, h, _⟩ := erase_to_shape env fuel sector s
  rw [h]

theorem processTx_loop_fw (env : Env W) (q : List CanardCANFrame) (s : State W) :
    (processTx_loop env q s).fw = s.fw
      ∧ (processTx_loop env q s).vendor_specific_status_code = s.vendor_specific_status_code := by
  induction q generalizing s with
  | nil => exact ⟨rfl, rfl⟩
  | cons f q ih =>
    unfold processTx_loop
    simp only
    split_ifs
    · exact ih _
    · exact ⟨rfl, rfl⟩
    · exact ⟨rfl, rfl⟩

theorem processTx_fw (env : Env W) (s : State W) : (processTx env s).fw = s.fw :=
  (processTx_loop_fw env s.tx_queue s).1

theorem processTx_status (env : Env W) (s : State W) :
    (processTx env s).vendor_specific_status_code = s.vendor_specific_status_code :=
  (processTx_loop_fw env s.tx_queue s).2

/-- The calls `processTx` logs are sends only. -/
theorem processTx_loop_trace (env : Env W) (q : List CanardCANFrame) (s : State W) :
    ∃ T, (processTx_loop env q s).trace = T ++ s.trace
      ∧ ∀ e ∈ T, ∃ f ok, e = Event.can_send f ok := by
  induction q generalizing s with
  | nil => exact ⟨[], rfl, by simp⟩
  | cons f q ih =>
    unfold processTx_loop
    simp only
    split_ifs
    · obtain ⟨T, h, hT⟩ := ih
        { s with world := (env.can_send s.world f).2,
                 trace := Event.can_send f (env.can_send s.world f).1 :: s.trace,
                 tx_queue := q, fail_count := 0 }
      refine ⟨T ++ [Event.can_send f (env.can_send s.world f).1], ?_, ?_⟩
      · rw [h]
        simp
      · intro e he
        rcases List.mem_append.1 he with h1 | h1
        · exact hT e h1
        · exact ⟨f, _, by simpa using h1⟩
    · exact ⟨[Event.can_send f (env.can_send s.world f).1], rfl,
        fun e he => ⟨f, _, by simpa using he⟩⟩
    · exact ⟨[Event.can_send f (env.can_send s.world f).1], rfl,
        fun e he => ⟨f, _, by simpa using he⟩⟩

theorem setSlot_setSlot (fw : FwUpdate) (i : Nat) (r1 r2 : ReadSlot) :
    (fw.setSlot i r1).setSlot i r2 = fw.setSlot i r2 := by
  simp [FwUpdate.setSlot, List.set_set]

/-- What `send_fw_read(idx)` does to `fw_update`: the slot gets the current
transfer id, loses `have_reply`, gets a send time when the request was queued,
and the transfer id moves on. -/
theorem send_fw_read_fw (env : Env W) (idx : Nat) (s : State W) :
    ∃ sent, (send_fw_read env idx s).1.fw
      = { (s.fw.setSlot idx { (s.fw.slot idx) with
              tx_id := s.fw.transfer_id, have_reply := false, sent_ms := sent }) with
          transfer_id := incrementTransferID s.fw.transfer_id } := by
  unfold send_fw_read
  simp only
  split_ifs
  · refine ⟨env.millis s.world % 4294967296, ?_⟩
    by_cases h : idx < s.fw.reads.length
    · simp [canardRequestOrRespond, FwUpdate.setSlot, FwUpdate.slot, h, List.set_set]
    · simp [canardRequestOrRespond, FwUpdate.setSlot, FwUpdate.slot,
        List.set_eq_of_length_le (Nat.le_of_not_lt h)]
  · exact ⟨(s.fw.slot idx).sent_ms, by simp [canardRequestOrRespond]⟩

theorem send_fw_read_status (env : Env W) (idx : Nat) (s : State W) :
    (send_fw_read env idx s).1.vendor_specific_status_code = s.vendor_specific_status_code := by
  unfold send_fw_read
  simp only
  split_ifs <;> rfl

theorem send_fw_read_trace (env : Env W) (idx : Nat) (s : State W) :
    ∃ t r, (send_fw_read env idx s).1.trace = Event.tx t r :: s.trace := by
  unfold send_fw_read
  simp only
  split_ifs <;> exact ⟨_, _, rfl⟩

/-- The erase calls before the write only move `erased_to`, the hardware
state and the log, and log nothing but erases. -/
theorem commit_erase_shape (env : Env W) (efuel len sector_size : Nat) (s : State W) :
    ∃ E w T, (commit_erase env efuel len sector_size s).1
        = { s with fw := { s.fw with erased_to := E }, world := w, trace := T ++ s.trace }
      ∧ ∀ e ∈ T, ∃ k, e = Event.erase k := by
  have h1 : ∃ E w T, (if s.fw.sector_ofs = 0 then erase_to env efuel s.fw.sector s
        else (s, true)).1
        = { s with fw := { s.fw with erased_to := E }, world := w, trace := T ++ s.trace }
      ∧ ∀ e ∈ T, ∃ k, e = Event.erase k := by
    split_ifs
    · exact erase_to_shape env efuel s.fw.sector s
    · exact ⟨s.fw.erased_to, s.world, [], by simp, by simp⟩
  obtain ⟨E1, w1, T1, h1, hT1⟩ := h1
  unfold commit_erase
  generalize (if s.fw.sector_ofs = 0 then erase_to env efuel s.fw.sector s else (s, true))
    = e1 at h1
  simp only
  by_cases c1 : e1.2 = false
  · rw [if_pos c1]
    exact ⟨E1, w1, T1, h1, hT1⟩
  · rw [if_neg c1]
    by_cases c2 : (e1.1.fw.sector_ofs + len) % 4294967296 > sector_size
    · rw [if_pos c2]
      obtain ⟨E2, w2, T2, h2, hT2⟩ := erase_to_shape env efuel (e1.1.fw.sector + 1) e1.1
      refine ⟨E2, w2, T2 ++ T1, ?_, ?_⟩
      · rw [h2, h1]
        simp
      · intro e he
        rcases List.mem_append.1 he with h | h
        · exact hT2 e h
        · exact hT1 e h
    · rw [if_neg c2]
      exact ⟨E1, w1, T1, h1, hT1⟩

/-- The ways through lines 291 to 323. -/
theorem commit_prepare_cases (env : Env W) (efuel : Nat) (s : State W) :
    ((s.fw.slot s.fw.idx).offset ≠ s.fw.ofs ∧
      commit_prepare env efuel s = (commit_bad_sequence s, some Ctl.brk)) ∨
    ((s.fw.slot s.fw.idx).offset = s.fw.ofs ∧ env.flash_func_sector_size s.fw.sector = 0 ∧
      commit_prepare env efuel s
        = (commit_too_big env (if s.fw.ofs = 0 then flash_set_keep_unlocked env true s else s),
            some Ctl.brk)) ∨
    ((s.fw.slot s.fw.idx).offset = s.fw.ofs ∧ env.flash_func_sector_size s.fw.sector ≠ 0 ∧
      ∃ c, (c = some Ctl.stuck ∨ c = none) ∧
      commit_prepare env efuel s
        = ((commit_erase env efuel (s.fw.slot s.fw.idx).pkt.len
              (env.flash_func_sector_size s.fw.sector)
              (if s.fw.ofs = 0 then flash_set_keep_unlocked env true s else s)).1, c) ∧
      (c = none ↔ (commit_erase env efuel (s.fw.slot s.fw.idx).pkt.len
              (env.flash_func_sector_size s.fw.sector)
              (if s.fw.ofs = 0 then flash_set_keep_unlocked env true s else s)).2 = true)) := by
  have hsec : (if s.fw.ofs = 0 then flash_set_keep_unlocked env true s else s).fw = s.fw := by
    split_ifs <;> rfl
  unfold commit_prepare
  simp only [hsec]
  by_cases h1 : (s.fw.slot s.fw.idx).offset = s.fw.ofs
  · by_cases h2 : env.flash_func_sector_size s.fw.sector = 0
    · right; left
      simp [h1, h2]
    · right; right
      refine ⟨h1, h2, ?_⟩
      simp only [h1, h2, ne_eq, not_true_eq_false, if_false]
      by_cases h3 : (commit_erase env efuel (s.fw.slot s.fw.idx).pkt.len
              (env.flash_func_sector_size s.fw.sector)
              (if s.fw.ofs = 0 then flash_set_keep_unlocked env true s else s)).2 = false
      · exact ⟨some Ctl.stuck, Or.inl rfl, by simp [h3], by simp [h3]⟩
      · refine ⟨none, Or.inr rfl, by simp [h3], by simpa using h3⟩
  · left
    simp [h1]

/-- The state that leaves lines 291 to 323 towards the write, or inside an
erase loop, differs from the state at the top of the loop body in `erased_to`,
the hardware state and the log only; what was logged are erases and, at
offset 0, the unlock. -/
theorem commit_prepare_erased (env : Env W) (efuel : Nat) (s s3 : State W) (c : Option Ctl)
    (h : commit_prepare env efuel s = (s3, c)) (hc : c = none ∨ c = some Ctl.stuck) :
    (s.fw.slot s.fw.idx).offset = s.fw.ofs ∧ env.flash_func_sector_size s.fw.sector ≠ 0 ∧
    ∃ E w T, s3 = { s with fw := { s.fw with erased_to := E }, world := w,
                           trace := T ++ s.trace }
      ∧ ∀ e ∈ T, (∃ k, e = Event.erase k) ∨ e = Event.keep_unlocked true := by
  rcases commit_prepare_cases env efuel s with ⟨_, h1⟩ | ⟨_, _, h1⟩ | ⟨h1, h2, c', _, h3, _⟩
  · rw [h1] at h
    rcases hc with hc | hc <;> subst hc <;> cases h
  · rw [h1] at h
    rcases hc with hc | hc <;> subst hc <;> cases h
  · refine ⟨h1, h2, ?_⟩
    rw [h3] at h
    have hs3 : s3 = _ := (congrArg Prod.fst h).symm
    obtain ⟨E, w, T, hE, hT⟩ := commit_erase_shape env efuel (s.fw.slot s.fw.idx).pkt.len
      (env.flash_func_sector_size s.fw.sector)
      (if s.fw.ofs = 0 then flash_set_keep_unlocked env true s else s)
    by_cases h0 : s.fw.ofs = 0
    · refine ⟨E, w, T ++ [Event.keep_unlocked true], ?_, ?_⟩
      · rw [hs3, hE]
        simp [h0, flash_set_keep_unlocked]
      · intro e he
        rcases List.mem_append.1 he with h | h
        · exact Or.inl (hT e h)
        · exact Or.inr (by simpa using h)
    · refine ⟨E, w, T, ?_, fun e he => Or.inl (hT e he)⟩
      rw [hs3, hE]
      simp [h0]

/-- The six ways through the body of the commit loop. -/
theorem commit_chunk_cases (env : Env W) (efuel : Nat) (s : State W) :
    ((s.fw.slot s.fw.idx).offset ≠ s.fw.ofs ∧
      commit_chunk env efuel s = (commit_bad_sequence s, Ctl.brk)) ∨
    ((s.fw.slot s.fw.idx).offset = s.fw.ofs ∧ env.flash_func_sector_size s.fw.sector = 0 ∧
      commit_chunk env efuel s
        = (commit_too_big env (if s.fw.ofs = 0 then flash_set_keep_unlocked env true s else s),
            Ctl.brk)) ∨
    (∃ s3, commit_prepare env efuel s = (s3, some Ctl.stuck) ∧
      commit_chunk env efuel s = (s3, Ctl.stuck)) ∨
    (∃ s3, commit_prepare env efuel s = (s3, none) ∧ (commit_write env s s3).1 = false ∧
      commit_chunk env efuel s = (after_write env s s3, Ctl.next)) ∨
    (∃ s3, commit_prepare env efuel s = (s3, none) ∧ (commit_write env s s3).1 = true ∧
      (s.fw.slot s.fw.idx).pkt.len < CHUNK ∧
      commit_chunk env efuel s
        = (commit_end_of_file env (commit_position env (s.fw.slot s.fw.idx).pkt.len
            (env.flash_func_sector_size s.fw.sector) (after_write env s s3)), Ctl.ret)) ∨
    (∃ s3, commit_prepare env efuel s = (s3, none) ∧ (commit_write env s s3).1 = true ∧
      CHUNK ≤ (s.fw.slot s.fw.idx).pkt.len ∧
      commit_chunk env efuel s
        = (commit_next_read env (commit_position env (s.fw.slot s.fw.idx).pkt.len
            (env.flash_func_sector_size s.fw.sector) (after_write env s s3)), Ctl.next)) := by
  rcases commit_prepare_cases env efuel s with ⟨h0, h1⟩ | ⟨h0, hz, h1⟩ | ⟨_, _, c, hc, h3, _⟩
  · left
    exact ⟨h0, by simp [commit_chunk, h1]⟩
  · right; left
    exact ⟨h0, hz, by simp [commit_chunk, h1]⟩
  · rcases hc with hc | hc
    · subst hc
      right; right; left
      exact ⟨_, h3, by simp [commit_chunk, h3]⟩
    · subst hc
      right; right; right
      generalize (commit_erase env efuel (s.fw.slot s.fw.idx).pkt.len
        (env.flash_func_sector_size s.fw.sector)
        (if s.fw.ofs = 0 then flash_set_keep_unlocked env true s else s)).1 = s3 at h3
      by_cases hw : (commit_write env s s3).1 = false
      · left
        exact ⟨s3, h3, hw, by simp [commit_chunk, h3, hw]⟩
      · right
        have hw' : (commit_write env s s3).1 = true := by simpa using hw
        by_cases hl : (s.fw.slot s.fw.idx).pkt.len < CHUNK
        · left
          exact ⟨s3, h3, hw', hl, by simp [commit_chunk, h3, hw', commit_advance, hl]⟩
        · right
          exact ⟨s3, h3, hw', Nat.le_of_not_lt hl,
            by simp [commit_chunk, h3, hw', commit_advance, hl]⟩

/-- An invariant of the loop body and of the progress statement holds in
whatever state the commit loop stops, within the fuel or not. -/
theorem commit_loop_preserves (env : Env W) (efuel : Nat) (I : State W → Prop)
    (hchunk : ∀ s, I s → (s.fw.slot s.fw.idx).have_reply = true →
      I (commit_chunk env efuel s).1)
    (hprog : ∀ s, I s → I (set_progress s)) :
    ∀ fuel s, I s → I (commit_loop env efuel fuel s).1 := by
  intro fuel
  induction fuel with
  | zero =>
    intro s hs
    unfold commit_loop
    split_ifs
    · exact hs
    · exact hprog s hs
  | succ n ih =>
    intro s hs
    unfold commit_loop
    split_ifs with hr
    · have h1 := hchunk s hs hr
      split
      · next s1 heq => rw [heq] at h1; exact ih s1 h1
      · next s1 heq => rw [heq] at h1; exact hprog s1 h1
      · next s1 heq => rw [heq] at h1; exact h1
      · next s1 heq => rw [heq] at h1; exact h1
    · exact hprog s hs

/-- C9, counterexample: with local node id 42, a broadcast transfer carrying the
data type id of GetNodeInfo is accepted (with the GetNodeInfo signature),
although (GetNodeInfo, broadcast) is none of the four pairs of the claim:
`shouldAcceptTransfer` never looks at the transfer type once a node id is set. -/
theorem shouldAcceptTransfer_accepts_broadcast :
    shouldAcceptTransfer dronecan 42 dronecan.GETNODEINFO_ID CanardTransferType.broadcast 7
        = (true, some dronecan.GETNODEINFO_SIGNATURE)
      ∧ ¬ SpecAccepts dronecan dronecan.GETNODEINFO_ID CanardTransferType.broadcast := by
  unfold SpecAccepts
  decide

/-- C9, amended: with a local node id other than BROADCAST, `shouldAcceptTransfer`
returns true exactly when the data type id is one of the ids of GetNodeInfo,
BeginFirmwareUpdate, RestartNode and FileRead, for every transfer type and
source; on acceptance it writes the signature of that data type, and on
rejection it writes nothing. -/
theorem shouldAcceptTransfer_identified (proto : Proto)
    (local_node_id data_type_id source_node_id : Nat) (transfer_type : CanardTransferType)
    (hl : local_node_id ≠ CANARD_BROADCAST_NODE_ID) (hd : DistinctIds proto) :
    ((shouldAcceptTransfer proto local_node_id data_type_id transfer_type source_node_id).1
        = true ↔
      data_type_id = proto.GETNODEINFO_ID ∨ data_type_id = proto.BEGINFIRMWAREUPDATE_ID ∨
      data_type_id = proto.RESTARTNODE_ID ∨ data_type_id = proto.FILE_READ_ID) ∧
    (data_type_id = proto.GETNODEINFO_ID →
      shouldAcceptTransfer proto local_node_id data_type_id transfer_type source_node_id
        = (true, some proto.GETNODEINFO_SIGNATURE)) ∧
    (data_type_id = proto.BEGINFIRMWAREUPDATE_ID →
      shouldAcceptTransfer proto local_node_id data_type_id transfer_type source_node_id
        = (true, some proto.BEGINFIRMWAREUPDATE_SIGNATURE)) ∧
    (data_type_id = proto.RESTARTNODE_ID →
      shouldAcceptTransfer proto local_node_id data_type_id transfer_type source_node_id
        = (true, some proto.RESTARTNODE_SIGNATURE)) ∧
    (data_type_id = proto.FILE_READ_ID →
      shouldAcceptTransfer proto local_node_id data_type_id transfer_type source_node_id
        = (true, some proto.FILE_READ_SIGNATURE)) ∧
    ((shouldAcceptTransfer proto local_node_id data_type_id transfer_type source_node_id).1
        = false →
      (shouldAcceptTransfer proto local_node_id data_type_id transfer_type source_node_id).2
        = none) := by
  obtain ⟨h1, h2, h3, h4, h5, h6⟩ := hd
  unfold shouldAcceptTransfer
  rw [if_neg hl]
  refine ⟨?_, ?_, ?_, ?_, ?_, ?_⟩
  · split_ifs <;> simp_all
  · intro a
    simp [a]
  · intro b
    subst b
    simp [Ne.symm h1]
  · intro c
    subst c
    simp [Ne.symm h2, Ne.symm h4]
  · intro d
    subst d
    simp [Ne.symm h3, Ne.symm h5, Ne.symm h6]
  · split_ifs <;> simp_all

/-- Witness for C9: a FileRead response offered to node 42. -/
theorem shouldAcceptTransfer_identified_witness :
    (42 : Nat) ≠ CANARD_BROADCAST_NODE_ID ∧ DistinctIds dronecan ∧
    shouldAcceptTransfer dronecan 42 48 CanardTransferType.response 7
      = (true, some dronecan.FILE_READ_SIGNATURE) :=
  ⟨by decide, by unfold DistinctIds; decide,
    (shouldAcceptTransfer_identified dronecan 42 48 7 CanardTransferType.response
      (by decide) (by unfold DistinctIds; decide)).2.2.2.2.1 rfl⟩

/-! ## BeginFirmwareUpdate (C10) -/

theorem begin_firmware_update_reply_fw (env : Env W) (t : CanardRxTransfer) (s : State W) :
    (begin_firmware_update_reply env t s).fw = s.fw := rfl

theorem seed_reads_slot (P i : Nat) (h : i < P) :
    (seed_reads P).getD i zeroSlot = { zeroSlot with offset := i * CHUNK } := by
  simp [seed_reads, List.getD_eq_getElem?_getD, h]

/-- C10: when no update is in progress and the request decodes with a path of
at most 200 bytes, `handle_begin_firmware_update` leaves a zeroed context
(`ofs`, `sector`, `sector_ofs`, `erased_to`, `idx`, `transfer_id`, `rtt_ms` are 0,
every slot has `have_reply` false and `sent_ms` 0), with `reads[i].offset = i*CHUNK`
for every `i < P`, `node_id` the request's `source_node_id` field or, when that
is 0, the source node of the transfer, and the path stored null-terminated. -/
theorem handle_begin_firmware_update_idle (env : Env W) (t : CanardRxTransfer) (s : State W)
    (pkt : BeginFirmwareUpdateRequest) (h0 : s.fw.node_id = 0)
    (hdec : env.BeginFirmwareUpdateRequest_decode t = some pkt)
    (hlen : pkt.path.length ≤ PATH_MAX) :
    (handle_begin_firmware_update env t s).fw.ofs = 0 ∧
    (handle_begin_firmware_update env t s).fw.sector = 0 ∧
    (handle_begin_firmware_update env t s).fw.sector_ofs = 0 ∧
    (handle_begin_firmware_update env t s).fw.erased_to = 0 ∧
    (handle_begin_firmware_update env t s).fw.idx = 0 ∧
    (handle_begin_firmware_update env t s).fw.transfer_id = 0 ∧
    (handle_begin_firmware_update env t s).fw.rtt_ms = 0 ∧
    (handle_begin_firmware_update env t s).fw.reads.length = env.P ∧
    (∀ i, i < env.P →
      ((handle_begin_firmware_update env t s).fw.slot i).have_reply = false ∧
      ((handle_begin_firmware_update env t s).fw.slot i).sent_ms = 0 ∧
      ((handle_begin_firmware_update env t s).fw.slot i).offset = i * CHUNK) ∧
    (handle_begin_firmware_update env t s).fw.node_id
      = (if pkt.source_node_id = 0 then t.source_node_id else pkt.source_node_id) ∧
    (handle_begin_firmware_update env t s).fw.path.take pkt.path.length = pkt.path ∧
    (handle_begin_firmware_update env t s).fw.path.getD pkt.path.length 1 = 0 ∧
    (handle_begin_firmware_update env t s).fw.path.length = PATH_MAX + 1 := by
  have hfw : (handle_begin_firmware_update env t s).fw = begin_context env t pkt := by
    unfold handle_begin_firmware_update
    rw [if_pos h0, hdec]
    simp only [if_neg (Nat.not_lt.2 hlen)]
    rfl
  rw [hfw]
  refine ⟨rfl, rfl, rfl, rfl, rfl, rfl, rfl, ?_, ?_, rfl, ?_, ?_, ?_⟩
  · simp [begin_context, seed_reads]
  · intro i hi
    have := seed_reads_slot env.P i hi
    simp only [begin_context, FwUpdate.slot, this]
    simp [zeroSlot]
  · simp [begin_context]
  · simp only [begin_context, List.getD_eq_getElem?_getD]
    rw [List.getElem?_append_right (Nat.le_refl _)]
    have : 0 < PATH_MAX + 1 - pkt.path.length := by omega
    simp [this]
  · simp only [begin_context, List.length_append, List.length_replicate]
    omega

/-- Witness for C10: the request of node 10 on a four slot pipeline; slot 3 is
seeded with offset 768 and the server is node 10. -/
theorem handle_begin_firmware_update_idle_witness :
    (idleState 4 0).fw.node_id = 0 ∧
    (simEnv 4 (fun _ => 0)).BeginFirmwareUpdateRequest_decode beginRequest
      = some { source_node_id := 0, path := [102, 119] } ∧
    ([102, 119] : List Nat).length ≤ PATH_MAX ∧
    (handle_begin_firmware_update (simEnv 4 (fun _ => 0)) beginRequest (idleState 4 0)).fw.ofs
      = 0 ∧
    (handle_begin_firmware_update (simEnv 4 (fun _ => 0)) beginRequest (idleState 4 0)).fw.node_id
      = 10 :=
  ⟨rfl, rfl, by decide,
    (handle_begin_firmware_update_idle (simEnv 4 (fun _ => 0)) beginRequest (idleState 4 0)
      { source_node_id := 0, path := [102, 119] } rfl rfl (by decide)).1,
    (handle_begin_firmware_update_idle (simEnv 4 (fun _ => 0)) beginRequest (idleState 4 0)
      { source_node_id := 0, path := [102, 119] } rfl rfl (by decide)).2.2.2.2.2.2.2.2.2.1⟩

/-! ## Oversized image (C5) -/

/-- When the body of the commit loop finds `sector_size == 0`, the handler
leaves the loop by `break` and the progress statement after the loop
overwrites the status code. -/
theorem too_big_status_is_progress (env : Env W) (efuel fuel : Nat) (s : State W)
    (hr : (s.fw.slot s.fw.idx).have_reply = true)
    (ho : (s.fw.slot s.fw.idx).offset = s.fw.ofs)
    (hz : env.flash_func_sector_size s.fw.sector = 0) :
    (commit_loop env efuel (fuel + 1) s).2 = true ∧
    (commit_loop env efuel (fuel + 1) s).1.fw.node_id = 0 ∧
    (commit_loop env efuel (fuel + 1) s).1.vendor_specific_status_code
      = (1 + s.fw.ofs / 1024) % 256 := by
  rcases commit_chunk_cases env efuel s with ⟨h0, _⟩ | ⟨_, _, h1⟩ | ⟨s3, hp, _⟩ | ⟨s3, hp, _⟩ |
    ⟨s3, hp, _⟩ | ⟨s3, hp, _⟩
  · exact absurd ho h0
  · unfold commit_loop
    rw [if_pos hr, h1]
    refine ⟨rfl, ?_, ?_⟩
    · split_ifs <;> rfl
    · split_ifs <;> rfl
  all_goals
    exact absurd hz (commit_prepare_erased env efuel s s3 _ hp (by simp)).2.1

set_option maxRecDepth 100000 in
/-- C5, the code at the failing input: on a flash of two sectors of 1024 bytes a
ninth full chunk arrives for offset 2048. The handler ends the update
(`node_id` is 0) and returns, and the status code is the progress value 3, not
`FAIL_REASON_BAD_LENGTH_APP` (11 in this environment). -/
theorem too_big_status_overwritten :
    (simRun (simEnv 1 sizes2k) 4 (servedInOrder 9) (idleState 1 0)).fw.node_id = 0 ∧
    (simRun (simEnv 1 sizes2k) 4 (servedInOrder 9) (idleState 1 0)).fw.ofs = 2048 ∧
    (simRun (simEnv 1 sizes2k) 4 (servedInOrder 9) (idleState 1 0)).vendor_specific_status_code
      = 3 ∧
    (simEnv 1 sizes2k).FAIL_REASON_BAD_LENGTH_APP = 11 ∧
    (simRun (simEnv 1 sizes2k) 4 (servedInOrder 9) (idleState 1 0)).trace.take 2
      = [Event.keep_unlocked false, Event.flush] := by
  decide

/-! ## Failed writes (C6) -/

set_option maxRecDepth 100000 in
/-- C6, counterexample: the first `flash_write_buffer` call for the chunk at
offset 0 fails. The handler does not return before it has called
`flash_write_buffer` a second time for the same chunk, and when it returns
`ofs` has advanced to 256. -/
theorem write_failure_retried_at_once :
    (bufferedState 256 1).fw.ofs = 0 ∧
    (bufferedState 256 1).trace.filter isWrite = [] ∧
    (commit_loop (simEnv 1 sizes2k) 4 4 (bufferedState 256 1)).2 = true ∧
    (commit_loop (simEnv 1 sizes2k) 4 4 (bufferedState 256 1)).1.fw.ofs = 256 ∧
    (commit_loop (simEnv 1 sizes2k) 4 4 (bufferedState 256 1)).1.trace.filter isWrite
      = [Event.write 0 256 true, Event.write 0 256 false] ∧
    (handle_file_read_response (simEnv 1 sizes2k) 4 4 (readResponse 0 fullChunk)
      (simRun (simEnv 1 sizes2k) 4 (servedInOrder 0) (idleState 1 1))).1.fw.ofs = 256 := by
  decide

/-- C6, amended: when `flash_write_buffer` returns false for the chunk held in
slot `idx`, the pass through the loop body ends without a change to `ofs`,
`sector`, `sector_ofs`, `idx` or any slot (so `have_reply` of that slot is still
set), and the commit loop goes on at once, in the same call of the handler,
with another pass for the same slot. -/
theorem write_failure_retries (env : Env W) (efuel : Nat) (s s3 : State W)
    (hr : (s.fw.slot s.fw.idx).have_reply = true)
    (hp : commit_prepare env efuel s = (s3, none))
    (hw : (commit_write env s s3).1 = false) :
    commit_chunk env efuel s = (after_write env s s3, Ctl.next) ∧
    (after_write env s s3).fw.ofs = s.fw.ofs ∧
    (after_write env s s3).fw.sector = s.fw.sector ∧
    (after_write env s s3).fw.sector_ofs = s.fw.sector_ofs ∧
    (after_write env s s3).fw.idx = s.fw.idx ∧
    (after_write env s s3).fw.reads = s.fw.reads ∧
    ((after_write env s s3).fw.slot (after_write env s s3).fw.idx).have_reply = true ∧
    (after_write env s s3).trace
      = Event.write s.fw.ofs (s.fw.slot s.fw.idx).pkt.len false :: s3.trace ∧
    (∀ fuel, commit_loop env efuel (fuel + 1) s
      = commit_loop env efuel fuel (after_write env s s3)) ∧
    (∀ fuel s1 c, commit_chunk env efuel (after_write env s s3) = (s1, c) →
      commit_loop env efuel (fuel + 2) s = commit_loop env efuel (fuel + 1) (after_write env s s3)
      ∧ (c = Ctl.next →
          commit_loop env efuel (fuel + 2) s = commit_loop env efuel fuel s1)) := by
  obtain ⟨_, _, E, w, T, hs3, _⟩ := commit_prepare_erased env efuel s s3 none hp (Or.inl rfl)
  have hc : commit_chunk env efuel s = (after_write env s s3, Ctl.next) := by
    simp [commit_chunk, hp, hw]
  have hfw : (after_write env s s3).fw = { s.fw with erased_to := E } := by
    rw [hs3]; rfl
  have hstep : ∀ fuel, commit_loop env efuel (fuel + 1) s
      = commit_loop env efuel fuel (after_write env s s3) := by
    intro fuel
    conv_lhs => unfold commit_loop
    rw [if_pos hr, hc]
  have hr' : ((after_write env s s3).fw.slot (after_write env s s3).fw.idx).have_reply
      = true := by
    rw [hfw]; exact hr
  refine ⟨hc, ?_, ?_, ?_, ?_, ?_, hr', ?_, hstep, ?_⟩
  · rw [hfw]
  · rw [hfw]
  · rw [hfw]
  · rw [hfw]
  · rw [hfw]
  · have hofs : s3.fw.ofs = s.fw.ofs := by rw [hs3]
    simp only [after_write]
    rw [hw, hofs]
  · intro fuel s1 c h1
    refine ⟨hstep (fuel + 1), fun hn => ?_⟩
    rw [hstep (fuel + 1)]
    conv_lhs => unfold commit_loop
    rw [if_pos hr', h1, hn]

set_option maxRecDepth 100000 in
/-- Witness for C6: the single slot pipeline with a full chunk buffered and one
failing write ahead. -/
theorem write_failure_retries_witness :
    ((bufferedState 256 1).fw.slot (bufferedState 256 1).fw.idx).have_reply = true ∧
    (commit_write (simEnv 1 sizes2k) (bufferedState 256 1)
      (commit_prepare (simEnv 1 sizes2k) 4 (bufferedState 256 1)).1).1 = false ∧
    commit_chunk (simEnv 1 sizes2k) 4 (bufferedState 256 1)
      = (after_write (simEnv 1 sizes2k) (bufferedState 256 1)
          (commit_prepare (simEnv 1 sizes2k) 4 (bufferedState 256 1)).1, Ctl.next) :=
  ⟨by decide, by decide,
    (write_failure_retries (simEnv 1 sizes2k) 4 (bufferedState 256 1)
      (commit_prepare (simEnv 1 sizes2k) 4 (bufferedState 256 1)).1
      (by decide) (Prod.ext rfl (by decide)) (by decide)).1⟩

/-! ## End of file (C7) -/

/-- C7: when the loop body commits a chunk with `len < CHUNK` (the write
succeeded), the handler returns at once: `node_id` is 0, flash was flushed and
relocked, `check_good_firmware` ran once and its result is the status code
(the progress statement is not reached), `jump_to_app` is called exactly when
the result is `CHECK_FW_OK`; `idx`, the slots, the transfer id and the TX queue
are untouched, so no further slot is committed and no read is issued. -/
theorem end_of_file_commit (env : Env W) (efuel fuel : Nat) (s s3 : State W)
    (hr : (s.fw.slot s.fw.idx).have_reply = true)
    (hp : commit_prepare env efuel s = (s3, none))
    (hw : (commit_write env s s3).1 = true)
    (hlen : (s.fw.slot s.fw.idx).pkt.len < CHUNK) :
    (commit_loop env efuel (fuel + 1) s).2 = true ∧
    (commit_loop env efuel (fuel + 1) s).1.fw.node_id = 0 ∧
    (commit_loop env efuel (fuel + 1) s).1.vendor_specific_status_code
      = env.check_good_firmware (commit_loop env efuel (fuel + 1) s).1.world ∧
    (commit_loop env efuel (fuel + 1) s).1.trace
      = (if env.check_good_firmware (commit_loop env efuel (fuel + 1) s).1.world
            = env.CHECK_FW_OK then [Event.jump_to_app] else []) ++
        [Event.check_fw (env.check_good_firmware (commit_loop env efuel (fuel + 1) s).1.world),
          Event.keep_unlocked false, Event.flush,
          Event.write s.fw.ofs (s.fw.slot s.fw.idx).pkt.len true] ++ s3.trace ∧
    (commit_loop env efuel (fuel + 1) s).1.fw.idx = s.fw.idx ∧
    (commit_loop env efuel (fuel + 1) s).1.fw.reads = s.fw.reads ∧
    (commit_loop env efuel (fuel + 1) s).1.fw.transfer_id = s.fw.transfer_id ∧
    (commit_loop env efuel (fuel + 1) s).1.tx_queue = s.tx_queue := by
  obtain ⟨_, _, E, w, T, hs3, _⟩ := commit_prepare_erased env efuel s s3 none hp (Or.inl rfl)
  have hc : commit_chunk env efuel s
      = (commit_end_of_file env (commit_position env (s.fw.slot s.fw.idx).pkt.len
          (env.flash_func_sector_size s.fw.sector) (after_write env s s3)), Ctl.ret) := by
    simp [commit_chunk, hp, hw, commit_advance, hlen]
  have hl : commit_loop env efuel (fuel + 1) s
      = (commit_end_of_file env (commit_position env (s.fw.slot s.fw.idx).pkt.len
          (env.flash_func_sector_size s.fw.sector) (after_write env s s3)), true) := by
    conv_lhs => unfold commit_loop
    rw [if_pos hr, hc]
  rw [hl]
  have hofs : s3.fw.ofs = s.fw.ofs := by rw [hs3]
  have hfw : s3.fw = { s.fw with erased_to := E } := by rw [hs3]
  have hq : s3.tx_queue = s.tx_queue := by rw [hs3]
  simp only [commit_end_of_file, commit_position, after_write, flash_set_keep_unlocked,
    flash_write_flush, State.log, hw, hofs]
  refine ⟨?_, ?_, ?_, ?_, ?_, ?_, ?_, ?_⟩
  · trivial
  · split_ifs <;> rfl
  · split_ifs <;> rfl
  · split_ifs <;> simp
  · split_ifs <;> simp [hfw]
  · split_ifs <;> simp [hfw]
  · split_ifs <;> simp [hfw]
  · split_ifs <;> simp [hq]

set_option maxRecDepth 100000 in
/-- Witness for C7: a reply of 100 bytes buffered for offset 0; the image check
of the simulated board succeeds, so the jump is logged. -/
theorem end_of_file_commit_witness :
    ((bufferedState 100 0).fw.slot (bufferedState 100 0).fw.idx).have_reply = true ∧
    (commit_write (simEnv 1 sizes2k) (bufferedState 100 0)
      (commit_prepare (simEnv 1 sizes2k) 4 (bufferedState 100 0)).1).1 = true ∧
    ((bufferedState 100 0).fw.slot (bufferedState 100 0).fw.idx).pkt.len < CHUNK ∧
    (commit_loop (simEnv 1 sizes2k) 4 1 (bufferedState 100 0)).1.fw.node_id = 0 :=
  ⟨by decide, by decide, by decide,
    (end_of_file_commit (simEnv 1 sizes2k) 4 0 (bufferedState 100 0)
      (commit_prepare (simEnv 1 sizes2k) 4 (bufferedState 100 0)).1
      (by decide) (Prod.ext rfl (by decide)) (by decide) (by decide)).2.1⟩

/-! ## Round-trip estimate (C8) -/

theorem Benign.refl (s : State W) : Benign s s :=
  ⟨rfl, rfl, rfl, rfl, rfl, Or.inl rfl, rfl, fun _ => rfl, fun _ => rfl, rfl⟩

theorem Benign.trans {s1 s2 s3 : State W} (h1 : Benign s1 s2) (h2 : Benign s2 s3) :
    Benign s1 s3 where
  ofs := h2.ofs.trans h1.ofs
  sector := h2.sector.trans h1.sector
  sector_ofs := h2.sector_ofs.trans h1.sector_ofs
  idx := h2.idx.trans h1.idx
  erased_to := h2.erased_to.trans h1.erased_to
  node := by
    rcases h2.node with h | h
    · rw [h]; exact h1.node
    · exact Or.inr h
  len := h2.len.trans h1.len
  offset := fun i => (h2.offset i).trans (h1.offset i)
  pkt := fun i => (h2.pkt i).trans (h1.pkt i)
  log := h2.log.trans h1.log

/-- Bus events do not show in the flash log. -/
theorem flashLog_bus (T tr : List Event)
    (hT : ∀ e ∈ T, (∃ t r, e = Event.tx t r) ∨ (∃ f ok, e = Event.can_send f ok)) :
    flashLog (T ++ tr) = flashLog tr := by
  induction T with
  | nil => rfl
  | cons e T ih =>
    have hrest := ih (fun e he => hT e (List.mem_cons_of_mem _ he))
    rcases hT e (List.mem_cons_self _ _) with ⟨t, r, he⟩ | ⟨f, ok, he⟩
    · subst he
      simpa [flashLog] using hrest
    · subst he
      simpa [flashLog] using hrest

theorem processTx_benign (env : Env W) (s : State W) : Benign s (processTx env s) := by
  obtain ⟨T, hT, hev⟩ := processTx_loop_trace env s.tx_queue s
  have hfw : (processTx env s).fw = s.fw := processTx_fw env s
  refine ⟨by rw [hfw], by rw [hfw], by rw [hfw], by rw [hfw], by rw [hfw], Or.inl (by rw [hfw]),
    by rw [hfw], fun i => by rw [hfw], fun i => by rw [hfw], ?_⟩
  show flashLog (processTx_loop env s.tx_queue s).trace = _
  rw [hT]
  exact flashLog_bus T s.trace (fun e he => Or.inr (hev e he))

theorem send_fw_read_benign (env : Env W) (idx : Nat) (s : State W) :
    Benign s (send_fw_read env idx s).1 := by
  obtain ⟨sent, hfw⟩ := send_fw_read_fw env idx s
  obtain ⟨t, r, htr⟩ := send_fw_read_trace env idx s
  refine ⟨by rw [hfw]; rfl, by rw [hfw]; rfl, by rw [hfw]; rfl, by rw [hfw]; rfl,
    by rw [hfw]; rfl, Or.inl (by rw [hfw]; rfl), by rw [hfw]; simp, fun i => ?_, fun i => ?_, ?_⟩
  · rw [hfw]
    show ((s.fw.setSlot idx _).slot i).offset = _
    rw [slot_setSlot]
    split_ifs with h
    · rw [← h.1]
    · rfl
  · rw [hfw]
    show ((s.fw.setSlot idx _).slot i).pkt = _
    rw [slot_setSlot]
    split_ifs with h
    · rw [← h.1]
    · rfl
  · rw [htr]
    rfl

theorem send_fw_reads_loop_benign (env : Env W) (now : Nat) (l : List Nat) (s : State W) :
    Benign s (send_fw_reads_loop env now l s) := by
  induction l generalizing s with
  | nil => exact Benign.refl s
  | cons i l ih =>
    unfold send_fw_reads_loop
    simp only
    split_ifs
    · exact ih s
    · exact ih s
    · exact (send_fw_read_benign env _ s).trans (ih _)
    · exact send_fw_read_benign env _ s

theorem send_fw_reads_benign (env : Env W) (s : State W) : Benign s (send_fw_reads env s) :=
  send_fw_reads_loop_benign env _ _ s

theorem begin_firmware_update_reply_benign (env : Env W) (t : CanardRxTransfer) (s : State W) :
    Benign s (begin_firmware_update_reply env t s) :=
  ⟨rfl, rfl, rfl, rfl, rfl, Or.inl rfl, rfl, fun _ => rfl, fun _ => rfl, rfl⟩

theorem busy_begin_benign (env : Env W) (t : CanardRxTransfer) (s : State W)
    (h : s.fw.node_id ≠ 0) : Benign s (handle_begin_firmware_update env t s) := by
  unfold handle_begin_firmware_update
  rw [if_neg h]
  exact begin_firmware_update_reply_benign env t s

theorem set_progress_benign (s : State W) : Benign s (set_progress s) :=
  ⟨rfl, rfl, rfl, rfl, rfl, Or.inl rfl, rfl, fun _ => rfl, fun _ => rfl, rfl⟩

theorem rtt_backoff_benign (s : State W) : Benign s (rtt_backoff s) :=
  ⟨rfl, rfl, rfl, rfl, rfl, Or.inl rfl, rfl, fun _ => rfl, fun _ => rfl, rfl⟩

theorem mark_reply_benign (env : Env W) (idx : Nat) (s : State W) :
    Benign s (mark_reply env idx s) := by
  refine ⟨rfl, rfl, rfl, rfl, rfl, Or.inl rfl, by simp [mark_reply], fun i => ?_, fun i => ?_,
    rfl⟩
  · show ((s.fw.setSlot idx _).slot i).offset = _
    rw [slot_setSlot]
    split_ifs with h
    · rw [← h.1]
    · rfl
  · show ((s.fw.setSlot idx _).slot i).pkt = _
    rw [slot_setSlot]
    split_ifs with h
    · rw [← h.1]
    · rfl

theorem commit_bad_sequence_benign (s : State W) : Benign s (commit_bad_sequence s) := by
  refine ⟨rfl, rfl, rfl, rfl, rfl, Or.inl rfl, by simp [commit_bad_sequence], fun i => ?_,
    fun i => ?_, rfl⟩
  · show ((s.fw.setSlot s.fw.idx _).slot i).offset = _
    rw [slot_setSlot]
    split_ifs with h
    · rw [← h.1]
    · rfl
  · show ((s.fw.setSlot s.fw.idx _).slot i).pkt = _
    rw [slot_setSlot]
    split_ifs with h
    · rw [← h.1]
    · rfl

theorem commit_too_big_benign (env : Env W) (s : State W) :
    Benign s (commit_too_big env (if s.fw.ofs = 0 then flash_set_keep_unlocked env true s
      else s)) := by
  split_ifs
  · exact ⟨rfl, rfl, rfl, rfl, rfl, Or.inr rfl, rfl, fun _ => rfl, fun _ => rfl, rfl⟩
  · exact ⟨rfl, rfl, rfl, rfl, rfl, Or.inr rfl, rfl, fun _ => rfl, fun _ => rfl, rfl⟩

theorem commit_end_of_file_benign (env : Env W) (s : State W) :
    Benign (end_update s) (commit_end_of_file env s) := by
  unfold commit_end_of_file
  simp only
  split_ifs
  · exact ⟨rfl, rfl, rfl, rfl, rfl, Or.inl rfl, rfl, fun _ => rfl, fun _ => rfl, rfl⟩
  · exact ⟨rfl, rfl, rfl, rfl, rfl, Or.inl rfl, rfl, fun _ => rfl, fun _ => rfl, rfl⟩

theorem commit_next_read_benign (env : Env W) (s : State W) :
    Benign (commit_rotate env s) (commit_next_read env s) := by
  have h := (send_fw_read_benign env (commit_clear_slot env s).fw.idx
    (commit_clear_slot env s)).trans (processTx_benign env _)
  exact ⟨h.ofs, h.sector, h.sector_ofs, by
      show (_ + 1) % env.P = (_ + 1) % env.P
      rw [h.idx],
    h.erased_to, h.node, h.len, h.offset, h.pkt, h.log⟩

/-- One pass through the loop body keeps a commit invariant. -/
theorem CommitInvariant.chunk {env : Env W} {I : State W → Prop} (h : CommitInvariant env I)
    (efuel : Nat) (s : State W) (hs : I s) : I (commit_chunk env efuel s).1 := by
  rcases commit_chunk_cases env efuel s with ⟨_, e⟩ | ⟨_, _, e⟩ | ⟨s3, hp, e⟩ | ⟨s3, hp, hw, e⟩ |
    ⟨s3, hp, hw, hl, e⟩ | ⟨s3, hp, hw, hl, e⟩
  · rw [e]
    exact h.benign _ _ hs (commit_bad_sequence_benign s)
  · rw [e]
    exact h.benign _ _ hs (commit_too_big_benign env s)
  · rw [e]
    exact h.stuck efuel s s3 hs hp
  · rw [e]
    exact h.failed efuel s s3 hs hp hw
  · rw [e]
    exact h.benign _ _ (h.last efuel s s3 hs hp hw hl) (commit_end_of_file_benign env _)
  · rw [e]
    exact h.benign _ _ (h.next efuel s s3 hs hp hw hl) (commit_next_read_benign env _)

/-- A commit invariant holds in whatever state `handle_file_read_response`
stops, within the fuel or not. -/
theorem CommitInvariant.handler {env : Env W} {I : State W → Prop} (h : CommitInvariant env I)
    (efuel fuel : Nat) (t : CanardRxTransfer) (s : State W) (hs : I s) :
    I (handle_file_read_response env efuel fuel t s).1 := by
  unfold handle_file_read_response
  split_ifs
  · exact hs
  · split
    · exact h.benign _ _ hs (rtt_backoff_benign s)
    · next idx _ =>
      simp only
      split_ifs
      · exact h.decode t idx s hs
      · exact commit_loop_preserves env efuel I (fun x hx _ => h.chunk efuel x hx)
          (fun x hx => h.benign _ _ hx (set_progress_benign x)) fuel _
          (h.benign _ _ (h.decode t idx s hs) (mark_reply_benign env idx _))

/-- A commit invariant that every started update establishes holds in every
reachable state. -/
theorem CommitInvariant.reachable {env : Env W} {I : State W → Prop}
    (h : CommitInvariant env I)
    (hstart : ∀ s0 t pkt, s0.fw.node_id = 0 →
      env.BeginFirmwareUpdateRequest_decode t = some pkt → pkt.path.length ≤ PATH_MAX →
      I (handle_begin_firmware_update env t s0))
    (s : State W) (hr : Reachable env s) : I s := by
  induction hr with
  | start s0 t pkt h0 hd hl => exact hstart s0 t pkt h0 hd hl
  | reads s _ _ ih => exact h.benign _ _ ih (send_fw_reads_benign env s)
  | response s efuel fuel t _ _ ih => exact h.handler efuel fuel t s ih
  | busy s t _ hn ih => exact h.benign _ _ ih (busy_begin_benign env t s hn)
  | drain s _ ih => exact h.benign _ _ ih (processTx_benign env s)
  | hardware s w _ ih =>
    exact h.benign _ _ ih
      ⟨rfl, rfl, rfl, rfl, rfl, Or.inl rfl, rfl, fun _ => rfl, fun _ => rfl, rfl⟩

/-! ## Writes follow the commit position (C1) -/

/-- Erases and the unlock add no write to the flash log. -/
theorem flashLog_prepare (T tr : List Event)
    (hT : ∀ e ∈ T, (∃ k, e = Event.erase k) ∨ e = Event.keep_unlocked true) :
    committed (flashLog (T ++ tr)) = committed (flashLog tr) ∧
    (WritesAtOfs (flashLog (T ++ tr)) ↔ WritesAtOfs (flashLog tr)) := by
  induction T with
  | nil => exact ⟨rfl, Iff.rfl⟩
  | cons e T ih =>
    have hrest := ih (fun e he => hT e (List.mem_cons_of_mem _ he))
    rcases hT e (List.mem_cons_self _ _) with ⟨k, he⟩ | he
    · subst he
      simpa [flashLog, committed, WritesAtOfs] using hrest
    · subst he
      simpa [flashLog] using hrest

theorem TileInv.tile_prepare {env : Env W} {c efuel : Nat} {s s3 : State W} {ctl : Option Ctl}
    (hs : TileInv c s) (hp : commit_prepare env efuel s = (s3, ctl))
    (hc : ctl = none ∨ ctl = some Ctl.stuck) : TileInv c s3 := by
  obtain ⟨_, _, E, w, T, hs3, hT⟩ := commit_prepare_erased env efuel s s3 ctl hp hc
  obtain ⟨h1, h2⟩ := flashLog_prepare T s.trace hT
  have hofs : s3.fw.ofs = s.fw.ofs := by rw [hs3]
  have htr : s3.trace = T ++ s.trace := by rw [hs3]
  unfold TileInv
  rw [hofs, htr, h1, h2]
  exact hs

theorem TileInv.tile_invariant (env : Env W) (c : Nat) : CommitInvariant env (TileInv c) where
  benign := by
    intro s s' hs hb
    unfold TileInv
    rw [hb.ofs, hb.log]
    exact hs
  decode := fun _ _ _ hs => hs
  stuck := fun _ _ _ hs hp => hs.tile_prepare hp (Or.inr rfl)
  failed := by
    intro efuel s s3 hs hp hw
    have h3 := hs.tile_prepare hp (Or.inl rfl)
    unfold TileInv after_write
    simp only [hw, flashLog, committed, WritesAtOfs]
    exact ⟨h3.1, ⟨h3.1, h3.2.1⟩, h3.2.2⟩
  last := by
    intro efuel s s3 hs hp hw _
    have h3 := hs.tile_prepare hp (Or.inl rfl)
    unfold TileInv end_update commit_position after_write
    simp only [hw, flashLog, committed, WritesAtOfs]
    refine ⟨?_, ⟨h3.1, h3.2.1⟩, Nat.le_trans h3.2.2 (Nat.le_add_right _ _)⟩
    rw [h3.1]
    omega
  next := by
    intro efuel s s3 hs hp hw _
    have h3 := hs.tile_prepare hp (Or.inl rfl)
    unfold TileInv commit_rotate commit_clear_slot commit_position after_write
    simp only [hw, flashLog, committed, WritesAtOfs, setSlot_ofs]
    refine ⟨?_, ⟨h3.1, h3.2.1⟩, Nat.le_trans h3.2.2 (Nat.le_add_right _ _)⟩
    rw [h3.1]
    omega

theorem TileInv.tile_start (env : Env W) (s0 : State W) (t : CanardRxTransfer)
    (pkt : BeginFirmwareUpdateRequest) (h0 : s0.fw.node_id = 0)
    (hd : env.BeginFirmwareUpdateRequest_decode t = some pkt)
    (hl : pkt.path.length ≤ PATH_MAX) :
    TileInv 0 (handle_begin_firmware_update env t s0) := by
  unfold handle_begin_firmware_update
  rw [if_pos h0, hd]
  simp only [if_neg (Nat.not_lt.2 hl)]
  exact ⟨rfl, trivial, Nat.le_refl _⟩

theorem TileInv.mono {c c' : Nat} {s : State W} (h : TileInv c s)
    (hc : c' ≤ committed (flashLog s.trace)) : TileInv c' s :=
  ⟨h.1, h.2.1, hc⟩

/-- C1, amended: in every state of an update, and in whatever state a further
call of `handle_file_read_response` stops, every `flash_write_buffer` call of
the update was made at the address that was `ofs` at that time, which is the
number of bytes committed by the successful writes before it (as a `uint32_t`),
and `ofs` is the number of bytes committed so far: `ofs` advances by the `len`
of a chunk exactly when its write succeeded. The committed bytes never
decrease, so as long as fewer than `2^32` bytes are committed `ofs` never
decreases and the successful writes tile `[0, ofs)` in increasing order, with
no gap and no overlap. -/
theorem commits_tile (env : Env W) (s : State W) (hr : Reachable env s) (efuel fuel : Nat)
    (t : CanardRxTransfer) :
    WritesAtOfs (flashLog s.trace) ∧
    s.fw.ofs = committed (flashLog s.trace) % 4294967296 ∧
    WritesAtOfs (flashLog (handle_file_read_response env efuel fuel t s).1.trace) ∧
    (handle_file_read_response env efuel fuel t s).1.fw.ofs
      = committed (flashLog (handle_file_read_response env efuel fuel t s).1.trace)
          % 4294967296 ∧
    committed (flashLog s.trace)
      ≤ committed (flashLog (handle_file_read_response env efuel fuel t s).1.trace) ∧
    (committed (flashLog (handle_file_read_response env efuel fuel t s).1.trace) < 4294967296 →
      s.fw.ofs ≤ (handle_file_read_response env efuel fuel t s).1.fw.ofs ∧
      (handle_file_read_response env efuel fuel t s).1.fw.ofs
        = committed (flashLog (handle_file_read_response env efuel fuel t s).1.trace)) := by
  have hs : TileInv 0 s :=
    (TileInv.tile_invariant env 0).reachable (TileInv.tile_start env) s hr
  have hs' := (TileInv.tile_invariant env (committed (flashLog s.trace))).handler efuel fuel t s
    (hs.mono (Nat.le_refl _))
  refine ⟨hs.2.1, hs.1, hs'.2.1, hs'.1, hs'.2.2, fun hlt => ?_⟩
  have h1 := hs.1
  have h2 := hs'.1
  have h3 := hs'.2.2
  rw [Nat.mod_eq_of_lt hlt] at h2
  rw [Nat.mod_eq_of_lt (Nat.lt_of_le_of_lt h3 hlt)] at h1
  exact ⟨by omega, h2⟩

/-! ## The slot invariant -/

theorem mod_rotate_ne (P idx k : Nat) (hidx : idx < P) (h1 : 0 < k) (h2 : k < P) :
    (idx + k) % P ≠ idx := by
  by_cases h : idx + k < P
  · rw [Nat.mod_eq_of_lt h]
    omega
  · rw [Nat.mod_eq_sub_mod (Nat.le_of_not_lt h), Nat.mod_eq_of_lt (by omega)]
    omega

theorem mod_rotate_full (P idx : Nat) (hidx : idx < P) : (idx + P) % P = idx := by
  rw [Nat.add_mod_right, Nat.mod_eq_of_lt hidx]

theorem mod_rotate_exists (P idx i : Nat) (hidx : idx < P) (hi : i < P) :
    ∃ k, k < P ∧ (idx + k) % P = i := by
  by_cases h : idx ≤ i
  · exact ⟨i - idx, by omega, by rw [Nat.add_sub_cancel' h, Nat.mod_eq_of_lt hi]⟩
  · refine ⟨P - idx + i, by omega, ?_⟩
    have : idx + (P - idx + i) = i + P := by omega
    rw [this, Nat.add_mod_right, Nat.mod_eq_of_lt hi]

theorem SlotInv.slot_start (env : Env W) (hP : PipelineOk env) (s0 : State W)
    (t : CanardRxTransfer) (pkt : BeginFirmwareUpdateRequest) (h0 : s0.fw.node_id = 0)
    (hd : env.BeginFirmwareUpdateRequest_decode t = some pkt)
    (hl : pkt.path.length ≤ PATH_MAX) :
    SlotInv env (handle_begin_firmware_update env t s0) := by
  have hfw : (handle_begin_firmware_update env t s0).fw = begin_context env t pkt := by
    unfold handle_begin_firmware_update
    rw [if_pos h0, hd]
    simp only [if_neg (Nat.not_lt.2 hl)]
    rfl
  have hslot : ∀ i, i < env.P → (handle_begin_firmware_update env t s0).fw.slot i
      = { zeroSlot with offset := i * CHUNK } := by
    intro i hi
    rw [hfw]
    simp only [begin_context, FwUpdate.slot, seed_reads_slot env.P i hi]
  have hidx : (handle_begin_firmware_update env t s0).fw.idx = 0 := by rw [hfw]; rfl
  have hofs : (handle_begin_firmware_update env t s0).fw.ofs = 0 := by rw [hfw]; rfl
  refine ⟨by rw [hfw]; simp [begin_context, seed_reads], by rw [hidx]; exact hP.1,
    by rw [hofs]; norm_num, fun i hi => ?_, fun i hi => ?_, fun _ k hk => ?_⟩
  · rw [hslot i hi]
    exact Nat.zero_le _
  · refine ⟨0, ?_⟩
    rw [hslot i hi]
    have := hP.2
    show i * CHUNK = _
    unfold CHUNK
    omega
  · rw [hidx, hofs, Nat.zero_add, Nat.mod_eq_of_lt hk, hslot k hk, Nat.zero_add]
    have := hP.2
    show k * CHUNK = _
    unfold CHUNK
    omega

/-- The slot invariant reads `reads`, `idx`, `ofs` and `node_id` only. -/
theorem SlotInv.slot_congr {env : Env W} {s s' : State W} (h : SlotInv env s)
    (hr : s'.fw.reads = s.fw.reads) (hi : s'.fw.idx = s.fw.idx) (ho : s'.fw.ofs = s.fw.ofs)
    (hn : s'.fw.node_id = s.fw.node_id) : SlotInv env s' := by
  have hslot : ∀ i, s'.fw.slot i = s.fw.slot i := fun i => by
    unfold FwUpdate.slot
    rw [hr]
  unfold SlotInv Strided Window at *
  simp only [hslot, hr, hi, ho, hn]
  exact h

/-- The commit state after a successful write and the move of the position. -/
theorem commit_position_fw (env : Env W) (efuel : Nat) (s s3 : State W)
    (hp : commit_prepare env efuel s = (s3, none)) (len size : Nat) :
    (commit_position env len size (after_write env s s3)).fw.reads = s.fw.reads ∧
    (commit_position env len size (after_write env s s3)).fw.idx = s.fw.idx ∧
    (commit_position env len size (after_write env s s3)).fw.node_id = s.fw.node_id ∧
    (commit_position env len size (after_write env s s3)).fw.ofs
      = (s.fw.ofs + len) % 4294967296 := by
  obtain ⟨_, _, E, w, T, hs3, _⟩ := commit_prepare_erased env efuel s s3 none hp (Or.inl rfl)
  have hfw : s3.fw = { s.fw with erased_to := E } := by rw [hs3]
  simp only [commit_position, after_write, hfw]
  exact ⟨trivial, trivial, trivial, trivial⟩

/-- A benign step keeps the slot invariant. -/
theorem SlotInv.slot_benign {env : Env W} {s s' : State W} (hs : SlotInv env s)
    (hb : Benign s s') : SlotInv env s' := by
  obtain ⟨h1, h2, h3, h4, h5, h6⟩ := hs
  refine ⟨hb.len.trans h1, by rw [hb.idx]; exact h2, by rw [hb.ofs]; exact h3,
    fun i hi => by rw [hb.pkt]; exact h4 i hi, fun i hi => ?_, fun hn k hk => ?_⟩
  · obtain ⟨m, hm⟩ := h5 i hi
    exact ⟨m, by rw [hb.offset]; exact hm⟩
  · have hn' : s.fw.node_id ≠ 0 := by
      rcases hb.node with h | h
      · rw [← h]; exact hn
      · exact absurd h hn
    rw [hb.offset, hb.idx, hb.ofs]
    exact h6 hn' k hk

/-- The erase calls before the write keep the slot invariant. -/
theorem SlotInv.slot_stuck (env : Env W) (efuel : Nat) (s s3 : State W) (hs : SlotInv env s)
    (hp : commit_prepare env efuel s = (s3, some Ctl.stuck)) : SlotInv env s3 := by
  obtain ⟨_, _, E, w, T, hs3, _⟩ :=
    commit_prepare_erased env efuel s s3 _ hp (Or.inr rfl)
  exact hs.slot_congr (by rw [hs3]) (by rw [hs3]) (by rw [hs3]) (by rw [hs3])

/-- The write call keeps the slot invariant. -/
theorem SlotInv.slot_failed (env : Env W) (efuel : Nat) (s s3 : State W) (hs : SlotInv env s)
    (hp : commit_prepare env efuel s = (s3, none)) : SlotInv env (after_write env s s3) := by
  obtain ⟨_, _, E, w, T, hs3, _⟩ :=
    commit_prepare_erased env efuel s s3 _ hp (Or.inl rfl)
  exact hs.slot_congr (by rw [hs3]; rfl) (by rw [hs3]; rfl) (by rw [hs3]; rfl) (by rw [hs3]; rfl)

/-- The end of the update keeps the slot invariant. -/
theorem SlotInv.slot_last (env : Env W) (efuel : Nat) (s s3 : State W) (hs : SlotInv env s)
    (hp : commit_prepare env efuel s = (s3, none)) :
    SlotInv env (end_update (commit_position env (s.fw.slot s.fw.idx).pkt.len
        (env.flash_func_sector_size s.fw.sector) (after_write env s s3))) := by
  obtain ⟨e1, e2, _, e4⟩ := commit_position_fw env efuel s s3 hp
    (s.fw.slot s.fw.idx).pkt.len (env.flash_func_sector_size s.fw.sector)
  obtain ⟨h1, h2, h3, h4, h5, h6⟩ := hs
  have hslot : ∀ i, (end_update (commit_position env (s.fw.slot s.fw.idx).pkt.len
      (env.flash_func_sector_size s.fw.sector) (after_write env s s3))).fw.slot i
      = s.fw.slot i := fun i => by
    show FwUpdate.slot _ i = _
    unfold FwUpdate.slot
    exact congrArg (fun r => List.getD r i zeroSlot) e1
  refine ⟨(congrArg List.length e1).trans h1, by rw [← e2] at h2; exact h2, ?_,
    fun i hi => by rw [hslot]; exact h4 i hi, fun i hi => ?_, fun hn => absurd rfl hn⟩
  · show (commit_position env (s.fw.slot s.fw.idx).pkt.len
      (env.flash_func_sector_size s.fw.sector) (after_write env s s3)).fw.ofs < _
    rw [e4]
    exact Nat.mod_lt _ (by norm_num)
  · obtain ⟨m, hm⟩ := h5 i hi
    exact ⟨m, by rw [hslot]; exact hm⟩

/-- The commit of a full chunk and the rotation of `idx` keep the slot
invariant. -/
theorem SlotInv.slot_next (env : Env W) (hP : PipelineOk env) (efuel : Nat) (s s3 : State W)
    (hs : SlotInv env s) (hp : commit_prepare env efuel s = (s3, none))
    (hlen : CHUNK ≤ (s.fw.slot s.fw.idx).pkt.len) :
    SlotInv env (commit_rotate env (commit_position env (s.fw.slot s.fw.idx).pkt.len
        (env.flash_func_sector_size s.fw.sector) (after_write env s s3))) := by
  obtain ⟨e1, e2, e3, e4⟩ := commit_position_fw env efuel s s3 hp
    (s.fw.slot s.fw.idx).pkt.len (env.flash_func_sector_size s.fw.sector)
  obtain ⟨h1, h2, h3, h4, h5, h6⟩ := hs
  generalize commit_position env (s.fw.slot s.fw.idx).pkt.len
    (env.flash_func_sector_size s.fw.sector) (after_write env s s3) = x at e1 e2 e3 e4 ⊢
  have hxslot : ∀ i, x.fw.slot i = s.fw.slot i := fun i => by
    unfold FwUpdate.slot
    rw [e1]
  have hlen' : (s.fw.slot s.fw.idx).pkt.len = CHUNK :=
    Nat.le_antisymm (h4 _ h2) hlen
  have hxl : x.fw.idx < x.fw.reads.length := by rw [e1, e2, h1]; exact h2
  have hslot : ∀ i, (commit_rotate env x).fw.slot i
      = if x.fw.idx = i then
          { (x.fw.slot x.fw.idx) with
            have_reply := false, sent_ms := 0,
            offset := ((x.fw.slot x.fw.idx).offset + env.P * CHUNK) % 4294967296 }
        else x.fw.slot i := by
    intro i
    show FwUpdate.slot (FwUpdate.setSlot _ _ _) i = _
    rw [slot_setSlot]
    simp only [hxl, and_true]
  have hoff : ∀ i, ((commit_rotate env x).fw.slot i).offset
      = if s.fw.idx = i then ((s.fw.slot s.fw.idx).offset + env.P * CHUNK) % 4294967296
        else (s.fw.slot i).offset := by
    intro i
    rw [hslot, e2]
    split_ifs
    · show ((x.fw.slot s.fw.idx).offset + env.P * CHUNK) % 4294967296 = _
      rw [hxslot]
    · rw [hxslot]
  have hpkt : ∀ i, ((commit_rotate env x).fw.slot i).pkt = (s.fw.slot i).pkt := by
    intro i
    rw [hslot, e2]
    split_ifs with h
    · show (x.fw.slot s.fw.idx).pkt = _
      rw [hxslot, h]
    · rw [hxslot]
  have hidx : (commit_rotate env x).fw.idx = (s.fw.idx + 1) % env.P := by
    show (x.fw.idx + 1) % env.P = _
    rw [e2]
  have hofs : (commit_rotate env x).fw.ofs = (s.fw.ofs + CHUNK) % 4294967296 := by
    show x.fw.ofs = _
    rw [e4, hlen']
  refine ⟨?_, ?_, ?_, fun i hi => ?_, fun i hi => ?_, fun hn k hk => ?_⟩
  · show (FwUpdate.setSlot _ _ _).reads.length = _
    rw [setSlot_length, e1]
    exact h1
  · rw [hidx]
    exact Nat.mod_lt _ hP.1
  · rw [hofs]
    exact Nat.mod_lt _ (by norm_num)
  · rw [hpkt]
    exact h4 i hi
  · rw [hoff]
    obtain ⟨m, hm⟩ := h5 i hi
    split_ifs with h
    · refine ⟨m + 1, ?_⟩
      rw [h, hm, Nat.mod_add_mod]
      have e : i * CHUNK + m * (env.P * CHUNK) + env.P * CHUNK
          = i * CHUNK + (m + 1) * (env.P * CHUNK) := by ring
      rw [e]
    · exact ⟨m, hm⟩
  · have hn' : s.fw.node_id ≠ 0 := by
      rw [← e3]
      exact hn
    rw [hidx, hofs, Nat.mod_add_mod, hoff]
    by_cases hk1 : k + 1 < env.P
    · have hne : s.fw.idx ≠ (s.fw.idx + 1 + k) % env.P := by
        rw [Nat.add_assoc]
        exact Ne.symm (mod_rotate_ne env.P s.fw.idx (1 + k) h2 (by omega) (by omega))
      rw [if_neg hne, Nat.add_assoc, Nat.add_comm 1 k, h6 hn' (k + 1) hk1,
        Nat.mod_add_mod]
      have e : s.fw.ofs + (k + 1) * CHUNK = s.fw.ofs + CHUNK + k * CHUNK := by ring
      rw [e]
    · have hk2 : 1 + k = env.P := by omega
      have he : s.fw.idx = (s.fw.idx + 1 + k) % env.P := by
        rw [Nat.add_assoc, hk2, mod_rotate_full env.P s.fw.idx h2]
      rw [if_pos he]
      have h0 := h6 hn' 0 hP.1
      rw [Nat.add_zero, Nat.mod_eq_of_lt h2, Nat.zero_mul, Nat.add_zero,
        Nat.mod_eq_of_lt h3] at h0
      rw [h0, Nat.mod_add_mod]
      have e : s.fw.ofs + env.P * CHUNK = s.fw.ofs + CHUNK + k * CHUNK := by
        rw [← hk2]
        ring
      rw [e]

theorem SlotInv.slot_invariant (env : Env W) (hP : PipelineOk env) (hdec : DecoderBounded env) :
    CommitInvariant env (SlotInv env) where
  benign := fun _ _ hs hb => hs.slot_benign hb
  decode := by
    intro t idx s hs
    obtain ⟨h1, h2, h3, h4, h5, h6⟩ := hs
    have hoff : ∀ i, ((decode_response env t idx s).1.fw.slot i).offset
        = (s.fw.slot i).offset := by
      intro i
      simp only [decode_response, slot_setSlot]
      split_ifs with h
      · rw [← h.1]
      · rfl
    refine ⟨by simp [decode_response, h1], h2, h3, fun i hi => ?_, fun i hi => ?_,
      fun hn k hk => ?_⟩
    · simp only [decode_response, slot_setSlot]
      split_ifs with h
      · exact hdec t _ (by rw [h.1]; exact h4 i hi)
      · exact h4 i hi
    · obtain ⟨m, hm⟩ := h5 i hi
      exact ⟨m, by rw [hoff]; exact hm⟩
    · rw [hoff]
      exact h6 hn k hk
  stuck := fun efuel s s3 hs hp => SlotInv.slot_stuck env efuel s s3 hs hp
  failed := fun efuel s s3 hs hp _ => SlotInv.slot_failed env efuel s s3 hs hp
  last := fun efuel s s3 hs hp _ _ => SlotInv.slot_last env efuel s s3 hs hp
  next := fun efuel s s3 hs hp _ hl => SlotInv.slot_next env hP efuel s s3 hs hp hl

theorem simEnv_decoderBounded (P : Nat) (sizes : Nat → Nat) :
    DecoderBounded (simEnv P sizes) := by
  intro t p _
  show (if t.payload.length > CHUNK then _ else _ : ReadResponse × Bool).1.len ≤ CHUNK
  split_ifs with h
  · exact Nat.zero_le _
  · exact Nat.le_of_not_lt h

theorem startedState_reachable (P : Nat) (sizes : Nat → Nat) :
    Reachable (simEnv P sizes) (startedState P sizes) :=
  Reachable.start (idleState P 0) beginRequest { source_node_id := 0, path := [102, 119] }
    rfl rfl (by decide)

set_option maxRecDepth 100000 in
/-- Witness for C1: the first response handled right after the request. -/
theorem commits_tile_witness :
    Reachable (simEnv 1 sizes2k) (startedState 1 sizes2k) ∧
    (handle_file_read_response (simEnv 1 sizes2k) 4 4 (readResponse 0 fullChunk)
      (startedState 1 sizes2k)).1.fw.ofs
      = committed (flashLog (handle_file_read_response (simEnv 1 sizes2k) 4 4
          (readResponse 0 fullChunk) (startedState 1 sizes2k)).1.trace) % 4294967296 :=
  ⟨startedState_reachable 1 sizes2k,
    (commits_tile (simEnv 1 sizes2k) (startedState 1 sizes2k)
      (startedState_reachable 1 sizes2k) 4 4 (readResponse 0 fullChunk)).2.2.2.1⟩

/-! ## Erase before write (C2) -/

theorem sector_start_mono (env : Env W) {a b : Nat} (h : a ≤ b) :
    sector_start env a ≤ sector_start env b := by
  induction b with
  | zero =>
    have : a = 0 := by omega
    rw [this]
  | succ m ih =>
    by_cases hab : a = m + 1
    · rw [hab]
    · have := ih (by omega)
      simp only [sector_start]
      omega

/-- A chunk that starts inside sector `sec` touches that sector and, if it
runs over its end, the next one; no other. -/
theorem intersects_cases (env : Env W) (n : Nat) (G : Geometry env n)
    (hmin : ∀ i, i < n → CHUNK ≤ env.flash_func_sector_size i)
    (sec so len k : Nat) (hsec : sec < n)
    (hso : so < env.flash_func_sector_size sec) (hlen : len ≤ CHUNK)
    (h : Intersects env k (sector_start env sec + so) len) :
    k = sec ∨ (k = sec + 1 ∧ so + len > env.flash_func_sector_size sec) := by
  obtain ⟨b, h1, h2, h3, h4⟩ := h
  have hk : k < n := by
    by_contra hk
    have := G.absent k (Nat.le_of_not_lt hk)
    omega
  have hs1 : sector_start env (sec + 1)
      = sector_start env sec + env.flash_func_sector_size sec := rfl
  have hk1 : sector_start env (k + 1) = sector_start env k + env.flash_func_sector_size k := rfl
  by_cases hlt : k < sec
  · have := sector_start_mono env (show k + 1 ≤ sec from hlt)
    omega
  · by_cases heq : k = sec
    · exact Or.inl heq
    · right
      by_cases hk2 : k = sec + 1
      · subst hk2
        exact ⟨rfl, by omega⟩
      · have hs2 : sector_start env (sec + 1 + 1)
            = sector_start env (sec + 1) + env.flash_func_sector_size (sec + 1) := rfl
        have hm := hmin (sec + 1) (by omega)
        have := sector_start_mono env (show sec + 1 + 1 ≤ k by omega)
        omega

/-- Erases put in front of a flash log. -/
theorem flashLog_erases (T tr : List Event) (hT : ∀ e ∈ T, ∃ k, e = Event.erase k) :
    flashLog (T ++ tr) = T ++ flashLog tr := by
  induction T with
  | nil => rfl
  | cons e T ih =>
    obtain ⟨k, he⟩ := hT e (List.mem_cons_self _ _)
    subst he
    show Event.erase k :: flashLog (T ++ tr) = Event.erase k :: (T ++ flashLog tr)
    rw [ih (fun e he => hT e (List.mem_cons_of_mem _ he))]

theorem erasedBeforeWrite_erases (env : Env W) (T L : List Event)
    (hT : ∀ e ∈ T, ∃ k, e = Event.erase k) (h : ErasedBeforeWrite env L) :
    ErasedBeforeWrite env (T ++ L) := by
  induction T with
  | nil => exact h
  | cons e T ih =>
    obtain ⟨k, he⟩ := hT e (List.mem_cons_self _ _)
    subst he
    simp only [List.cons_append, ErasedBeforeWrite]
    exact ih (fun e he => hT e (List.mem_cons_of_mem _ he))

/-- The erase part of the invariant, and what the erase loop does to it. -/
theorem erase_loop_spec (env : Env W) (n : Nat) (G : Geometry env n) (fuel : Nat) (s : State W)
    (he : s.fw.erased_to ≤ n + 1)
    (hlog : ∀ j, j < s.fw.erased_to → Event.erase j ∈ flashLog s.trace)
    (hw : ErasedBeforeWrite env (flashLog s.trace)) :
    s.fw.erased_to ≤ (erase_loop env fuel s).1.fw.erased_to ∧
    (erase_loop env fuel s).1.fw.erased_to ≤ n + 1 ∧
    (∀ j, j < (erase_loop env fuel s).1.fw.erased_to →
      Event.erase j ∈ flashLog (erase_loop env fuel s).1.trace) ∧
    ErasedBeforeWrite env (flashLog (erase_loop env fuel s).1.trace) := by
  induction fuel generalizing s with
  | zero => exact ⟨Nat.le_refl _, he, hlog, hw⟩
  | succ f ih =>
    unfold erase_loop
    split_ifs with hc
    · have hlt : s.fw.erased_to < n := by
        by_contra hge
        exact hc.1 (G.absent _ (Nat.le_of_not_lt hge))
      have hcount := G.count
      have hmod : (s.fw.erased_to + 1) % 65536 = s.fw.erased_to + 1 :=
        Nat.mod_eq_of_lt (by omega)
      have := ih
        { (flash_func_erase_sector env s.fw.erased_to s) with
          fw := { (flash_func_erase_sector env s.fw.erased_to s).fw with
            erased_to := ((flash_func_erase_sector env s.fw.erased_to s).fw.erased_to + 1)
              % 65536 } }
        (by show (s.fw.erased_to + 1) % 65536 ≤ n + 1; omega)
        (by
          intro j hj
          have hj' : j < s.fw.erased_to + 1 := by
            have : j < (s.fw.erased_to + 1) % 65536 := hj
            omega
          show Event.erase j ∈ flashLog (Event.erase s.fw.erased_to :: s.trace)
          simp only [flashLog, List.mem_cons]
          by_cases hje : j = s.fw.erased_to
          · exact Or.inl (by rw [hje])
          · exact Or.inr (hlog j (by omega)))
        (by
          show ErasedBeforeWrite env (flashLog (Event.erase s.fw.erased_to :: s.trace))
          simp only [flashLog, ErasedBeforeWrite]
          exact hw)
      exact ⟨Nat.le_trans (by show s.fw.erased_to ≤ (s.fw.erased_to + 1) % 65536; omega)
        this.1, this.2⟩
    · exact ⟨Nat.le_refl _, he, hlog, hw⟩

theorem erase_to_spec (env : Env W) (n : Nat) (G : Geometry env n) (fuel k : Nat) (s : State W)
    (hk : k ≤ s.fw.erased_to) (hkn : k ≤ n) (he : s.fw.erased_to ≤ n + 1)
    (hlog : ∀ j, j < s.fw.erased_to → Event.erase j ∈ flashLog s.trace)
    (hw : ErasedBeforeWrite env (flashLog s.trace)) :
    k < (erase_to env fuel k s).1.fw.erased_to ∧
    s.fw.erased_to ≤ (erase_to env fuel k s).1.fw.erased_to ∧
    (erase_to env fuel k s).1.fw.erased_to ≤ n + 1 ∧
    (∀ j, j < (erase_to env fuel k s).1.fw.erased_to →
      Event.erase j ∈ flashLog (erase_to env fuel k s).1.trace) ∧
    ErasedBeforeWrite env (flashLog (erase_to env fuel k s).1.trace) := by
  unfold erase_to
  split_ifs with hlt
  · exact ⟨hlt, Nat.le_refl _, he, hlog, hw⟩
  · have hcount := G.count
    have hke : k = s.fw.erased_to := by omega
    have hmod : (k + 1) % 65536 = k + 1 := Nat.mod_eq_of_lt (by omega)
    have := erase_loop_spec env n G fuel
      { (flash_func_erase_sector env k s) with
        fw := { (flash_func_erase_sector env k s).fw with erased_to := (k + 1) % 65536 } }
      (by show (k + 1) % 65536 ≤ n + 1; omega)
      (by
        intro j hj
        have hj' : j < k + 1 := by
          have : j < (k + 1) % 65536 := hj
          omega
        show Event.erase j ∈ flashLog (Event.erase k :: s.trace)
        simp only [flashLog, List.mem_cons]
        by_cases hje : j = k
        · exact Or.inl (by rw [hje])
        · exact Or.inr (hlog j (by omega)))
      (by
        show ErasedBeforeWrite env (flashLog (Event.erase k :: s.trace))
        simp only [flashLog, ErasedBeforeWrite]
        exact hw)
    have h1 := this.1
    exact ⟨Nat.lt_of_lt_of_le (by show k < (k + 1) % 65536; omega) h1,
      Nat.le_trans (by show s.fw.erased_to ≤ (k + 1) % 65536; omega) h1, this.2⟩

/-- What lines 318 to 323 establish on a flash of `n` sectors: the current
sector lies below the erase mark, and so does the next one when the chunk runs
over the end of the current sector. -/
theorem commit_erase_spec (env : Env W) (n : Nat) (G : Geometry env n)
    (efuel len size : Nat) (s : State W) (hsec : s.fw.sector < n)
    (he : s.fw.erased_to ≤ n + 1)
    (hlog : ∀ j, j < s.fw.erased_to → Event.erase j ∈ flashLog s.trace)
    (hw : ErasedBeforeWrite env (flashLog s.trace))
    (hcl : s.fw.sector < s.fw.erased_to ∨
      (s.fw.sector = s.fw.erased_to ∧ s.fw.sector_ofs = 0)) :
    s.fw.sector < (commit_erase env efuel len size s).1.fw.erased_to ∧
    (commit_erase env efuel len size s).1.fw.erased_to ≤ n + 1 ∧
    (∀ j, j < (commit_erase env efuel len size s).1.fw.erased_to →
      Event.erase j ∈ flashLog (commit_erase env efuel len size s).1.trace) ∧
    ErasedBeforeWrite env (flashLog (commit_erase env efuel len size s).1.trace) ∧
    ((commit_erase env efuel len size s).2 = true →
      (s.fw.sector_ofs + len) % 4294967296 > size →
      s.fw.sector + 1 < (commit_erase env efuel len size s).1.fw.erased_to) := by
  have h1 : (if s.fw.sector_ofs = 0 then erase_to env efuel s.fw.sector s else (s, true)).1.fw
        = { s.fw with erased_to :=
            (if s.fw.sector_ofs = 0 then erase_to env efuel s.fw.sector s
              else (s, true)).1.fw.erased_to } ∧
      s.fw.sector < (if s.fw.sector_ofs = 0 then erase_to env efuel s.fw.sector s
        else (s, true)).1.fw.erased_to ∧
      (if s.fw.sector_ofs = 0 then erase_to env efuel s.fw.sector s
        else (s, true)).1.fw.erased_to ≤ n + 1 ∧
      (∀ j, j < (if s.fw.sector_ofs = 0 then erase_to env efuel s.fw.sector s
          else (s, true)).1.fw.erased_to →
        Event.erase j ∈ flashLog (if s.fw.sector_ofs = 0 then erase_to env efuel s.fw.sector s
          else (s, true)).1.trace) ∧
      ErasedBeforeWrite env (flashLog (if s.fw.sector_ofs = 0
        then erase_to env efuel s.fw.sector s else (s, true)).1.trace) := by
    split_ifs with h0
    · have hk : s.fw.sector ≤ s.fw.erased_to := by
        rcases hcl with h | h
        · exact Nat.le_of_lt h
        · exact Nat.le_of_eq h.1
      have := erase_to_spec env n G efuel s.fw.sector s hk (Nat.le_of_lt hsec) he hlog hw
      exact ⟨erase_to_fw env efuel s.fw.sector s, this.1, this.2.2⟩
    · rcases hcl with h | h
      · exact ⟨rfl, h, he, hlog, hw⟩
      · exact absurd h.2 h0
  unfold commit_erase
  generalize (if s.fw.sector_ofs = 0 then erase_to env efuel s.fw.sector s else (s, true))
    = e1 at h1
  obtain ⟨a1, a2, a3, a4, a5⟩ := h1
  have hsec1 : e1.1.fw.sector = s.fw.sector := by rw [a1]
  have hso1 : e1.1.fw.sector_ofs = s.fw.sector_ofs := by rw [a1]
  simp only
  by_cases c1 : e1.2 = false
  · rw [if_pos c1]
    exact ⟨a2, a3, a4, a5, fun h => by rw [c1] at h; cases h⟩
  · rw [if_neg c1]
    by_cases c2 : (e1.1.fw.sector_ofs + len) % 4294967296 > size
    · rw [if_pos c2]
      have := erase_to_spec env n G efuel (e1.1.fw.sector + 1) e1.1
        (by rw [hsec1]; exact a2) (by rw [hsec1]; exact hsec) a3 a4 a5
      rw [hsec1] at this ⊢
      exact ⟨Nat.lt_trans (Nat.lt_succ_self _) this.1, this.2.2.1, this.2.2.2.1,
        this.2.2.2.2, fun _ _ => this.1⟩
    · rw [if_neg c2]
      rw [hso1] at c2
      exact ⟨a2, a3, a4, a5, fun _ h => absurd h c2⟩

/-- The flash invariant reads the write position, the erase mark, the buffered
packets and the flash log only. -/
theorem FlashInv.flash_congr {env : Env W} {n : Nat} {s s' : State W} (h : FlashInv env n s)
    (h1 : s'.fw.sector = s.fw.sector) (h2 : s'.fw.sector_ofs = s.fw.sector_ofs)
    (h3 : s'.fw.ofs = s.fw.ofs) (h4 : s'.fw.erased_to = s.fw.erased_to)
    (h5 : ∀ i, (s'.fw.slot i).pkt = (s.fw.slot i).pkt)
    (h6 : flashLog s'.trace = flashLog s.trace) : FlashInv env n s' := by
  unfold FlashInv at *
  simp only [h1, h2, h3, h4, h5, h6]
  exact h

/-- The state that leaves lines 291 to 323 towards the write or inside an
erase loop. -/
theorem FlashInv.flash_prepare {env : Env W} {n : Nat} (G : Geometry env n) {efuel : Nat}
    {s s3 : State W} {c : Option Ctl} (hs : FlashInv env n s)
    (hp : commit_prepare env efuel s = (s3, c)) (hc : c = none ∨ c = some Ctl.stuck) :
    s3.fw = { s.fw with erased_to := s3.fw.erased_to } ∧
    s.fw.sector < n ∧ s.fw.sector < s3.fw.erased_to ∧ s3.fw.erased_to ≤ n + 1 ∧
    (∀ j, j < s3.fw.erased_to → Event.erase j ∈ flashLog s3.trace) ∧
    ErasedBeforeWrite env (flashLog s3.trace) ∧
    (c = none →
      (s.fw.sector_ofs + (s.fw.slot s.fw.idx).pkt.len) % 4294967296
        > env.flash_func_sector_size s.fw.sector →
      s.fw.sector + 1 < s3.fw.erased_to) := by
  obtain ⟨_, hne, E, w, T, hs3, _⟩ := commit_prepare_erased env efuel s s3 c hp hc
  have hsec : s.fw.sector < n := by
    by_contra hge
    exact hne (G.absent _ (Nat.le_of_not_lt hge))
  rcases commit_prepare_cases env efuel s with ⟨_, h1⟩ | ⟨_, _, h1⟩ | ⟨_, _, c', _, h3, hflag⟩
  · rw [h1] at hp
    rcases hc with hc | hc <;> subst hc <;> cases hp
  · rw [h1] at hp
    rcases hc with hc | hc <;> subst hc <;> cases hp
  · rw [h3] at hp
    have e1 : s3 = (commit_erase env efuel (s.fw.slot s.fw.idx).pkt.len
        (env.flash_func_sector_size s.fw.sector)
        (if s.fw.ofs = 0 then flash_set_keep_unlocked env true s else s)).1 :=
      (congrArg Prod.fst hp).symm
    have e2 : c = c' := (congrArg Prod.snd hp).symm
    obtain ⟨g1, g2, g3, g4, g5, g6, g7⟩ := hs
    have hu : FlashInv env n (if s.fw.ofs = 0 then flash_set_keep_unlocked env true s else s) := by
      split_ifs
      · exact FlashInv.flash_congr ⟨g1, g2, g3, g4, g5, g6, g7⟩ rfl rfl rfl rfl (fun _ => rfl) rfl
      · exact ⟨g1, g2, g3, g4, g5, g6, g7⟩
    have hufw : (if s.fw.ofs = 0 then flash_set_keep_unlocked env true s else s).fw = s.fw := by
      split_ifs <;> rfl
    obtain ⟨u1, u2, u3, u4, u5, u6, u7⟩ := hu
    have := commit_erase_spec env n G efuel (s.fw.slot s.fw.idx).pkt.len
      (env.flash_func_sector_size s.fw.sector)
      (if s.fw.ofs = 0 then flash_set_keep_unlocked env true s else s)
      (by rw [hufw]; exact hsec) u2 u4 u6 (u5 (by rw [hufw]; exact hsec))
    rw [hufw] at this
    rw [← e1] at this
    refine ⟨by rw [hs3], hsec, this.1, this.2.1, this.2.2.1, this.2.2.2.1, fun hcn => ?_⟩
    exact this.2.2.2.2 (hflag.1 (by rw [← e2]; exact hcn))

/-- The flash invariant after a successful write and the move of the position. -/
theorem FlashInv.position {env : Env W} {n : Nat} (G : Geometry env n)
    (hmin : ∀ i, i < n → CHUNK ≤ env.flash_func_sector_size i) {efuel : Nat}
    {s s3 : State W} (hs : FlashInv env n s)
    (hp : commit_prepare env efuel s = (s3, none))
    (hw : (commit_write env s s3).1 = true) :
    FlashInv env n (commit_position env (s.fw.slot s.fw.idx).pkt.len
      (env.flash_func_sector_size s.fw.sector) (after_write env s s3)) := by
  obtain ⟨p1, p2, p3, p4, p5, p6, p7⟩ := hs.flash_prepare G hp (Or.inl rfl)
  obtain ⟨g1, g2, g3, g4, g5, g6, g7⟩ := hs
  obtain ⟨hofs, hso⟩ := g3 p2
  have hlen := g7 s.fw.idx
  have hcross := p7 rfl
  have hsec3 : s3.fw.sector = s.fw.sector := by rw [p1]
  have hso3 : s3.fw.sector_ofs = s.fw.sector_ofs := by rw [p1]
  have hofs3 : s3.fw.ofs = s.fw.ofs := by rw [p1]
  have hreads3 : s3.fw.reads = s.fw.reads := by rw [p1]
  have hcount := G.count
  have hfits := G.fits
  have hst1 : sector_start env (s.fw.sector + 1)
      = sector_start env s.fw.sector + env.flash_func_sector_size s.fw.sector := rfl
  have hmono := sector_start_mono env (show s.fw.sector + 1 ≤ n from p2)
  have hCH : CHUNK = 256 := rfl
  have hm1 : (s.fw.sector_ofs + (s.fw.slot s.fw.idx).pkt.len) % 4294967296
      = s.fw.sector_ofs + (s.fw.slot s.fw.idx).pkt.len := Nat.mod_eq_of_lt (by omega)
  have hm2 : (s.fw.ofs + (s.fw.slot s.fw.idx).pkt.len) % 4294967296
      = s.fw.ofs + (s.fw.slot s.fw.idx).pkt.len := Nat.mod_eq_of_lt (by omega)
  have hm3 : (s.fw.sector + 1) % 256 = s.fw.sector + 1 := Nat.mod_eq_of_lt (by omega)
  rw [hm1] at hcross
  have hmem : ∀ j, j < s3.fw.erased_to →
      Event.erase j ∈ Event.write s.fw.ofs (s.fw.slot s.fw.idx).pkt.len true
        :: flashLog s3.trace := fun j hj => List.mem_cons_of_mem _ (p5 j hj)
  have hebw : ∀ k, Intersects env k s.fw.ofs (s.fw.slot s.fw.idx).pkt.len →
      Event.erase k ∈ flashLog s3.trace := by
    intro k hk
    rw [hofs] at hk
    rcases intersects_cases env n G hmin _ _ _ k p2 hso hlen hk with h | ⟨h, hgt⟩
    · exact p5 k (by rw [h]; exact p3)
    · exact p5 k (by rw [h]; exact hcross hgt)
  unfold FlashInv commit_position after_write
  simp only [hw, hsec3, hso3, hofs3, hm1, hm2, hm3, flashLog, ErasedBeforeWrite,
    decide_eq_true_eq, ge_iff_le]
  by_cases hroll : env.flash_func_sector_size s.fw.sector
      ≤ s.fw.sector_ofs + (s.fw.slot s.fw.idx).pkt.len
  · simp only [hroll, if_true]
    refine ⟨p2, p4, fun hn => ⟨?_, ?_⟩, hmem, fun hn => ?_, ⟨hebw, p6⟩, fun i => ?_⟩
    · rw [hst1]
      omega
    · have := hmin (s.fw.sector + 1) hn
      omega
    · by_cases hgt : s.fw.sector_ofs + (s.fw.slot s.fw.idx).pkt.len
          > env.flash_func_sector_size s.fw.sector
      · exact Or.inl (hcross hgt)
      · by_cases he : s.fw.sector + 1 < s3.fw.erased_to
        · exact Or.inl he
        · exact Or.inr ⟨by omega, by omega⟩
    · unfold FwUpdate.slot
      simp only [hreads3]
      exact g7 i
  · simp only [hroll, if_false]
    refine ⟨g1, p4, fun _ => ⟨by omega, by omega⟩, hmem, fun _ => Or.inl p3, ⟨hebw, p6⟩,
      fun i => ?_⟩
    unfold FwUpdate.slot
    simp only [hreads3]
    exact g7 i

theorem seed_reads_pkt (P i : Nat) : ((seed_reads P).getD i zeroSlot).pkt = zeroSlot.pkt := by
  by_cases h : i < P
  · rw [seed_reads_slot P i h]
  · rw [List.getD_eq_default]
    simp only [seed_reads, List.length_map, List.length_range]
    exact Nat.le_of_not_lt h

theorem commit_rotate_pkt (env : Env W) (x : State W) (i : Nat) :
    ((commit_rotate env x).fw.slot i).pkt = (x.fw.slot i).pkt := by
  show ((x.fw.setSlot x.fw.idx _).slot i).pkt = _
  rw [slot_setSlot]
  split_ifs with h
  · rw [← h.1]
  · rfl

theorem FlashInv.flash_invariant (env : Env W) (n : Nat) (G : Geometry env n)
    (hmin : ∀ i, i < n → CHUNK ≤ env.flash_func_sector_size i) (hdec : DecoderBounded env) :
    CommitInvariant env (FlashInv env n) where
  benign := fun s s' hs hb =>
    hs.flash_congr hb.sector hb.sector_ofs hb.ofs hb.erased_to hb.pkt hb.log
  decode := by
    intro t idx s hs
    obtain ⟨g1, g2, g3, g4, g5, g6, g7⟩ := hs
    refine ⟨g1, g2, g3, g4, g5, g6, fun i => ?_⟩
    simp only [decode_response, slot_setSlot]
    split_ifs with h
    · exact hdec t _ (g7 idx)
    · exact g7 i
  stuck := by
    intro efuel s s3 hs hp
    obtain ⟨p1, p2, p3, p4, p5, p6, _⟩ := hs.flash_prepare G hp (Or.inr rfl)
    obtain ⟨g1, g2, g3, g4, g5, g6, g7⟩ := hs
    have hslot : ∀ i, s3.fw.slot i = s.fw.slot i := fun i => by
      unfold FwUpdate.slot
      rw [p1]
    unfold FlashInv
    rw [p1]
    simp only [hslot]
    exact ⟨g1, p4, g3, p5, fun _ => Or.inl p3, p6, g7⟩
  failed := by
    intro efuel s s3 hs hp hw
    obtain ⟨p1, p2, p3, p4, p5, p6, _⟩ := hs.flash_prepare G hp (Or.inl rfl)
    obtain ⟨g1, g2, g3, g4, g5, g6, g7⟩ := hs
    have hslot : ∀ i, s3.fw.slot i = s.fw.slot i := fun i => by
      unfold FwUpdate.slot
      rw [p1]
    unfold FlashInv after_write
    simp only [hw, flashLog, ErasedBeforeWrite]
    rw [p1]
    simp only [hslot]
    exact ⟨g1, p4, g3, fun j hj => List.mem_cons_of_mem _ (p5 j hj), fun _ => Or.inl p3, p6, g7⟩
  last := fun efuel s s3 hs hp hw _ =>
    (hs.position G hmin hp hw).flash_congr rfl rfl rfl rfl (fun _ => rfl) rfl
  next := fun efuel s s3 hs hp hw _ =>
    (hs.position G hmin hp hw).flash_congr rfl rfl rfl rfl (commit_rotate_pkt env _) rfl

theorem FlashInv.flash_start (env : Env W) (n : Nat) (G : Geometry env n) (s0 : State W)
    (t : CanardRxTransfer) (pkt : BeginFirmwareUpdateRequest) (h0 : s0.fw.node_id = 0)
    (hd : env.BeginFirmwareUpdateRequest_decode t = some pkt)
    (hl : pkt.path.length ≤ PATH_MAX) :
    FlashInv env n (handle_begin_firmware_update env t s0) := by
  unfold handle_begin_firmware_update
  rw [if_pos h0, hd]
  simp only [if_neg (Nat.not_lt.2 hl)]
  refine ⟨Nat.zero_le _, Nat.zero_le _, fun hn => ⟨rfl, ?_⟩, fun j hj => absurd hj (Nat.not_lt_zero j),
    fun _ => Or.inr ⟨rfl, rfl⟩, trivial, fun i => ?_⟩
  · exact Nat.pos_of_ne_zero (G.present 0 hn)
  · show ((seed_reads env.P).getD i zeroSlot).pkt.len ≤ CHUNK
    rw [seed_reads_pkt]
    exact Nat.zero_le _

/-- Erase before write where the sector index cannot wrap: on a flash of at
most 255 sectors, each at least `CHUNK` bytes long, whose total size is at most
`2^32 - CHUNK`, and with a decoder that keeps payloads within `CHUNK` bytes,
every successful `flash_write_buffer` call of an update is preceded, in the log
of the same update, by a `flash_func_erase_sector` call on every sector that
intersects the written range; this holds between the handlers and in whatever
state a call of `handle_file_read_response` stops. -/
theorem erased_before_write (env : Env W) (n : Nat) (G : Geometry env n)
    (hmin : SectorsAtLeastChunk env n) (hdec : DecoderBounded env)
    (s : State W) (hr : Reachable env s) (efuel fuel : Nat) (t : CanardRxTransfer) :
    ErasedBeforeWrite env (flashLog s.trace) ∧
    ErasedBeforeWrite env (flashLog (handle_file_read_response env efuel fuel t s).1.trace) := by
  have hs : FlashInv env n s :=
    (FlashInv.flash_invariant env n G hmin hdec).reachable (FlashInv.flash_start env n G) s hr
  exact ⟨hs.2.2.2.2.2.1,
    ((FlashInv.flash_invariant env n G hmin hdec).handler efuel fuel t s hs).2.2.2.2.2.1⟩

/-! ## Writes and erases stay inside the flash (C4) -/

theorem erase_loop_inside (env : Env W) (n : Nat) (G : Geometry env n) (fuel : Nat)
    (s : State W) (he : s.fw.erased_to ≤ n) (hin : InsideFlash env n (flashLog s.trace)) :
    (erase_loop env fuel s).1.fw.erased_to ≤ n ∧
    InsideFlash env n (flashLog (erase_loop env fuel s).1.trace) := by
  induction fuel generalizing s with
  | zero => exact ⟨he, hin⟩
  | succ f ih =>
    unfold erase_loop
    split_ifs with hc
    · have hlt : s.fw.erased_to < n := by
        by_contra hge
        exact hc.1 (G.absent _ (Nat.le_of_not_lt hge))
      have hcount := G.count
      exact ih
        { (flash_func_erase_sector env s.fw.erased_to s) with
          fw := { (flash_func_erase_sector env s.fw.erased_to s).fw with
            erased_to := ((flash_func_erase_sector env s.fw.erased_to s).fw.erased_to + 1)
              % 65536 } }
        (by show (s.fw.erased_to + 1) % 65536 ≤ n; omega)
        (by
          show InsideFlash env n (flashLog (Event.erase s.fw.erased_to :: s.trace))
          simp only [flashLog, InsideFlash]
          exact ⟨hlt, hin⟩)
    · exact ⟨he, hin⟩

theorem erase_to_inside (env : Env W) (n : Nat) (G : Geometry env n) (fuel k : Nat)
    (s : State W) (hk : k < n) (he : s.fw.erased_to ≤ n)
    (hin : InsideFlash env n (flashLog s.trace)) :
    (erase_to env fuel k s).1.fw.erased_to ≤ n ∧
    InsideFlash env n (flashLog (erase_to env fuel k s).1.trace) := by
  unfold erase_to
  split_ifs
  · exact ⟨he, hin⟩
  · have hcount := G.count
    exact erase_loop_inside env n G fuel
      { (flash_func_erase_sector env k s) with
        fw := { (flash_func_erase_sector env k s).fw with erased_to := (k + 1) % 65536 } }
      (by show (k + 1) % 65536 ≤ n; omega)
      (by
        show InsideFlash env n (flashLog (Event.erase k :: s.trace))
        simp only [flashLog, InsideFlash]
        exact ⟨hk, hin⟩)

/-- Without a chunk that runs over the end of the sector, lines 318 to 323
erase inside the flash only. -/
theorem commit_erase_inside (env : Env W) (n : Nat) (G : Geometry env n)
    (efuel len size : Nat) (s : State W) (hsec : s.fw.sector < n)
    (hno : ¬ (s.fw.sector_ofs + len) % 4294967296 > size)
    (he : s.fw.erased_to ≤ n) (hin : InsideFlash env n (flashLog s.trace)) :
    (commit_erase env efuel len size s).1.fw.erased_to ≤ n ∧
    InsideFlash env n (flashLog (commit_erase env efuel len size s).1.trace) := by
  have h1 : (if s.fw.sector_ofs = 0 then erase_to env efuel s.fw.sector s else (s, true)).1.fw
        = { s.fw with erased_to :=
            (if s.fw.sector_ofs = 0 then erase_to env efuel s.fw.sector s
              else (s, true)).1.fw.erased_to } ∧
      (if s.fw.sector_ofs = 0 then erase_to env efuel s.fw.sector s
        else (s, true)).1.fw.erased_to ≤ n ∧
      InsideFlash env n (flashLog (if s.fw.sector_ofs = 0
        then erase_to env efuel s.fw.sector s else (s, true)).1.trace) := by
    split_ifs
    · exact ⟨erase_to_fw env efuel s.fw.sector s,
        erase_to_inside env n G efuel s.fw.sector s hsec he hin⟩
    · exact ⟨rfl, he, hin⟩
  unfold commit_erase
  generalize (if s.fw.sector_ofs = 0 then erase_to env efuel s.fw.sector s else (s, true))
    = e1 at h1
  obtain ⟨a1, a2, a3⟩ := h1
  have hso1 : e1.1.fw.sector_ofs = s.fw.sector_ofs := by rw [a1]
  simp only
  by_cases c1 : e1.2 = false
  · rw [if_pos c1]
    exact ⟨a2, a3⟩
  · rw [if_neg c1, hso1, if_neg hno]
    exact ⟨a2, a3⟩

theorem sector_start_dvd (env : Env W) (n : Nat) (hmul : SectorsChunkMultiples env n)
    (k : Nat) (hk : k ≤ n) : CHUNK ∣ sector_start env k := by
  induction k with
  | zero => exact Nat.dvd_zero _
  | succ m ih => exact Nat.dvd_add (ih (by omega)) (hmul m (by omega))

theorem SectorsChunkMultiples.atLeast {env : Env W} {n : Nat} (G : Geometry env n)
    (hmul : SectorsChunkMultiples env n) : SectorsAtLeastChunk env n :=
  fun i hi => Nat.le_of_dvd (Nat.pos_of_ne_zero (G.present i hi)) (hmul i hi)

/-- On sectors that are multiples of `CHUNK` the chunk at a slot offset ends
within its sector, and lines 291 to 323 erase inside the flash only. -/
theorem InsideInv.inside_prepare {env : Env W} {n : Nat} (G : Geometry env n)
    (hmul : SectorsChunkMultiples env n) {efuel : Nat} {s s3 : State W} {c : Option Ctl}
    (hs : InsideInv env n s) (hp : commit_prepare env efuel s = (s3, c))
    (hc : c = none ∨ c = some Ctl.stuck) :
    s3.fw.erased_to ≤ n ∧ InsideFlash env n (flashLog s3.trace) ∧
    s.fw.sector_ofs + CHUNK ≤ env.flash_func_sector_size s.fw.sector := by
  obtain ⟨hf, hoff, he, hin⟩ := hs
  obtain ⟨hofs, hne, _⟩ := commit_prepare_erased env efuel s s3 c hp hc
  have hsec : s.fw.sector < n := by
    by_contra hge
    exact hne (G.absent _ (Nat.le_of_not_lt hge))
  obtain ⟨g1, g2, g3, g4, g5, g6, g7⟩ := hf
  obtain ⟨hpos, hso⟩ := g3 hsec
  have hd1 : CHUNK ∣ s.fw.ofs := by
    rw [← hofs]
    exact hoff _
  have hd2 : CHUNK ∣ s.fw.sector_ofs := by
    rw [hpos] at hd1
    exact (Nat.dvd_add_right (sector_start_dvd env n hmul _ (Nat.le_of_lt hsec))).1 hd1
  have hd3 := hmul _ hsec
  have hroom : s.fw.sector_ofs + CHUNK ≤ env.flash_func_sector_size s.fw.sector := by
    obtain ⟨a, ha⟩ := hd2
    obtain ⟨b, hb⟩ := hd3
    rw [ha, hb] at hso ⊢
    have hab : a < b := Nat.lt_of_mul_lt_mul_left hso
    calc CHUNK * a + CHUNK = CHUNK * (a + 1) := by ring
      _ ≤ CHUNK * b := Nat.mul_le_mul_left _ hab
  have hlen := g7 s.fw.idx
  have hfits := G.fits
  have hst1 : sector_start env (s.fw.sector + 1)
      = sector_start env s.fw.sector + env.flash_func_sector_size s.fw.sector := rfl
  have hmono := sector_start_mono env (show s.fw.sector + 1 ≤ n from hsec)
  have hno : ¬ (s.fw.sector_ofs + (s.fw.slot s.fw.idx).pkt.len) % 4294967296
      > env.flash_func_sector_size s.fw.sector := by
    rw [Nat.mod_eq_of_lt (by omega)]
    omega
  rcases commit_prepare_cases env efuel s with ⟨_, h1⟩ | ⟨_, _, h1⟩ | ⟨_, _, c', _, h3, _⟩
  · rw [h1] at hp
    rcases hc with hc | hc <;> subst hc <;> cases hp
  · rw [h1] at hp
    rcases hc with hc | hc <;> subst hc <;> cases hp
  · rw [h3] at hp
    have e1 : s3 = (commit_erase env efuel (s.fw.slot s.fw.idx).pkt.len
        (env.flash_func_sector_size s.fw.sector)
        (if s.fw.ofs = 0 then flash_set_keep_unlocked env true s else s)).1 :=
      (congrArg Prod.fst hp).symm
    have hufw : (if s.fw.ofs = 0 then flash_set_keep_unlocked env true s else s).fw = s.fw := by
      split_ifs <;> rfl
    have hulog : flashLog (if s.fw.ofs = 0 then flash_set_keep_unlocked env true s
        else s).trace = flashLog s.trace := by
      split_ifs <;> rfl
    have := commit_erase_inside env n G efuel (s.fw.slot s.fw.idx).pkt.len
      (env.flash_func_sector_size s.fw.sector)
      (if s.fw.ofs = 0 then flash_set_keep_unlocked env true s else s)
      (by rw [hufw]; exact hsec) (by rw [hufw]; exact hno) (by rw [hufw]; exact he)
      (by rw [hulog]; exact hin)
    rw [← e1] at this
    exact ⟨this.1, this.2, hroom⟩

/-- The write call of line 324 stays inside the flash. -/
theorem InsideInv.write {env : Env W} {n : Nat} (G : Geometry env n)
    (hmul : SectorsChunkMultiples env n) {efuel : Nat} {s s3 : State W}
    (hs : InsideInv env n s) (hp : commit_prepare env efuel s = (s3, none)) :
    (after_write env s s3).fw.erased_to ≤ n ∧
    (∀ i, (after_write env s s3).fw.slot i = s.fw.slot i) ∧
    InsideFlash env n (flashLog (after_write env s s3).trace) := by
  obtain ⟨q1, q2, q3⟩ := hs.inside_prepare G hmul hp (Or.inl rfl)
  obtain ⟨_, hne, E, w, T, hs3, _⟩ := commit_prepare_erased env efuel s s3 none hp (Or.inl rfl)
  have hsec : s.fw.sector < n := by
    by_contra hge
    exact hne (G.absent _ (Nat.le_of_not_lt hge))
  have hofs3 : s3.fw.ofs = s.fw.ofs := by rw [hs3]
  have hreads3 : s3.fw.reads = s.fw.reads := by rw [hs3]
  obtain ⟨⟨g1, g2, g3, g4, g5, g6, g7⟩, _, _, _⟩ := hs
  obtain ⟨hpos, _⟩ := g3 hsec
  have hlen := g7 s.fw.idx
  have hst1 : sector_start env (s.fw.sector + 1)
      = sector_start env s.fw.sector + env.flash_func_sector_size s.fw.sector := rfl
  have hmono := sector_start_mono env (show s.fw.sector + 1 ≤ n from hsec)
  have hCH : CHUNK = 256 := rfl
  refine ⟨q1, fun i => ?_, ?_⟩
  · show FwUpdate.slot s3.fw i = _
    unfold FwUpdate.slot
    rw [hreads3]
  · show InsideFlash env n (flashLog (Event.write s3.fw.ofs (s.fw.slot s.fw.idx).pkt.len
      (commit_write env s s3).1 :: s3.trace))
    simp only [flashLog, InsideFlash]
    refine ⟨?_, q2⟩
    rw [hofs3, hpos]
    omega

theorem InsideInv.inside_invariant (env : Env W) (n : Nat) (G : Geometry env n)
    (hmul : SectorsChunkMultiples env n) (hdec : DecoderBounded env) :
    CommitInvariant env (InsideInv env n) where
  benign := by
    intro s s' hs hb
    refine ⟨(FlashInv.flash_invariant env n G (hmul.atLeast G) hdec).benign s s' hs.1 hb,
      fun i => ?_, ?_, ?_⟩
    · rw [hb.offset]
      exact hs.2.1 i
    · rw [hb.erased_to]
      exact hs.2.2.1
    · rw [hb.log]
      exact hs.2.2.2
  decode := by
    intro t idx s hs
    refine ⟨(FlashInv.flash_invariant env n G (hmul.atLeast G) hdec).decode t idx s hs.1,
      fun i => ?_, hs.2.2.1, hs.2.2.2⟩
    simp only [decode_response, slot_setSlot]
    split_ifs with h
    · exact hs.2.1 idx
    · exact hs.2.1 i
  stuck := by
    intro efuel s s3 hs hp
    obtain ⟨q1, q2, _⟩ := hs.inside_prepare G hmul hp (Or.inr rfl)
    obtain ⟨_, _, E, w, T, hs3, _⟩ :=
      commit_prepare_erased env efuel s s3 _ hp (Or.inr rfl)
    refine ⟨(FlashInv.flash_invariant env n G (hmul.atLeast G) hdec).stuck efuel s s3 hs.1 hp,
      fun i => ?_, q1, q2⟩
    have : s3.fw.slot i = s.fw.slot i := by
      unfold FwUpdate.slot
      rw [hs3]
    rw [this]
    exact hs.2.1 i
  failed := by
    intro efuel s s3 hs hp hw
    obtain ⟨w1, w2, w3⟩ := hs.write G hmul hp
    refine ⟨(FlashInv.flash_invariant env n G (hmul.atLeast G) hdec).failed efuel s s3 hs.1 hp
      hw, fun i => ?_, w1, w3⟩
    rw [w2]
    exact hs.2.1 i
  last := by
    intro efuel s s3 hs hp hw hl
    obtain ⟨w1, w2, w3⟩ := hs.write G hmul hp
    refine ⟨(FlashInv.flash_invariant env n G (hmul.atLeast G) hdec).last efuel s s3 hs.1 hp
      hw hl, fun i => ?_, w1, w3⟩
    have : (end_update (commit_position env (s.fw.slot s.fw.idx).pkt.len
        (env.flash_func_sector_size s.fw.sector) (after_write env s s3))).fw.slot i
        = (after_write env s s3).fw.slot i := rfl
    rw [this, w2]
    exact hs.2.1 i
  next := by
    intro efuel s s3 hs hp hw hl
    obtain ⟨w1, w2, w3⟩ := hs.write G hmul hp
    refine ⟨(FlashInv.flash_invariant env n G (hmul.atLeast G) hdec).next efuel s s3 hs.1 hp
      hw hl, fun i => ?_, w1, w3⟩
    have hx : ∀ j, (commit_position env (s.fw.slot s.fw.idx).pkt.len
        (env.flash_func_sector_size s.fw.sector) (after_write env s s3)).fw.slot j
        = s.fw.slot j := fun j => (show _ = (after_write env s s3).fw.slot j from rfl).trans (w2 j)
    generalize commit_position env (s.fw.slot s.fw.idx).pkt.len
        (env.flash_func_sector_size s.fw.sector) (after_write env s s3) = x at hx
    show CHUNK ∣ ((x.fw.setSlot x.fw.idx _).slot i).offset
    rw [slot_setSlot]
    split_ifs with h
    · show CHUNK ∣ ((x.fw.slot x.fw.idx).offset + env.P * CHUNK) % 4294967296
      have hM : CHUNK ∣ 4294967296 := ⟨16777216, by decide⟩
      rw [Nat.dvd_mod_iff hM, hx]
      exact Nat.dvd_add (hs.2.1 _) (Nat.dvd_mul_left _ _)
    · rw [hx]
      exact hs.2.1 i

theorem InsideInv.inside_start (env : Env W) (n : Nat) (G : Geometry env n) (s0 : State W)
    (t : CanardRxTransfer) (pkt : BeginFirmwareUpdateRequest) (h0 : s0.fw.node_id = 0)
    (hd : env.BeginFirmwareUpdateRequest_decode t = some pkt)
    (hl : pkt.path.length ≤ PATH_MAX) :
    InsideInv env n (handle_begin_firmware_update env t s0) := by
  refine ⟨FlashInv.flash_start env n G s0 t pkt h0 hd hl, ?_⟩
  unfold handle_begin_firmware_update
  rw [if_pos h0, hd]
  simp only [if_neg (Nat.not_lt.2 hl)]
  refine ⟨fun i => ?_, Nat.zero_le _, trivial⟩
  show CHUNK ∣ ((seed_reads env.P).getD i zeroSlot).offset
  by_cases h : i < env.P
  · rw [seed_reads_slot env.P i h]
    exact Nat.dvd_mul_left _ _
  · rw [List.getD_eq_default]
    · exact Nat.dvd_zero _
    · simp only [seed_reads, List.length_map, List.length_range]
      exact Nat.le_of_not_lt h

/-- Writes stay inside the flash where the sector index cannot wrap: on a flash
of at most 255 sectors whose sizes are positive multiples of `CHUNK` and whose
total size is at most `2^32 - CHUNK` (with a decoder that keeps payloads within
`CHUNK` bytes), `handle_file_read_response` never writes or erases outside the
existing sectors: in every state of an
update, and in whatever state a further call of the handler stops, every
erase of the update is of an existing sector and every `flash_write_buffer`
call covers only bytes below the total flash size. And in any state in which
the loop body finds `flash_func_sector_size(fw_update.sector) == 0` for the
chunk at `ofs`, that pass adds no write and no erase, leaves `ofs` unchanged,
flushes and relocks flash, sets `node_id` to 0 and leaves the loop. -/
theorem writes_stay_inside (env : Env W) (n : Nat) (G : Geometry env n)
    (hmul : SectorsChunkMultiples env n) (hdec : DecoderBounded env)
    (s : State W) (hr : Reachable env s) (efuel fuel : Nat) (t : CanardRxTransfer) :
    InsideFlash env n (flashLog s.trace) ∧
    InsideFlash env n (flashLog (handle_file_read_response env efuel fuel t s).1.trace) ∧
    (∀ x : State W, (x.fw.slot x.fw.idx).offset = x.fw.ofs →
      env.flash_func_sector_size x.fw.sector = 0 →
      (commit_chunk env efuel x).2 = Ctl.brk ∧
      (commit_chunk env efuel x).1.fw.ofs = x.fw.ofs ∧
      (commit_chunk env efuel x).1.fw.node_id = 0 ∧
      (commit_chunk env efuel x).1.trace
        = [Event.keep_unlocked false, Event.flush] ++
          (if x.fw.ofs = 0 then [Event.keep_unlocked true] else []) ++ x.trace) := by
  have hs : InsideInv env n s :=
    (InsideInv.inside_invariant env n G hmul hdec).reachable (InsideInv.inside_start env n G) s hr
  refine ⟨hs.2.2.2,
    ((InsideInv.inside_invariant env n G hmul hdec).handler efuel fuel t s hs).2.2.2,
    fun x ho hz => ?_⟩
  rcases commit_chunk_cases env efuel x with ⟨h0, _⟩ | ⟨_, _, h1⟩ | ⟨s3, hp, _⟩ | ⟨s3, hp, _⟩ |
    ⟨s3, hp, _⟩ | ⟨s3, hp, _⟩
  · exact absurd ho h0
  · rw [h1]
    split_ifs <;> exact ⟨rfl, rfl, rfl, rfl⟩
  all_goals
    exact absurd hz (commit_prepare_erased env efuel x s3 _ hp (by simp)).2.1

/-! ## Long runs of the simulated board -/

theorem sim_erase_to (P : Nat) (sizes : Nat → Nat) (ef k : Nat) (s : State Nat) :
    ∃ E T, erase_to (simEnv P sizes) (ef + 1) k s
        = ({ s with fw := { s.fw with erased_to := E }, trace := T ++ s.trace }, true) ∧
      ∀ e ∈ T, e = Event.erase k := by
  unfold erase_to
  split_ifs
  · exact ⟨s.fw.erased_to, [], rfl, by simp⟩
  · exact ⟨(k + 1) % 65536, [Event.erase k],
      by simp [erase_loop, flash_func_erase_sector, simEnv], by simp⟩

theorem sim_commit_erase (P : Nat) (sizes : Nat → Nat) (ef len size : Nat) (s : State Nat) :
    ∃ E T, commit_erase (simEnv P sizes) (ef + 1) len size s
        = ({ s with fw := { s.fw with erased_to := E }, trace := T ++ s.trace }, true) ∧
      ∀ e ∈ T, e = Event.erase s.fw.sector ∨
        (size < (s.fw.sector_ofs + len) % 4294967296 ∧ e = Event.erase (s.fw.sector + 1)) := by
  have h1 : ∃ E T, (if s.fw.sector_ofs = 0 then erase_to (simEnv P sizes) (ef + 1) s.fw.sector s
        else (s, true))
        = ({ s with fw := { s.fw with erased_to := E }, trace := T ++ s.trace }, true) ∧
      ∀ e ∈ T, e = Event.erase s.fw.sector := by
    split_ifs
    · exact sim_erase_to P sizes ef s.fw.sector s
    · exact ⟨s.fw.erased_to, [], rfl, by simp⟩
  obtain ⟨E1, T1, h1e, h1T⟩ := h1
  unfold commit_erase
  simp only [h1e]
  by_cases hc : (s.fw.sector_ofs + len) % 4294967296 > size
  · obtain ⟨E2, T2, h2e, h2T⟩ := sim_erase_to P sizes ef (s.fw.sector + 1)
      { s with fw := { s.fw with erased_to := E1 }, trace := T1 ++ s.trace }
    refine ⟨E2, T2 ++ T1, ?_, ?_⟩
    · simp only [Bool.true_eq_false, if_false, if_pos hc, h2e, List.append_assoc]
    · intro e he
      rcases List.mem_append.1 he with h | h
      · exact Or.inr ⟨hc, h2T e h⟩
      · exact Or.inl (h1T e h)
  · refine ⟨E1, T1, ?_, fun e he => Or.inl (h1T e he)⟩
    simp only [Bool.true_eq_false, if_false, if_neg hc]

theorem sim_commit_prepare (P : Nat) (sizes : Nat → Nat) (ef : Nat) (s : State Nat)
    (ho : (s.fw.slot s.fw.idx).offset = s.fw.ofs) (hz : sizes s.fw.sector ≠ 0) :
    ∃ E T, commit_prepare (simEnv P sizes) (ef + 1) s
        = ({ s with fw := { s.fw with erased_to := E }, trace := T ++ s.trace }, none) ∧
      ∀ e ∈ T, e = Event.keep_unlocked true ∨ e = Event.erase s.fw.sector ∨
        (sizes s.fw.sector < (s.fw.sector_ofs + (s.fw.slot s.fw.idx).pkt.len) % 4294967296 ∧
          e = Event.erase (s.fw.sector + 1)) := by
  have h1 : ∃ T1, (if s.fw.ofs = 0 then flash_set_keep_unlocked (simEnv P sizes) true s else s)
      = { s with trace := T1 ++ s.trace } ∧ ∀ e ∈ T1, e = Event.keep_unlocked true := by
    split_ifs
    · exact ⟨[Event.keep_unlocked true], rfl, by simp⟩
    · exact ⟨[], rfl, by simp⟩
  obtain ⟨T1, h1e, h1T⟩ := h1
  obtain ⟨E, T, he, hT⟩ := sim_commit_erase P sizes ef (s.fw.slot s.fw.idx).pkt.len
    (sizes s.fw.sector) { s with trace := T1 ++ s.trace }
  refine ⟨E, T ++ T1, ?_, ?_⟩
  · unfold commit_prepare
    simp only [ne_eq, ho, not_true_eq_false, if_false, h1e]
    have hz' : (simEnv P sizes).flash_func_sector_size s.fw.sector ≠ 0 := hz
    rw [if_neg hz']
    have he' : commit_erase (simEnv P sizes) (ef + 1) (s.fw.slot s.fw.idx).pkt.len
        ((simEnv P sizes).flash_func_sector_size s.fw.sector) { s with trace := T1 ++ s.trace }
        = _ := he
    rw [he']
    simp only [Bool.true_eq_false, if_false, List.append_assoc]
  · intro e h
    rcases List.mem_append.1 h with h | h
    · exact Or.inr (hT e h)
    · exact Or.inl (h1T e h)
theorem flashLog_unlock_erases (T tr : List Event)
    (hT : ∀ e ∈ T, e = Event.keep_unlocked true ∨ ∃ k, e = Event.erase k) :
    ∃ T', flashLog (T ++ tr) = T' ++ flashLog tr ∧
      ∀ e ∈ T', e ∈ T ∧ ∃ k, e = Event.erase k := by
  induction T with
  | nil => exact ⟨[], rfl, by simp⟩
  | cons e T ih =>
    obtain ⟨T', h1, h2⟩ := ih (fun e he => hT e (List.mem_cons_of_mem _ he))
    rcases hT e (List.mem_cons_self _ _) with he | ⟨k, he⟩
    · subst he
      exact ⟨T', h1, fun e he => ⟨List.mem_cons_of_mem _ (h2 e he).1, (h2 e he).2⟩⟩
    · subst he
      refine ⟨Event.erase k :: T', ?_, ?_⟩
      · show Event.erase k :: flashLog (T ++ tr) = _
        rw [h1]
        rfl
      · intro e he
        rcases List.mem_cons.1 he with h | h
        · subst h
          exact ⟨List.mem_cons_self _ _, k, rfl⟩
        · exact ⟨List.mem_cons_of_mem _ (h2 e h).1, (h2 e h).2⟩

theorem sim_processTx_loop_world (P : Nat) (sizes : Nat → Nat) (q : List CanardCANFrame)
    (s : State Nat) : (processTx_loop (simEnv P sizes) q s).world = s.world := by
  induction q generalizing s with
  | nil => rfl
  | cons f q ih =>
    unfold processTx_loop
    simp only [simEnv, if_true]
    exact ih _

theorem send_fw_read_world (env : Env W) (idx : Nat) (s : State W) :
    (send_fw_read env idx s).1.world = s.world := by
  unfold send_fw_read
  simp only
  split_ifs <;> rfl

/-- One full chunk served to the single slot pipeline of the simulated board
while the current sector exists: the handler returns, the position moves on by
256 bytes and the log gains the erases of the pass and one successful write. -/
theorem lane_step (sizes : Nat → Nat) (n : Nat) (s : State Nat) (h : Lane n s)
    (hz : sizes s.fw.sector ≠ 0) :
    ∃ T, (handle_file_read_response (simEnv 1 sizes) 4 4 (readResponse (n % 32) fullChunk) s).2
        = true ∧
      Lane (n + 1)
        (handle_file_read_response (simEnv 1 sizes) 4 4 (readResponse (n % 32) fullChunk) s).1 ∧
      (handle_file_read_response (simEnv 1 sizes) 4 4 (readResponse (n % 32) fullChunk) s).1.fw.ofs
        = (s.fw.ofs + 256) % 4294967296 ∧
      (handle_file_read_response (simEnv 1 sizes) 4 4
          (readResponse (n % 32) fullChunk) s).1.fw.sector
        = (if sizes s.fw.sector ≤ (s.fw.sector_ofs + 256) % 4294967296
            then (s.fw.sector + 1) % 256 else s.fw.sector) ∧
      (handle_file_read_response (simEnv 1 sizes) 4 4
          (readResponse (n % 32) fullChunk) s).1.fw.sector_ofs
        = (if sizes s.fw.sector ≤ (s.fw.sector_ofs + 256) % 4294967296
            then (s.fw.sector_ofs + 256) % 4294967296 - sizes s.fw.sector
            else (s.fw.sector_ofs + 256) % 4294967296) ∧
      flashLog (handle_file_read_response (simEnv 1 sizes) 4 4
          (readResponse (n % 32) fullChunk) s).1.trace
        = Event.write s.fw.ofs 256 true :: (T ++ flashLog s.trace) ∧
      ∀ e ∈ T, e = Event.erase s.fw.sector ∨
        (sizes s.fw.sector < (s.fw.sector_ofs + 256) % 4294967296 ∧
          e = Event.erase (s.fw.sector + 1)) := by
  obtain ⟨hnode, hlen, hidx, htx, hoff, hnr, htid, hworld⟩ := h
  -- the state that enters the commit loop
  have hfind : find_slot (simEnv 1 sizes).P s.fw (readResponse (n % 32) fullChunk).transfer_id
      = some 0 := by
    show (List.range 1).find? _ = some 0
    simp [List.range_succ, List.find?, htx, readResponse]
  have hsrc : ¬ (readResponse (n % 32) fullChunk).source_node_id ≠ s.fw.node_id := by
    rw [hnode]; simp [readResponse]
  obtain ⟨r, hr⟩ : ∃ r, s.fw.reads = [r] := by
    match hs : s.fw.reads, hlen with
    | [r], _ => exact ⟨r, rfl⟩
  have hslot0 : s.fw.slot 0 = r := by simp [FwUpdate.slot, hr]
  rw [hslot0] at htx hoff hnr
  have hfl : fullChunk.length = 256 := List.length_replicate 256 0
  have hpl : (readResponse (n % 32) fullChunk).payload.length = 256 := hfl
  have hdecode : (decode_response (simEnv 1 sizes) (readResponse (n % 32) fullChunk) 0 s).2
      = false := by
    simp [decode_response, simEnv, hpl, CHUNK]
  have hH : handle_file_read_response (simEnv 1 sizes) 4 4 (readResponse (n % 32) fullChunk) s
      = commit_loop (simEnv 1 sizes) 4 4 (mark_reply (simEnv 1 sizes) 0
          (decode_response (simEnv 1 sizes) (readResponse (n % 32) fullChunk) 0 s).1) := by
    unfold handle_file_read_response
    rw [if_neg hsrc, hfind]
    simp only [hdecode, Bool.false_eq_true, if_false]
  obtain ⟨r1, hr1⟩ : ∃ r1 : ReadSlot, r1 = { r with pkt := ⟨0, 256, fullChunk⟩, have_reply := true } :=
    ⟨_, rfl⟩
  have hx : mark_reply (simEnv 1 sizes) 0
      (decode_response (simEnv 1 sizes) (readResponse (n % 32) fullChunk) 0 s).1
      = { s with fw := { s.fw with
            reads := [r1]
            rtt_ms := rtt_filter s.fw.rtt_ms (rtt_sample 0 r.sent_ms) } } := by
    rw [hr1]
    simp [mark_reply, decode_response, FwUpdate.setSlot, FwUpdate.slot, hr, simEnv, hpl, CHUNK]
    rfl
  rw [hH, hx]
  generalize hxe : ({ s with fw := { s.fw with
            reads := [r1]
            rtt_ms := rtt_filter s.fw.rtt_ms (rtt_sample 0 r.sent_ms) } } : State Nat) = x
  have x_idx : x.fw.idx = 0 := by rw [← hxe]; exact hidx
  have x_slot : x.fw.slot 0 = r1 := by rw [← hxe]; rfl
  have x_ofs : x.fw.ofs = s.fw.ofs := by rw [← hxe]
  have x_sector : x.fw.sector = s.fw.sector := by rw [← hxe]
  have x_so : x.fw.sector_ofs = s.fw.sector_ofs := by rw [← hxe]
  have x_node : x.fw.node_id = 10 := by rw [← hxe]; exact hnode
  have x_tid : x.fw.transfer_id = (n + 1) % 32 := by rw [← hxe]; exact htid
  have x_len : x.fw.reads.length = 1 := by rw [← hxe]; rfl
  have x_world : x.world = 0 := by rw [← hxe]; exact hworld
  have x_trace : x.trace = s.trace := by rw [← hxe]
  have r1_off : r1.offset = s.fw.ofs := by rw [hr1]; exact hoff
  have r1_len : r1.pkt.len = 256 := by rw [hr1]
  have r1_reply : r1.have_reply = true := by rw [hr1]
  clear hxe hx hH
  obtain ⟨E, T, hp, hT⟩ := sim_commit_prepare 1 sizes 3 x
    (by rw [x_idx, x_slot, x_ofs]; exact r1_off) (by rw [x_sector]; exact hz)
  generalize hs3 : ({ x with fw := { x.fw with erased_to := E }, trace := T ++ x.trace }
    : State Nat) = s3 at hp
  have s3_world : s3.world = 0 := by rw [← hs3]; exact x_world
  have s3_ofs : s3.fw.ofs = s.fw.ofs := by rw [← hs3]; exact x_ofs
  have s3_sector : s3.fw.sector = s.fw.sector := by rw [← hs3]; exact x_sector
  have s3_so : s3.fw.sector_ofs = s.fw.sector_ofs := by rw [← hs3]; exact x_so
  have s3_idx : s3.fw.idx = 0 := by rw [← hs3]; exact x_idx
  have s3_node : s3.fw.node_id = 10 := by rw [← hs3]; exact x_node
  have s3_tid : s3.fw.transfer_id = (n + 1) % 32 := by rw [← hs3]; exact x_tid
  have s3_reads : s3.fw.reads = x.fw.reads := by rw [← hs3]
  have s3_trace : s3.trace = T ++ s.trace := by rw [← hs3, ← x_trace]
  have hw : commit_write (simEnv 1 sizes) x s3 = (true, 0) := by
    show (decide (s3.world = 0), s3.world - 1) = _
    rw [s3_world]
    rfl
  have hchunk : commit_chunk (simEnv 1 sizes) 4 x
      = (commit_next_read (simEnv 1 sizes) (commit_position (simEnv 1 sizes) 256
          (sizes s.fw.sector) (after_write (simEnv 1 sizes) x s3)), Ctl.next) := by
    unfold commit_chunk
    simp only [hp, hw, Bool.true_eq_false, if_false, commit_advance, x_idx, x_slot, r1_len,
      x_sector, CHUNK, Nat.lt_irrefl]
    rfl
  generalize hpe : commit_position (simEnv 1 sizes) 256 (sizes s.fw.sector)
    (after_write (simEnv 1 sizes) x s3) = p at hchunk
  have p_ofs : p.fw.ofs = (s.fw.ofs + 256) % 4294967296 := by
    rw [← hpe, ← s3_ofs]; rfl
  have p_sector : p.fw.sector = (if sizes s.fw.sector ≤ (s.fw.sector_ofs + 256) % 4294967296
      then (s.fw.sector + 1) % 256 else s.fw.sector) := by
    rw [← hpe, ← s3_sector, ← s3_so]
    simp [commit_position, after_write, simEnv]
  have p_so : p.fw.sector_ofs = (if sizes s.fw.sector ≤ (s.fw.sector_ofs + 256) % 4294967296
      then (s.fw.sector_ofs + 256) % 4294967296 - sizes s.fw.sector
      else (s.fw.sector_ofs + 256) % 4294967296) := by
    rw [← hpe, ← s3_sector, ← s3_so]
    simp [commit_position, after_write, simEnv]
  have p_idx : p.fw.idx = 0 := by rw [← hpe]; exact s3_idx
  have p_node : p.fw.node_id = 10 := by rw [← hpe]; exact s3_node
  have p_tid : p.fw.transfer_id = (n + 1) % 32 := by rw [← hpe]; exact s3_tid
  have p_reads : p.fw.reads = [r1] := by
    rw [← hpe]
    show s3.fw.reads = _
    rw [s3_reads]
    have := x_slot
    match hxr : x.fw.reads, x_len with
    | [a], _ =>
      simp only [FwUpdate.slot, hxr] at this
      rw [← this]
      rfl
  have p_world : p.world = 0 := by rw [← hpe]; show (commit_write _ x s3).2 = 0; rw [hw]
  have p_trace : p.trace = Event.write s.fw.ofs 256 true :: (T ++ s.trace) := by
    rw [← hpe]
    show Event.write s3.fw.ofs (x.fw.slot x.fw.idx).pkt.len (commit_write _ x s3).1 :: s3.trace = _
    rw [hw, s3_ofs, x_idx, x_slot, r1_len, s3_trace]
  clear hpe
  obtain ⟨sent, hq⟩ := send_fw_read_fw (simEnv 1 sizes) (commit_clear_slot (simEnv 1 sizes) p).fw.idx
    (commit_clear_slot (simEnv 1 sizes) p)
  have hy_fw : (commit_next_read (simEnv 1 sizes) p).fw
      = { p.fw with
          reads := [{ r1 with tx_id := (n + 1) % 32, have_reply := false, sent_ms := sent,
                              offset := (r1.offset + 256) % 4294967296 }]
          transfer_id := incrementTransferID ((n + 1) % 32)
          idx := 0 } := by
    show ({ (processTx _ (send_fw_read _ _ _).1).fw with idx := _ } : FwUpdate) = _
    rw [processTx_fw, hq]
    simp [commit_clear_slot, FwUpdate.setSlot, FwUpdate.slot, p_reads, p_idx, p_tid, simEnv,
      CHUNK]
  have hy_world : (commit_next_read (simEnv 1 sizes) p).world = 0 := by
    show (processTx_loop _ _ _).world = 0
    rw [sim_processTx_loop_world, send_fw_read_world]
    exact p_world
  have hy_log : flashLog (commit_next_read (simEnv 1 sizes) p).trace = flashLog p.trace :=
    (commit_next_read_benign (simEnv 1 sizes) p).log
  generalize commit_next_read (simEnv 1 sizes) p = y at hchunk hy_fw hy_world hy_log
  have hloop : commit_loop (simEnv 1 sizes) 4 4 x = (set_progress y, true) := by
    show commit_loop (simEnv 1 sizes) 4 (3 + 1) x = _
    have hxr : (x.fw.slot x.fw.idx).have_reply = true := by rw [x_idx, x_slot]; exact r1_reply
    have hyr : (y.fw.slot y.fw.idx).have_reply = false := by rw [hy_fw]; rfl
    simp only [commit_loop, hxr, if_true, hchunk, hyr, Bool.false_eq_true, if_false]
  rw [hloop]
  obtain ⟨T', hT1, hT2⟩ := flashLog_unlock_erases T s.trace (fun e he => by
    rcases hT e he with h | h | ⟨_, h⟩
    · exact Or.inl h
    · exact Or.inr ⟨_, h⟩
    · exact Or.inr ⟨_, h⟩)
  refine ⟨T', rfl, ⟨?_, ?_, ?_, ?_, ?_, ?_, ?_, ?_⟩, ?_, ?_, ?_, ?_, ?_⟩
  · show y.fw.node_id = 10
    rw [hy_fw]; exact p_node
  · show y.fw.reads.length = 1
    rw [hy_fw]; rfl
  · show y.fw.idx = 0
    rw [hy_fw]
  · show (y.fw.slot 0).tx_id = (n + 1) % 32
    rw [hy_fw]; rfl
  · show (y.fw.slot 0).offset = y.fw.ofs
    rw [hy_fw]
    show (r1.offset + 256) % 4294967296 = p.fw.ofs
    rw [p_ofs, r1_off]
  · show (y.fw.slot 0).have_reply = false
    rw [hy_fw]; rfl
  · show y.fw.transfer_id = (n + 1 + 1) % 32
    rw [hy_fw]
    show ((n + 1) % 32 + 1) % 32 = _
    omega
  · exact hy_world
  · show y.fw.ofs = _
    rw [hy_fw]; exact p_ofs
  · show y.fw.sector = _
    rw [hy_fw]; exact p_sector
  · show y.fw.sector_ofs = _
    rw [hy_fw]; exact p_so
  · show flashLog y.trace = _
    rw [hy_log, p_trace]
    show Event.write s.fw.ofs 256 true :: flashLog (T ++ s.trace) = _
    rw [hT1]
  · intro e he
    obtain ⟨hm, k, hk⟩ := hT2 e he
    rcases hT e hm with h | h | h
    · rw [h] at hk; cases hk
    · rw [x_sector] at h; exact Or.inl h
    · rw [x_sector, x_so, x_idx, x_slot, r1_len] at h; exact Or.inr h

theorem servedState_succ (sizes : Nat → Nat) (n : Nat) :
    servedState sizes (n + 1)
      = (handle_file_read_response (simEnv 1 sizes) 4 4 (readResponse (n % 32) fullChunk)
          (servedState sizes n)).1 := by
  unfold servedState simRun servedInOrder
  rw [List.range_succ, List.map_append, ← List.append_assoc, List.foldl_append]
  rfl

theorem servedState_zero (sizes : Nat → Nat) :
    Reachable (simEnv 1 sizes) (servedState sizes 0) ∧ Lane 0 (servedState sizes 0) ∧
    (servedState sizes 0).fw.ofs = 0 ∧ (servedState sizes 0).fw.sector = 0 ∧
    (servedState sizes 0).fw.sector_ofs = 0 ∧ flashLog (servedState sizes 0).trace = [] :=
  ⟨Reachable.reads _ (startedState_reachable 1 sizes)
      (by show (10 : Nat) ≠ 0; decide),
    ⟨rfl, rfl, rfl, rfl, rfl, rfl, rfl, rfl⟩, rfl, rfl, rfl, rfl⟩

/-- The run on the one sector flash: the position is `256 * n` as a `uint32_t`. -/
theorem servedState_sizesOne (n : Nat) :
    Reachable (simEnv 1 sizesOne) (servedState sizesOne n) ∧ Lane n (servedState sizesOne n) ∧
    (servedState sizesOne n).fw.ofs = (256 * n) % 4294967296 ∧
    (servedState sizesOne n).fw.sector = 0 ∧
    (servedState sizesOne n).fw.sector_ofs = (256 * n) % 4294967296 := by
  induction n with
  | zero =>
    obtain ⟨h1, h2, h3, h4, h5, _⟩ := servedState_zero sizesOne
    exact ⟨h1, h2, h3, h4, h5⟩
  | succ n ih =>
    obtain ⟨hr, hl, ho, hs, hso⟩ := ih
    have hz : sizesOne (servedState sizesOne n).fw.sector ≠ 0 := by rw [hs]; decide
    obtain ⟨T, h1, h2, h3, h4, h5, _, _⟩ := lane_step sizesOne n _ hl hz
    rw [servedState_succ]
    have hsz : sizesOne (servedState sizesOne n).fw.sector = 4294967295 := by rw [hs]; rfl
    have hno : ¬ 4294967295 ≤ ((256 * n) % 4294967296 + 256) % 4294967296 := by omega
    refine ⟨Reachable.response _ 4 4 _ hr h1, h2, ?_, ?_, ?_⟩
    · rw [h3, ho]; omega
    · rw [h4, hsz, hso, if_neg hno, hs]
    · rw [h5, hsz, hso, if_neg hno]; omega

/-- The run on a flash of at least 256 sectors of 256 bytes: the position is
`256 * n`, the sector index is `n mod 256`, no sector above 255 is ever erased,
and chunk `n` is written at `256 * n`. -/
theorem servedState_uniformFlash (N : Nat) (hN : 256 ≤ N) (n : Nat) :
    Reachable (simEnv 1 (uniformFlash N)) (servedState (uniformFlash N) n) ∧
    Lane n (servedState (uniformFlash N) n) ∧
    (servedState (uniformFlash N) n).fw.ofs = (256 * n) % 4294967296 ∧
    (servedState (uniformFlash N) n).fw.sector = n % 256 ∧
    (servedState (uniformFlash N) n).fw.sector_ofs = 0 ∧
    (∀ k, Event.erase k ∈ flashLog (servedState (uniformFlash N) n).trace → k < 256) ∧
    (flashLog (servedState (uniformFlash N) (n + 1)).trace).head?
      = some (Event.write ((256 * n) % 4294967296) 256 true) := by
  have hstep : ∀ n, (Reachable (simEnv 1 (uniformFlash N)) (servedState (uniformFlash N) n) ∧
      Lane n (servedState (uniformFlash N) n) ∧
      (servedState (uniformFlash N) n).fw.ofs = (256 * n) % 4294967296 ∧
      (servedState (uniformFlash N) n).fw.sector = n % 256 ∧
      (servedState (uniformFlash N) n).fw.sector_ofs = 0 ∧
      (∀ k, Event.erase k ∈ flashLog (servedState (uniformFlash N) n).trace → k < 256)) →
      (Reachable (simEnv 1 (uniformFlash N)) (servedState (uniformFlash N) (n + 1)) ∧
      Lane (n + 1) (servedState (uniformFlash N) (n + 1)) ∧
      (servedState (uniformFlash N) (n + 1)).fw.ofs = (256 * (n + 1)) % 4294967296 ∧
      (servedState (uniformFlash N) (n + 1)).fw.sector = (n + 1) % 256 ∧
      (servedState (uniformFlash N) (n + 1)).fw.sector_ofs = 0 ∧
      (∀ k, Event.erase k ∈ flashLog (servedState (uniformFlash N) (n + 1)).trace → k < 256)) ∧
      (flashLog (servedState (uniformFlash N) (n + 1)).trace).head?
        = some (Event.write ((256 * n) % 4294967296) 256 true) := by
    intro n ⟨hr, hl, ho, hs, hso, he⟩
    have hsz : uniformFlash N (servedState (uniformFlash N) n).fw.sector = 256 := by
      rw [hs]
      unfold uniformFlash
      rw [if_pos (by omega)]
    have hz : uniformFlash N (servedState (uniformFlash N) n).fw.sector ≠ 0 := by
      rw [hsz]; decide
    obtain ⟨T, h1, h2, h3, h4, h5, h6, h7⟩ := lane_step (uniformFlash N) n _ hl hz
    rw [servedState_succ]
    rw [hsz, hso] at h4 h5 h7
    refine ⟨⟨Reachable.response _ 4 4 _ hr h1, h2, ?_, ?_, ?_, ?_⟩, ?_⟩
    · rw [h3, ho]; omega
    · rw [h4, hs]
      simp only [Nat.zero_add, Nat.reduceMod, Nat.le_refl, if_true]
      omega
    · rw [h5]
      simp
    · intro k hk
      rw [h6] at hk
      rcases List.mem_cons.1 hk with h | h
      · cases h
      · rcases List.mem_append.1 h with h | h
        · rcases h7 _ h with h | ⟨h, _⟩
          · cases h
            rw [hs]
            exact Nat.mod_lt _ (by decide)
          · simp at h
        · exact he k h
    · rw [h6, ho]
      rfl
  have hall : ∀ n, Reachable (simEnv 1 (uniformFlash N)) (servedState (uniformFlash N) n) ∧
      Lane n (servedState (uniformFlash N) n) ∧
      (servedState (uniformFlash N) n).fw.ofs = (256 * n) % 4294967296 ∧
      (servedState (uniformFlash N) n).fw.sector = n % 256 ∧
      (servedState (uniformFlash N) n).fw.sector_ofs = 0 ∧
      (∀ k, Event.erase k ∈ flashLog (servedState (uniformFlash N) n).trace → k < 256) := by
    intro n
    induction n with
    | zero =>
      obtain ⟨h1, h2, h3, h4, h5, h6⟩ := servedState_zero (uniformFlash N)
      refine ⟨h1, h2, h3, h4, h5, fun k hk => ?_⟩
      rw [h6] at hk
      cases hk
    | succ n ih => exact (hstep n ih).1
  obtain ⟨a, b, c, d, e, f⟩ := hall n
  exact ⟨a, b, c, d, e, f, (hstep n (hall n)).2⟩

theorem sector_start_uniformFlash (N k : Nat) (h : k ≤ N) :
    sector_start (simEnv 1 (uniformFlash N)) k = 256 * k := by
  induction k with
  | zero => rfl
  | succ k ih =>
    show sector_start (simEnv 1 (uniformFlash N)) k + uniformFlash N k = _
    rw [ih (by omega)]
    unfold uniformFlash
    rw [if_pos (by omega)]
    omega

theorem not_erasedBeforeWrite_of_head (env : Env W) (L : List Event) (a l k : Nat)
    (hh : L.head? = some (Event.write a l true)) (hint : Intersects env k a l)
    (hne : Event.erase k ∉ L) : ¬ ErasedBeforeWrite env L := by
  obtain ⟨tr, hl⟩ := List.head?_eq_some_iff.1 hh
  subst hl
  exact fun h => hne (List.mem_cons_of_mem _ (h.1 k hint))

theorem not_insideFlash_of_head (env : Env W) (n : Nat) (L : List Event)
    (a l : Nat) (ok : Bool) (hh : L.head? = some (Event.write a l ok))
    (hgt : sector_start env n < a + 4 * ((l + 3) / 4)) : ¬ InsideFlash env n L := by
  obtain ⟨tr, hl⟩ := List.head?_eq_some_iff.1 hh
  subst hl
  exact fun h => absurd h.1 (Nat.not_le.2 hgt)

/-- Counterexample to C1: on a flash of one sector of `2^32 - 1` bytes, after
16777215 full chunks served in order `ofs` is 4294967040; the next full chunk
is written there and `ofs` wraps to 0, so `ofs` has decreased. -/
theorem ofs_wraps_to_zero :
    Reachable (simEnv 1 sizesOne) (servedState sizesOne 16777215) ∧
    (servedState sizesOne 16777215).fw.ofs = 4294967040 ∧
    (handle_file_read_response (simEnv 1 sizesOne) 4 4 (readResponse 31 fullChunk)
      (servedState sizesOne 16777215)).1.fw.ofs = 0 := by
  obtain ⟨h1, _, h3, _, _⟩ := servedState_sizesOne 16777215
  have k3 := (servedState_sizesOne (16777215 + 1)).2.2.1
  rw [servedState_succ] at k3
  simp only [Nat.reduceMod, Nat.reduceAdd, Nat.reduceMul] at h3 k3
  exact ⟨h1, h3, k3⟩

/-- C2 at the failing input: on a flash of 257 sectors of 256 bytes, after 257
full chunks served in order the last successful write is at offset 65536,
inside sector 256, and sector 256 was never erased in the update: the
`uint8_t` sector index had wrapped to 0, where `erase_to` had nothing to do. -/
theorem sector_256_written_unerased :
    Reachable (simEnv 1 (uniformFlash 257)) (servedState (uniformFlash 257) 257) ∧
    (servedState (uniformFlash 257) 256).fw.sector = 0 ∧
    (flashLog (servedState (uniformFlash 257) 257).trace).head?
      = some (Event.write 65536 256 true) ∧
    Intersects (simEnv 1 (uniformFlash 257)) 256 65536 256 ∧
    Event.erase 256 ∉ flashLog (servedState (uniformFlash 257) 257).trace ∧
    ¬ ErasedBeforeWrite (simEnv 1 (uniformFlash 257))
        (flashLog (servedState (uniformFlash 257) 257).trace) := by
  obtain ⟨_, _, _, hs, _, _, hh⟩ := servedState_uniformFlash 257 (by decide) 256
  obtain ⟨hr, _, _, _, _, he, _⟩ := servedState_uniformFlash 257 (by decide) 257
  have hne : Event.erase 256 ∉ flashLog (servedState (uniformFlash 257) 257).trace :=
    fun h => absurd (he 256 h) (by decide)
  have hint : Intersects (simEnv 1 (uniformFlash 257)) 256 65536 256 :=
    ⟨65536, by decide, by decide,
      by rw [sector_start_uniformFlash 257 256 (by decide)],
      by rw [sector_start_uniformFlash 257 256 (by decide)]; decide⟩
  exact ⟨hr, hs, hh, hint, hne, not_erasedBeforeWrite_of_head _ _ _ _ _ hh hint hne⟩

/-- C4 at the failing input: on a flash of 256 sectors of 256 bytes (65536
bytes in all), after 256 full chunks `ofs` is 65536, the end of the flash, but
the `uint8_t` sector index is 0 again, so the end is not seen: chunk 257 is
written at offset 65536, outside the flash. -/
theorem write_past_end_of_flash :
    Reachable (simEnv 1 (uniformFlash 256)) (servedState (uniformFlash 256) 257) ∧
    sector_start (simEnv 1 (uniformFlash 256)) 256 = 65536 ∧
    uniformFlash 256 256 = 0 ∧
    (servedState (uniformFlash 256) 256).fw.ofs = 65536 ∧
    (servedState (uniformFlash 256) 256).fw.sector = 0 ∧
    (flashLog (servedState (uniformFlash 256) 257).trace).head?
      = some (Event.write 65536 256 true) ∧
    ¬ InsideFlash (simEnv 1 (uniformFlash 256)) 256
        (flashLog (servedState (uniformFlash 256) 257).trace) := by
  obtain ⟨_, _, ho, hs, _, _, hh⟩ := servedState_uniformFlash 256 (by decide) 256
  obtain ⟨hr, _⟩ := servedState_uniformFlash 256 (by decide) 257
  have hst := sector_start_uniformFlash 256 256 (by decide)
  exact ⟨hr, hst, by decide, ho, hs, hh,
    not_insideFlash_of_head _ _ _ _ _ _ hh (by rw [hst]; decide)⟩

/-! ## The reply to a BeginFirmwareUpdate request (C11) -/

/-- Counterexample to C11: an idle node that receives a BeginFirmwareUpdate
request with an empty payload (the decoder fails) sends nothing and stays as it
was. -/
theorem begin_update_malformed_unanswered :
    handle_begin_firmware_update (simEnv 1 sizes2k) emptyRequest (idleState 1 0)
      = idleState 1 0 ∧
    (handle_begin_firmware_update (simEnv 1 sizes2k) emptyRequest (idleState 1 0)).trace = [] ∧
    (handle_begin_firmware_update (simEnv 1 sizes2k) emptyRequest (idleState 1 0)).tx_queue
      = [] :=
  ⟨rfl, rfl, rfl⟩

/-- C11, amended: `handle_begin_firmware_update` hands a BeginFirmwareUpdate
response with `error = OK`, addressed to the source node of the request and
with its transfer id and priority, to `canardRequestOrRespond` when an update
is already in progress (whatever the payload), and when no update is in
progress and the request decodes with a path that fits `fw_update.path`. When
no update is in progress and the request does not decode, or its path is too
long, the handler returns at once: nothing is sent and the state is unchanged. -/
theorem begin_update_response (env : Env W) (t : CanardRxTransfer) (s : State W) :
    (begin_response env t).dest = t.source_node_id ∧
    (begin_response env t).payload
      = TxPayload.begin_firmware_update_response
          env.proto.BEGINFIRMWAREUPDATE_RESPONSE_ERROR_OK ∧
    (s.fw.node_id ≠ 0 →
      (handle_begin_firmware_update env t s).trace
        = Event.tx (begin_response env t)
            (env.enqueueTxFrames s.world s.tx_queue (begin_response env t)).1 :: s.trace) ∧
    (∀ pkt, s.fw.node_id = 0 → env.BeginFirmwareUpdateRequest_decode t = some pkt →
      pkt.path.length ≤ PATH_MAX →
      (handle_begin_firmware_update env t s).trace
        = Event.tx (begin_response env t)
            (env.enqueueTxFrames s.world s.tx_queue (begin_response env t)).1 ::
          Event.begin_update :: s.trace) ∧
    (s.fw.node_id = 0 → env.BeginFirmwareUpdateRequest_decode t = none →
      handle_begin_firmware_update env t s = s) ∧
    (∀ pkt, s.fw.node_id = 0 → env.BeginFirmwareUpdateRequest_decode t = some pkt →
      PATH_MAX < pkt.path.length → handle_begin_firmware_update env t s = s) := by
  refine ⟨rfl, rfl, fun h => ?_, fun pkt h0 hd hl => ?_, fun h0 hd => ?_, fun pkt h0 hd hl => ?_⟩
  · unfold handle_begin_firmware_update
    rw [if_neg h]
    rfl
  · unfold handle_begin_firmware_update
    rw [if_pos h0, hd]
    simp only [if_neg (Nat.not_lt.2 hl)]
    rfl
  · unfold handle_begin_firmware_update
    rw [if_pos h0, hd]
  · unfold handle_begin_firmware_update
    rw [if_pos h0, hd]
    simp only [if_pos hl]

set_option maxRecDepth 100000 in
/-- Witness for C11: a second request while node 10 is being served is
answered. -/
theorem begin_update_response_witness :
    (startedState 1 sizes2k).fw.node_id ≠ 0 ∧
    (handle_begin_firmware_update (simEnv 1 sizes2k) beginRequest (startedState 1 sizes2k)).trace
      = Event.tx (begin_response (simEnv 1 sizes2k) beginRequest)
          ((simEnv 1 sizes2k).enqueueTxFrames (startedState 1 sizes2k).world
            (startedState 1 sizes2k).tx_queue (begin_response (simEnv 1 sizes2k) beginRequest)).1
          :: (startedState 1 sizes2k).trace :=
  ⟨by decide, (begin_update_response (simEnv 1 sizes2k) beginRequest
    (startedState 1 sizes2k)).2.2.1 (by decide)⟩

/-! ## The erase mark (C12, C13, C19, C20) -/

theorem erases_append (T tr : List Event) : erases (T ++ tr) = erases T ++ erases tr := by
  induction T with
  | nil => rfl
  | cons e T ih =>
    cases e <;> simp [erases, ih]

/-- Counterexample to C12: with `erased_to = 0`, `erase_to(0)` (a sector with
`s <= erased_to`) erases sector 0. -/
theorem erase_to_at_mark_erases :
    (idleState 1 0).fw.erased_to = 0 ∧
    erases (erase_to (simEnv 1 sizes2k) 4 0 (idleState 1 0)).1.trace = [0] := by
  decide

/-- C12, amended: for every state and every sector `s` with
`s < fw_update.erased_to`, a call `erase_to(s)` returns at once: it performs
zero `flash_func_erase_sector` calls and leaves the state as it was. With
`s = erased_to` (and for every `s >= erased_to`) it calls
`flash_func_erase_sector(s)` first. -/
theorem erase_to_below_mark (env : Env W) (fuel k : Nat) (s : State W) :
    (k < s.fw.erased_to →
      erase_to env fuel k s = (s, true) ∧
      erases (erase_to env fuel k s).1.trace = erases s.trace) ∧
    (s.fw.erased_to ≤ k →
      ∃ T, erases (erase_to env fuel k s).1.trace = T ++ k :: erases s.trace) := by
  constructor
  · intro h
    have : erase_to env fuel k s = (s, true) := by
      unfold erase_to
      rw [if_pos h]
    exact ⟨this, by rw [this]⟩
  · intro h
    unfold erase_to
    rw [if_neg (Nat.not_lt.2 h)]
    obtain ⟨E, w, T, hT, _⟩ := erase_loop_shape env fuel
        { (flash_func_erase_sector env k s) with
          fw := { (flash_func_erase_sector env k s).fw with
            erased_to := (k + 1) % 65536 } }
    refine ⟨erases T, ?_⟩
    simp only [hT, erases_append]
    rfl

/-- Witness for C12: sector 0 once the erase mark stands at 1. -/
theorem erase_to_below_mark_witness :
    0 < (erase_to (simEnv 1 sizes2k) 4 0 (idleState 1 0)).1.fw.erased_to ∧
    erase_to (simEnv 1 sizes2k) 4 0 (erase_to (simEnv 1 sizes2k) 4 0 (idleState 1 0)).1
      = ((erase_to (simEnv 1 sizes2k) 4 0 (idleState 1 0)).1, true) :=
  ⟨by decide, ((erase_to_below_mark (simEnv 1 sizes2k) 4 0
    (erase_to (simEnv 1 sizes2k) 4 0 (idleState 1 0)).1).1 (by decide)).1⟩


theorem memcmp_eq_iff (a b : List Nat) (n : Nat) :
    memcmp_eq a b n = true ↔ ∀ i, i < n → a.getD i 0 = b.getD i 0 := by
  simp [memcmp_eq, List.all_eq_true]

/-- C14: for every non-anonymous allocation response that decodes,
`handle_allocation_response` does the following. If the returned unique id
prefix differs from the same-length prefix of the local unique id,
`node_id_allocation_unique_id_offset` is set to 0 and the local node id is
unchanged; if it matches and is shorter than 16 bytes, the offset becomes the
prefix length and the local node id is unchanged; if it matches, is 16 bytes
long and the node id of the message is not 0, the local node id becomes the
node id of the message. -/
theorem allocation_response_cases (env : Env W) (dna : DnaEnv) (t : CanardRxTransfer)
    (s : State W) (rng : Rng) (msg : Allocation)
    (hsrc : t.source_node_id ≠ CANARD_BROADCAST_NODE_ID)
    (hdec : dna.Allocation_decode t = some msg) :
    ((∃ i, i < msg.unique_id_len ∧ msg.unique_id.getD i 0 ≠ (readUniqueID dna).getD i 0) →
      (handle_allocation_response env dna t s rng).1.node_id_allocation_unique_id_offset = 0 ∧
      (handle_allocation_response env dna t s rng).1.local_node_id = s.local_node_id) ∧
    ((∀ i, i < msg.unique_id_len → msg.unique_id.getD i 0 = (readUniqueID dna).getD i 0) →
      msg.unique_id_len < 16 →
      (handle_allocation_response env dna t s rng).1.node_id_allocation_unique_id_offset
        = msg.unique_id_len ∧
      (handle_allocation_response env dna t s rng).1.local_node_id = s.local_node_id) ∧
    ((∀ i, i < msg.unique_id_len → msg.unique_id.getD i 0 = (readUniqueID dna).getD i 0) →
      msg.unique_id_len = 16 → msg.node_id ≠ 0 →
      (handle_allocation_response env dna t s rng).1.local_node_id = msg.node_id) := by
  refine ⟨fun hne => ?_, fun heq hlt => ?_, fun heq hlen hid => ?_⟩
  · have hm : memcmp_eq msg.unique_id (readUniqueID dna) msg.unique_id_len = false := by
      cases hb : memcmp_eq msg.unique_id (readUniqueID dna) msg.unique_id_len
      · rfl
      · obtain ⟨i, hi, hd⟩ := hne
        exact absurd ((memcmp_eq_iff _ _ _).1 hb i hi) hd
    unfold handle_allocation_response
    simp only [if_neg hsrc, hdec, hm, if_true]
    refine ⟨?_, ?_⟩ <;> first | rfl | trivial
  · have hm := (memcmp_eq_iff _ _ _).2 heq
    unfold handle_allocation_response
    simp only [if_neg hsrc, hdec, hm, Bool.true_eq_false, if_false, UNIQUE_ID_SIZE, if_pos hlt]
    refine ⟨?_, ?_⟩ <;> first | rfl | trivial
  · have hm := (memcmp_eq_iff _ _ _).2 heq
    have hnl : ¬ msg.unique_id_len < 16 := by omega
    have hid' : msg.node_id ≠ CANARD_BROADCAST_NODE_ID := hid
    unfold handle_allocation_response
    simp only [if_neg hsrc, hdec, hm, Bool.true_eq_false, if_false, UNIQUE_ID_SIZE, if_neg hnl,
      if_pos hid']
    rfl

set_option maxRecDepth 100000 in
/-- Witness for C14: the allocator confirms the whole unique id and grants node
id 77. -/
theorem allocation_response_cases_witness :
    (allocationMessage [77, 16, 1, 2, 3, 4, 5, 6, 7, 8, 9, 10, 11, 12, 0, 0, 0, 0]).source_node_id
      ≠ CANARD_BROADCAST_NODE_ID ∧
    (handle_allocation_response (simEnv 1 sizes2k) simDna
      (allocationMessage [77, 16, 1, 2, 3, 4, 5, 6, 7, 8, 9, 10, 11, 12, 0, 0, 0, 0])
      anonymousState { m_z := 1234, m_w := 76542 }).1.local_node_id = 77 :=
  ⟨by decide,
    (allocation_response_cases (simEnv 1 sizes2k) simDna
      (allocationMessage [77, 16, 1, 2, 3, 4, 5, 6, 7, 8, 9, 10, 11, 12, 0, 0, 0, 0])
      anonymousState { m_z := 1234, m_w := 76542 }
      { node_id := 77, first_part_of_unique_id := false, unique_id_len := 16,
        unique_id := [1, 2, 3, 4, 5, 6, 7, 8, 9, 10, 11, 12, 0, 0, 0, 0] }
      (by decide) rfl).2.2 (by decide) rfl (by decide)⟩


/-! ## Transmit failures (C15) -/

/-- Counterexample to C15: on a bus on which every send fails, with two frames
queued and no failure counted, the first frame is still queued after the 8th
call of `processTx` (the count has reached 8) and is dropped by the 9th; the
second frame is dropped by the 10th call, at its first failed send. -/
theorem processTx_drops_at_ninth_failure :
    (Nat.iterate (processTx deafEnv) 8 (queuedState [frameA, frameB] 0)).tx_queue
      = [frameA, frameB] ∧
    (Nat.iterate (processTx deafEnv) 8 (queuedState [frameA, frameB] 0)).fail_count = 8 ∧
    (Nat.iterate (processTx deafEnv) 9 (queuedState [frameA, frameB] 0)).tx_queue = [frameB] ∧
    (Nat.iterate (processTx deafEnv) 10 (queuedState [frameA, frameB] 0)).tx_queue = [] := by
  decide

theorem processTx_failed (env : Env W) (s : State W) (f : CanardCANFrame)
    (rest : List CanardCANFrame) (hq : s.tx_queue = f :: rest)
    (hfail : (env.can_send s.world f).1 = false) :
    processTx env s
      = if s.fail_count < 8 then
          { s with world := (env.can_send s.world f).2,
                   trace := Event.can_send f false :: s.trace,
                   tx_queue := f :: rest, fail_count := (s.fail_count + 1) % 256 }
        else
          { s with world := (env.can_send s.world f).2,
                   trace := Event.can_send f false :: s.trace, tx_queue := rest } := by
  unfold processTx
  rw [hq]
  unfold processTx_loop
  simp only [hfail, Bool.false_eq_true, if_false]

theorem processTx_deaf_iterate (env : Env W) (hdeaf : ∀ w g, (env.can_send w g).1 = false)
    (f : CanardCANFrame) (rest : List CanardCANFrame) (s : State W)
    (hq : s.tx_queue = f :: rest) (h0 : s.fail_count = 0) :
    ∀ n, n ≤ 8 →
      (Nat.iterate (processTx env) n s).tx_queue = f :: rest ∧
      (Nat.iterate (processTx env) n s).fail_count = n := by
  intro n
  induction n with
  | zero => exact fun _ => ⟨hq, h0⟩
  | succ m ih =>
    intro hm
    obtain ⟨i1, i2⟩ := ih (by omega)
    rw [Function.iterate_succ_apply']
    rw [processTx_failed env _ f rest i1 (hdeaf _ _), if_pos (by omega)]
    exact ⟨rfl, by show (_ + 1) % 256 = m + 1; rw [i2]; omega⟩

/-- C15, amended: in `processTx`, a successful send pops the head frame of the
TX queue, resets the consecutive-failure count to 0 and goes on with the next
frame. A failed send ends the call: while the count is below 8 it is
incremented and the frame stays queued; once the count is 8 the head frame is
popped and the count stays 8. So on a persistently failing link, starting from
a count of 0, the head frame is still queued after 8 calls (the count is then
8), is dropped by the 9th failed send, and from then on every call drops one
more frame at its first failed send, until a send succeeds. -/
theorem processTx_behaviour (env : Env W) (s : State W) (f : CanardCANFrame)
    (rest : List CanardCANFrame) (hq : s.tx_queue = f :: rest) :
    ((env.can_send s.world f).1 = true →
      processTx env s
        = processTx_loop env rest
            { s with world := (env.can_send s.world f).2,
                     trace := Event.can_send f true :: s.trace,
                     tx_queue := rest, fail_count := 0 }) ∧
    ((env.can_send s.world f).1 = false → s.fail_count < 8 →
      (processTx env s).tx_queue = f :: rest ∧
      (processTx env s).fail_count = s.fail_count + 1 ∧
      (processTx env s).trace = Event.can_send f false :: s.trace) ∧
    ((env.can_send s.world f).1 = false → 8 ≤ s.fail_count →
      (processTx env s).tx_queue = rest ∧
      (processTx env s).fail_count = s.fail_count ∧
      (processTx env s).trace = Event.can_send f false :: s.trace) ∧
    ((∀ w g, (env.can_send w g).1 = false) → s.fail_count = 0 →
      (Nat.iterate (processTx env) 8 s).tx_queue = f :: rest ∧
      (Nat.iterate (processTx env) 8 s).fail_count = 8 ∧
      (Nat.iterate (processTx env) 9 s).tx_queue = rest ∧
      (Nat.iterate (processTx env) 9 s).fail_count = 8) := by
  refine ⟨fun hok => ?_, fun hfail hlt => ?_, fun hfail hge => ?_, fun hdeaf h0 => ?_⟩
  · unfold processTx
    rw [hq]
    conv_lhs => unfold processTx_loop
    simp only [hok, if_true]
  · rw [processTx_failed env s f rest hq hfail, if_pos hlt]
    exact ⟨rfl, by show (s.fail_count + 1) % 256 = _; omega, rfl⟩
  · rw [processTx_failed env s f rest hq hfail, if_neg (by omega)]
    exact ⟨rfl, rfl, rfl⟩
  · obtain ⟨i1, i2⟩ := processTx_deaf_iterate env hdeaf f rest s hq h0 8 (Nat.le_refl _)
    refine ⟨i1, i2, ?_, ?_⟩
    · rw [Function.iterate_succ_apply',
        processTx_failed env _ f rest i1 (hdeaf _ _), if_neg (by omega)]
    · rw [Function.iterate_succ_apply',
        processTx_failed env _ f rest i1 (hdeaf _ _), if_neg (by omega)]
      exact i2

/-- Witness for C15: one failed send with three failures counted. -/
theorem processTx_behaviour_witness :
    (queuedState [frameA, frameB] 3).tx_queue = frameA :: [frameB] ∧
    (deafEnv.can_send (queuedState [frameA, frameB] 3).world frameA).1 = false ∧
    (processTx deafEnv (queuedState [frameA, frameB] 3)).tx_queue = frameA :: [frameB] ∧
    (processTx deafEnv (queuedState [frameA, frameB] 3)).fail_count
      = (queuedState [frameA, frameB] 3).fail_count + 1 :=
  ⟨rfl, rfl,
    ((processTx_behaviour deafEnv (queuedState [frameA, frameB] 3) frameA [frameB] rfl).2.1
      rfl (by decide)).1,
    ((processTx_behaviour deafEnv (queuedState [frameA, frameB] 3) frameA [frameB] rfl).2.1
      rfl (by decide)).2.1⟩


/-! ## The read schedule (C16) -/

/-- While no update is in progress, a FileRead response from any node other
than node 0 is ignored: the handler returns at once and nothing changes. -/
theorem file_read_response_ignored_when_idle (env : Env W) (efuel fuel : Nat)
    (t : CanardRxTransfer) (s : State W) (h0 : s.fw.node_id = 0)
    (hsrc : t.source_node_id ≠ 0) :
    handle_file_read_response env efuel fuel t s = (s, true) := by
  unfold handle_file_read_response
  rw [if_pos (by rw [h0]; exact hsrc)]

set_option maxRecDepth 1000000 in
/-- C17 at the failing input: a node on which no update was ever started
(`fw_update` is all zero) receives a FileRead response with source node id 0
and transfer id 0. The gate of line 263 lets it pass, and the handler erases
sector 0, writes the 256 bytes at offset 0 and moves `ofs` and the status. -/
theorem idle_node_takes_response_from_node_0 :
    (idleState 1 0).fw.node_id = 0 ∧
    erases (handle_file_read_response (simEnv 1 sizes2k) 4 4 anonymousResponse
      (idleState 1 0)).1.trace = [0] ∧
    (handle_file_read_response (simEnv 1 sizes2k) 4 4 anonymousResponse
      (idleState 1 0)).1.trace.filter isWrite = [Event.write 0 256 true] ∧
    (handle_file_read_response (simEnv 1 sizes2k) 4 4 anonymousResponse
      (idleState 1 0)).1.fw.ofs = 256 ∧
    (handle_file_read_response (simEnv 1 sizes2k) 4 4 anonymousResponse
      (idleState 1 0)).1.vendor_specific_status_code = 1 := by
  decide

/-! ## The progress value (C18) -/

theorem commit_end_of_file_node (env : Env W) (s : State W) :
    (commit_end_of_file env s).fw.node_id = 0 := by
  unfold commit_end_of_file
  simp only
  split_ifs <;> rfl

theorem commit_chunk_ret (env : Env W) (efuel : Nat) (x s1 : State W)
    (h : commit_chunk env efuel x = (s1, Ctl.ret)) : s1.fw.node_id = 0 := by
  rcases commit_chunk_cases env efuel x with ⟨_, e⟩ | ⟨_, _, e⟩ | ⟨s3, _, e⟩ | ⟨s3, _, _, e⟩ |
    ⟨s3, _, _, _, e⟩ | ⟨s3, _, _, _, e⟩
  all_goals rw [e] at h
  · cases h
  · cases h
  · cases h
  · cases h
  · have : s1 = _ := (congrArg Prod.fst h).symm
    rw [this]
    exact commit_end_of_file_node env _
  · cases h

/-- When the commit loop returns with the update still in progress, it has
stored the progress value of the `ofs` it returns with. -/
theorem commit_loop_progress (env : Env W) (efuel : Nat) :
    ∀ fuel (x : State W), (commit_loop env efuel fuel x).2 = true →
      (commit_loop env efuel fuel x).1.fw.node_id ≠ 0 →
      (commit_loop env efuel fuel x).1.vendor_specific_status_code
        = (1 + (commit_loop env efuel fuel x).1.fw.ofs / 1024) % 256 := by
  intro fuel
  induction fuel with
  | zero =>
    intro x hret _
    by_cases hr : (x.fw.slot x.fw.idx).have_reply = true
    · simp only [commit_loop, hr, if_true] at hret
      cases hret
    · simp only [commit_loop, hr, if_false]
      rfl
  | succ n ih =>
    intro x hret hnode
    by_cases hr : (x.fw.slot x.fw.idx).have_reply = true
    · rcases hcc : commit_chunk env efuel x with ⟨s1, c⟩
      simp only [commit_loop, hr, if_true, hcc] at hret hnode ⊢
      cases c
      · exact ih s1 hret hnode
      · rfl
      · exact absurd (commit_chunk_ret env efuel x s1 hcc) hnode
      · cases hret
    · simp only [commit_loop, hr, if_false]
      rfl

theorem handler_progress (env : Env W) (efuel fuel : Nat) (t : CanardRxTransfer) (s : State W)
    (idx : Nat) (hsrc : t.source_node_id = s.fw.node_id)
    (hfind : find_slot env.P s.fw t.transfer_id = some idx)
    (hdec : (decode_response env t idx s).2 = false)
    (hret : (handle_file_read_response env efuel fuel t s).2 = true)
    (hnode : (handle_file_read_response env efuel fuel t s).1.fw.node_id ≠ 0) :
    (handle_file_read_response env efuel fuel t s).1.vendor_specific_status_code
      = (1 + (handle_file_read_response env efuel fuel t s).1.fw.ofs / 1024) % 256 := by
  have hH : handle_file_read_response env efuel fuel t s
      = commit_loop env efuel fuel (mark_reply env idx (decode_response env t idx s).1) := by
    unfold handle_file_read_response
    rw [if_neg (fun h => h hsrc), hfind]
    simp only [hdec, Bool.false_eq_true, if_false]
  rw [hH] at hret hnode ⊢
  exact commit_loop_progress env efuel fuel _ hret hnode

/-- The status after each chunk of the run on the one sector flash. -/
theorem servedState_sizesOne_status (n : Nat) :
    (servedState sizesOne (n + 1)).vendor_specific_status_code
      = (1 + (256 * (n + 1)) % 4294967296 / 1024) % 256 := by
  obtain ⟨_, hl, _, hs, _⟩ := servedState_sizesOne n
  obtain ⟨_, hl1, ho1, _, _⟩ := servedState_sizesOne (n + 1)
  have hz : sizesOne (servedState sizesOne n).fw.sector ≠ 0 := by rw [hs]; decide
  obtain ⟨T, h1, _⟩ := lane_step sizesOne n _ hl hz
  have hfind : find_slot (simEnv 1 sizesOne).P (servedState sizesOne n).fw
      (readResponse (n % 32) fullChunk).transfer_id = some 0 := by
    show (List.range 1).find? _ = some 0
    simp [List.range_succ, List.find?, hl.tx, readResponse]
  have hpl : (readResponse (n % 32) fullChunk).payload.length = 256 :=
    List.length_replicate 256 0
  have hdec : (decode_response (simEnv 1 sizesOne) (readResponse (n % 32) fullChunk) 0
      (servedState sizesOne n)).2 = false := by
    simp [decode_response, simEnv, hpl, CHUNK]
  have hsrc : (readResponse (n % 32) fullChunk).source_node_id
      = (servedState sizesOne n).fw.node_id := by rw [hl.node]; rfl
  have key := handler_progress (simEnv 1 sizesOne) 4 4 (readResponse (n % 32) fullChunk)
    (servedState sizesOne n) 0 hsrc hfind hdec h1
    (by rw [← servedState_succ, hl1.node]; decide)
  rw [← servedState_succ, ho1] at key
  exact key

/-- Counterexample to C18: on a flash of one sector of `2^32 - 1` bytes, the
response that brings `ofs` to 67107840 (64 MiB less 1 KiB) is matched and
decoded, the update goes on, and the status is 0, where
`1 + floor(ofs / 1024)` is 65536. -/
theorem progress_wraps_at_64_MiB :
    Reachable (simEnv 1 sizesOne) (servedState sizesOne 262139) ∧
    (handle_file_read_response (simEnv 1 sizesOne) 4 4 (readResponse 27 fullChunk)
      (servedState sizesOne 262139)).2 = true ∧
    (handle_file_read_response (simEnv 1 sizesOne) 4 4 (readResponse 27 fullChunk)
      (servedState sizesOne 262139)).1.fw.node_id = 10 ∧
    (handle_file_read_response (simEnv 1 sizesOne) 4 4 (readResponse 27 fullChunk)
      (servedState sizesOne 262139)).1.fw.ofs = 67107840 ∧
    (handle_file_read_response (simEnv 1 sizesOne) 4 4 (readResponse 27 fullChunk)
      (servedState sizesOne 262139)).1.vendor_specific_status_code = 0 ∧
    1 + 67107840 / 1024 = 65536 := by
  obtain ⟨hr, hl, _, hs, _⟩ := servedState_sizesOne 262139
  have hz : sizesOne (servedState sizesOne 262139).fw.sector ≠ 0 := by rw [hs]; decide
  obtain ⟨T, h1, _⟩ := lane_step sizesOne 262139 _ hl hz
  obtain ⟨_, hl1, ho1, _, _⟩ := servedState_sizesOne (262139 + 1)
  have hn := hl1.node
  have hst := servedState_sizesOne_status 262139
  rw [servedState_succ] at hn ho1 hst
  simp only [Nat.reduceMod, Nat.reduceAdd, Nat.reduceMul, Nat.reduceDiv] at h1 hn ho1 hst
  exact ⟨hr, h1, hn, ho1, hst, by decide⟩

/-- C18, amended: after every FileRead response that is matched to a slot and
decoded, when the handler returns with the update still in progress,
`vendor_specific_status_code` is `1 + floor(ofs / 1024)` for the resulting
`ofs`, reduced to the 8 bits of the status field: it is
`(1 + floor(ofs / 1024)) mod 256`, and it equals `1 + floor(ofs / 1024)`
whenever `ofs < 261120`. -/
theorem progress_after_response (env : Env W) (efuel fuel : Nat) (t : CanardRxTransfer)
    (s : State W) (idx : Nat) (hsrc : t.source_node_id = s.fw.node_id)
    (hfind : find_slot env.P s.fw t.transfer_id = some idx)
    (hdec : (decode_response env t idx s).2 = false)
    (hret : (handle_file_read_response env efuel fuel t s).2 = true)
    (hnode : (handle_file_read_response env efuel fuel t s).1.fw.node_id ≠ 0) :
    (handle_file_read_response env efuel fuel t s).1.vendor_specific_status_code
      = (1 + (handle_file_read_response env efuel fuel t s).1.fw.ofs / 1024) % 256 ∧
    ((handle_file_read_response env efuel fuel t s).1.fw.ofs < 261120 →
      (handle_file_read_response env efuel fuel t s).1.vendor_specific_status_code
        = 1 + (handle_file_read_response env efuel fuel t s).1.fw.ofs / 1024) := by
  have h := handler_progress env efuel fuel t s idx hsrc hfind hdec hret hnode
  refine ⟨h, fun hlt => ?_⟩
  rw [h]
  exact Nat.mod_eq_of_lt (by omega)

set_option maxRecDepth 1000000 in
/-- Witness for C18: the first chunk of an update on the two sector flash. -/
theorem progress_after_response_witness :
    (handle_file_read_response (simEnv 1 sizes2k) 4 4 (readResponse 0 fullChunk)
      (servedState sizes2k 0)).1.fw.node_id ≠ 0 ∧
    (handle_file_read_response (simEnv 1 sizes2k) 4 4 (readResponse 0 fullChunk)
      (servedState sizes2k 0)).1.vendor_specific_status_code
      = (1 + (handle_file_read_response (simEnv 1 sizes2k) 4 4 (readResponse 0 fullChunk)
          (servedState sizes2k 0)).1.fw.ofs / 1024) % 256 :=
  ⟨by decide,
    (progress_after_response (simEnv 1 sizes2k) 4 4 (readResponse 0 fullChunk)
      (servedState sizes2k 0) 0 (by decide) (by decide) (by decide) (by decide)
      (by decide)).1⟩


/-! ## Responses that match no slot (C21) -/

theorem find_slot_none (P : Nat) (fw : FwUpdate) (tid : Nat)
    (h : ∀ i, i < P → (fw.slot i).tx_id ≠ tid) : find_slot P fw tid = none := by
  unfold find_slot
  rw [List.find?_eq_none]
  intro i hi
  simpa using h i (List.mem_range.1 hi)

theorem rtt_backoff_step (env : Env W) (efuel fuel : Nat) (t : CanardRxTransfer) (s : State W)
    (h : Unmatched env s t) :
    handle_file_read_response env efuel fuel t s
      = ({ s with fw := { s.fw with
            rtt_ms := min 3000 ((s.fw.rtt_ms + 250) % 4294967296) } }, true) := by
  unfold handle_file_read_response
  rw [if_neg (fun hne => hne h.1), find_slot_none env.P s.fw t.transfer_id h.2]
  rfl

theorem rtt_backoff_run (env : Env W) (efuel fuel : Nat) (ts : List CanardRxTransfer) :
    ∀ s : State W, (∀ t ∈ ts, Unmatched env s t) → s.fw.rtt_ms ≤ 3000 →
      ∃ r, handle_responses env efuel fuel ts s = { s with fw := { s.fw with rtt_ms := r } } ∧
        s.fw.rtt_ms ≤ r ∧ r ≤ 3000 := by
  induction ts with
  | nil => exact fun s _ h => ⟨s.fw.rtt_ms, rfl, Nat.le_refl _, h⟩
  | cons t ts ih =>
    intro s hall hle
    have h1 := rtt_backoff_step env efuel fuel t s (hall t (List.mem_cons_self _ _))
    have hmod : (s.fw.rtt_ms + 250) % 4294967296 = s.fw.rtt_ms + 250 :=
      Nat.mod_eq_of_lt (by omega)
    obtain ⟨r, hr, h2, h3⟩ := ih
      { s with fw := { s.fw with rtt_ms := min 3000 ((s.fw.rtt_ms + 250) % 4294967296) } }
      (fun t' ht' => hall t' (List.mem_cons_of_mem _ ht'))
      (Nat.min_le_left _ _)
    refine ⟨r, ?_, ?_, h3⟩
    · show handle_responses env efuel fuel ts (handle_file_read_response env efuel fuel t s).1 = _
      rw [h1, hr]
    · have : s.fw.rtt_ms ≤ min 3000 ((s.fw.rtt_ms + 250) % 4294967296) := by
        rw [hmod]; omega
      exact Nat.le_trans this h2

/-- C21: for a FileRead response from the server node whose transfer id equals
no slot's `tx_id`, `handle_file_read_response` returns with `rtt_ms` set to
`min(3000, rtt_ms + 250)` (the `uint32_t` expression of line 280, which is the
integer one for `rtt_ms <= 4294967045`) and with nothing else changed. So,
given `rtt_ms <= 3000`, along a run of only such responses `rtt_ms` never
decreases and never exceeds 3000, and nothing but `rtt_ms` changes. -/
theorem unmatched_response_backs_off (env : Env W) (efuel fuel : Nat) (s : State W) :
    (∀ t, Unmatched env s t →
      handle_file_read_response env efuel fuel t s
        = ({ s with fw := { s.fw with
              rtt_ms := min 3000 ((s.fw.rtt_ms + 250) % 4294967296) } }, true) ∧
      (s.fw.rtt_ms ≤ 4294967045 →
        (handle_file_read_response env efuel fuel t s).1.fw.rtt_ms
          = min 3000 (s.fw.rtt_ms + 250))) ∧
    (s.fw.rtt_ms ≤ 3000 → ∀ pre post : List CanardRxTransfer,
      (∀ t ∈ pre ++ post, Unmatched env s t) →
      (handle_responses env efuel fuel pre s).fw.rtt_ms
        ≤ (handle_responses env efuel fuel (pre ++ post) s).fw.rtt_ms ∧
      (handle_responses env efuel fuel (pre ++ post) s).fw.rtt_ms ≤ 3000 ∧
      handle_responses env efuel fuel (pre ++ post) s
        = { s with fw := { s.fw with
              rtt_ms := (handle_responses env efuel fuel (pre ++ post) s).fw.rtt_ms } }) := by
  constructor
  · intro t h
    have h1 := rtt_backoff_step env efuel fuel t s h
    refine ⟨h1, fun hle => ?_⟩
    rw [h1]
    show min 3000 ((s.fw.rtt_ms + 250) % 4294967296) = _
    rw [Nat.mod_eq_of_lt (by omega)]
  · intro hle pre post hall
    obtain ⟨r1, e1, a1, b1⟩ := rtt_backoff_run env efuel fuel pre s
      (fun t ht => hall t (List.mem_append_left _ ht)) hle
    have hsplit : handle_responses env efuel fuel (pre ++ post) s
        = handle_responses env efuel fuel post (handle_responses env efuel fuel pre s) := by
      unfold handle_responses
      rw [List.foldl_append]
    obtain ⟨r2, e2, a2, b2⟩ := rtt_backoff_run env efuel fuel post
      (handle_responses env efuel fuel pre s)
      (by
        intro t ht
        rw [e1]
        exact hall t (List.mem_append_right _ ht))
      (by rw [e1]; exact b1)
    rw [hsplit, e2, e1]
    exact ⟨by show r1 ≤ r2; rw [e1] at a2; exact a2, b2, rfl⟩

set_option maxRecDepth 100000 in
/-- Witness for C21: a response with transfer id 7 while the single slot waits
for transfer id 0. -/
theorem unmatched_response_backs_off_witness :
    Unmatched (simEnv 1 sizes2k) (servedState sizes2k 0) (readResponse 7 fullChunk) ∧
    (servedState sizes2k 0).fw.rtt_ms ≤ 4294967045 ∧
    (handle_file_read_response (simEnv 1 sizes2k) 4 4 (readResponse 7 fullChunk)
      (servedState sizes2k 0)).1.fw.rtt_ms = min 3000 ((servedState sizes2k 0).fw.rtt_ms + 250) :=
  have hu : Unmatched (simEnv 1 sizes2k) (servedState sizes2k 0) (readResponse 7 fullChunk) :=
    ⟨by decide, fun i hi => by
      have : i = 0 := by
        have h1 : i < 1 := hi
        omega
      subst this
      decide⟩
  ⟨hu, by decide,
    ((unmatched_response_backs_off (simEnv 1 sizes2k) 4 4 (servedState sizes2k 0)).1
      (readResponse 7 fullChunk) hu).2 (by decide)⟩

/-! ## A request while an update is in progress (C23) -/

/-- C23: when an update is already in progress (`fw_update.node_id != 0`),
`handle_begin_firmware_update` leaves the whole update context unchanged
(server node id, path, `ofs`, `sector`, `sector_ofs`, `erased_to`, `idx`,
`transfer_id`, `rtt_ms` and every slot), whatever the request; so the handler
changes the context only when `node_id == 0`. -/
theorem busy_begin_keeps_context (env : Env W) (t : CanardRxTransfer) (s : State W) :
    (s.fw.node_id ≠ 0 → (handle_begin_firmware_update env t s).fw = s.fw) ∧
    ((handle_begin_firmware_update env t s).fw ≠ s.fw → s.fw.node_id = 0) := by
  have h : s.fw.node_id ≠ 0 → (handle_begin_firmware_update env t s).fw = s.fw := by
    intro hn
    unfold handle_begin_firmware_update
    rw [if_neg hn]
    exact begin_firmware_update_reply_fw env t s
  exact ⟨h, fun hne => by
    by_contra hn
    exact hne (h hn)⟩

set_option maxRecDepth 100000 in
/-- Witness for C23: a second request while node 10 is being served. -/
theorem busy_begin_keeps_context_witness :
    (startedState 4 sizes2k).fw.node_id ≠ 0 ∧
    (handle_begin_firmware_update (simEnv 4 sizes2k) emptyRequest (startedState 4 sizes2k)).fw
      = (startedState 4 sizes2k).fw :=
  ⟨by decide,
    (busy_begin_keeps_context (simEnv 4 sizes2k) emptyRequest (startedState 4 sizes2k)).1
      (by decide)⟩


/-! ## A node without an id (C22) -/

/-- C22: while the local node id is BROADCAST, `shouldAcceptTransfer` returns
true if and only if the transfer is a broadcast with the Allocation data type
id, and then hands out the Allocation signature; `onTransferReceived` in that
state passes such transfers to `handle_allocation_response` and returns at
once for every other transfer, which leaves the node (the update context
included) as it was and triggers no reset; the allocation handler does not
touch the update context and triggers no reset either. -/
theorem unidentified_node_takes_allocation_only (env : Env W) (dna : DnaEnv) (info : InfoEnv)
    (efuel fuel : Nat) (t : CanardRxTransfer) (n : Node W)
    (h0 : n.st.local_node_id = CANARD_BROADCAST_NODE_ID) :
    ((shouldAcceptTransfer env.proto n.st.local_node_id t.data_type_id t.transfer_type
        t.source_node_id).1 = true ↔
      (t.transfer_type = CanardTransferType.broadcast ∧
        t.data_type_id = env.proto.ALLOCATION_ID)) ∧
    ((shouldAcceptTransfer env.proto n.st.local_node_id t.data_type_id t.transfer_type
        t.source_node_id).1 = true →
      (shouldAcceptTransfer env.proto n.st.local_node_id t.data_type_id t.transfer_type
        t.source_node_id).2 = some env.proto.ALLOCATION_SIGNATURE) ∧
    (t.transfer_type = CanardTransferType.broadcast ∧
        t.data_type_id = env.proto.ALLOCATION_ID →
      onTransferReceived env dna info efuel fuel t n
        = ({ n with st := (handle_allocation_response env dna t n.st n.rng).1,
                    rng := (handle_allocation_response env dna t n.st n.rng).2 }, true)) ∧
    (¬ (t.transfer_type = CanardTransferType.broadcast ∧
        t.data_type_id = env.proto.ALLOCATION_ID) →
      onTransferReceived env dna info efuel fuel t n = (n, true)) ∧
    (onTransferReceived env dna info efuel fuel t n).1.st.fw = n.st.fw ∧
    (onTransferReceived env dna info efuel fuel t n).1.reset = n.reset := by
  have hacc : ∀ (c : Prop) [Decidable c],
      ((if c then (true, some env.proto.ALLOCATION_SIGNATURE) else (false, none)
        : Bool × Option Nat).1 = true ↔ c) ∧
      ((if c then (true, some env.proto.ALLOCATION_SIGNATURE) else (false, none)
        : Bool × Option Nat).1 = true →
       (if c then (true, some env.proto.ALLOCATION_SIGNATURE) else (false, none)
        : Bool × Option Nat).2 = some env.proto.ALLOCATION_SIGNATURE) := by
    intro c _
    by_cases hc : c
    · simp [hc]
    · simp [hc]
  have hfw : ∀ (s : State W) (r : Rng),
      (handle_allocation_response env dna t s r).1.fw = s.fw := by
    intro s r
    unfold handle_allocation_response
    simp only
    split_ifs
    · rfl
    · split
      · rfl
      · split_ifs <;> rfl
  refine ⟨?_, ?_, fun hb => ?_, fun hb => ?_, ?_, ?_⟩
  · unfold shouldAcceptTransfer
    rw [if_pos h0]
    exact (hacc _).1
  · unfold shouldAcceptTransfer
    rw [if_pos h0]
    exact (hacc _).2
  · unfold onTransferReceived
    rw [if_pos h0, if_pos hb]
  · unfold onTransferReceived
    rw [if_pos h0, if_neg hb]
  · unfold onTransferReceived
    rw [if_pos h0]
    split_ifs
    · exact hfw _ _
    · rfl
  · unfold onTransferReceived
    rw [if_pos h0]
    split_ifs <;> rfl

set_option maxRecDepth 100000 in
/-- Witness for C22: a BeginFirmwareUpdate request offered to a node that has
no id yet is refused and, if delivered, ignored. -/
theorem unidentified_node_takes_allocation_only_witness :
    (anonymousNode 0).st.local_node_id = CANARD_BROADCAST_NODE_ID ∧
    onTransferReceived (simEnv 1 sizes2k) simDna simInfo 4 4 beginRequest (anonymousNode 0)
      = (anonymousNode 0, true) :=
  ⟨rfl, (unidentified_node_takes_allocation_only (simEnv 1 sizes2k) simDna simInfo 4 4
    beginRequest (anonymousNode 0) rfl).2.2.2.1 (by decide)⟩

/-! ## Allocation requests (C24) -/

theorem readUniqueID_length (dna : DnaEnv) : (readUniqueID dna).length = 16 := by
  simp [readUniqueID, UNIQUE_ID_SIZE]

/-- C24: for every `unique_id_offset` in `[0, 15]`, `can_handle_DNA`, on a node
without an id whose request deadline has passed, broadcasts an Allocation
message whose payload has `k + 1` bytes with `k = min(6, 16 - unique_id_offset)`:
byte 0 is 1 if the offset is 0 and 0 otherwise, and the bytes `1 .. k` are
`unique_id[offset .. offset + k)`, every index inside the 16 byte id; then it
sets `unique_id_offset` to 0. -/
theorem allocation_request_sent (env : Env W) (dna : DnaEnv) (n : Node W)
    (h0 : n.st.local_node_id = CANARD_BROADCAST_NODE_ID)
    (hdue : ¬ env.millis n.st.world % 4294967296
      < n.st.send_next_node_id_allocation_request_at_ms)
    (hofs : n.st.node_id_allocation_unique_id_offset ≤ 15) :
    (∃ code, (can_handle_DNA env dna n).st.trace
      = Event.tx
          { dest := CANARD_BROADCAST_NODE_ID,
            signature := env.proto.ALLOCATION_SIGNATURE,
            data_type_id := env.proto.ALLOCATION_ID,
            transfer_id := n.st.node_id_allocation_transfer_id,
            priority := env.proto.PRIORITY_LOW,
            kind := CanardTransferType.broadcast,
            payload := TxPayload.raw
              (allocation_request dna n.st.node_id_allocation_unique_id_offset) } code
          :: n.st.trace) ∧
    (allocation_request dna n.st.node_id_allocation_unique_id_offset).length
      = min 6 (16 - n.st.node_id_allocation_unique_id_offset) + 1 ∧
    (allocation_request dna n.st.node_id_allocation_unique_id_offset).getD 0 0
      = (if n.st.node_id_allocation_unique_id_offset = 0 then 1 else 0) ∧
    (∀ i, i < min 6 (16 - n.st.node_id_allocation_unique_id_offset) →
      (allocation_request dna n.st.node_id_allocation_unique_id_offset).getD (i + 1) 0
        = (readUniqueID dna).getD (n.st.node_id_allocation_unique_id_offset + i) 0 ∧
      n.st.node_id_allocation_unique_id_offset + i < (readUniqueID dna).length) ∧
    (can_handle_DNA env dna n).st.node_id_allocation_unique_id_offset = 0 := by
  generalize hoff : n.st.node_id_allocation_unique_id_offset = ofs at hofs ⊢
  have hsize : (if (UNIQUE_ID_SIZE + 256 - ofs) % 256 > 6 then 6
      else (UNIQUE_ID_SIZE + 256 - ofs) % 256) = min 6 (16 - ofs) := by
    unfold UNIQUE_ID_SIZE
    split_ifs <;> omega
  have hreq : allocation_request dna ofs
      = (if ofs = 0 then 1 else 0)
        :: (List.range (min 6 (16 - ofs))).map (fun i => (readUniqueID dna).getD (ofs + i) 0) := by
    unfold allocation_request
    simp only [hsize, CANARD_BROADCAST_NODE_ID, Nat.zero_mul, Nat.zero_mod, Nat.zero_add]
  have hnot : ¬ n.st.local_node_id ≠ CANARD_BROADCAST_NODE_ID := fun h => h h0
  refine ⟨?_, ?_, ?_, ?_, ?_⟩
  · unfold can_handle_DNA
    rw [if_neg hnot, if_neg hdue]
    simp only [hoff]
    exact ⟨_, rfl⟩
  · rw [hreq]
    simp
  · rw [hreq]
    rfl
  · intro i hi
    refine ⟨?_, by rw [readUniqueID_length]; omega⟩
    rw [hreq]
    simp [List.getD_eq_getElem?_getD, hi]
  · unfold can_handle_DNA
    rw [if_neg hnot, if_neg hdue]

set_option maxRecDepth 100000 in
/-- Witness for C24: with offset 12 the request carries the last four bytes of
the unique id. -/
theorem allocation_request_sent_witness :
    (anonymousNode 12).st.local_node_id = CANARD_BROADCAST_NODE_ID ∧
    (anonymousNode 12).st.node_id_allocation_unique_id_offset ≤ 15 ∧
    (allocation_request simDna (anonymousNode 12).st.node_id_allocation_unique_id_offset).length
      = min 6 (16 - (anonymousNode 12).st.node_id_allocation_unique_id_offset) + 1 ∧
    (can_handle_DNA (simEnv 1 sizes2k) simDna
      (anonymousNode 12)).st.node_id_allocation_unique_id_offset = 0 :=
  ⟨rfl, by decide,
    (allocation_request_sent (simEnv 1 sizes2k) simDna (anonymousNode 12) rfl (by decide)
      (by decide)).2.1,
    (allocation_request_sent (simEnv 1 sizes2k) simDna (anonymousNode 12) rfl (by decide)
      (by decide)).2.2.2.2⟩

/-! ## An identified node keeps its id (C25) -/

theorem processTx_loop_identity (env : Env W) (q : List CanardCANFrame) (s : State W) :
    stateIdentity (processTx_loop env q s) = stateIdentity s := by
  induction q generalizing s with
  | nil => rfl
  | cons f q ih =>
    unfold processTx_loop
    simp only
    split_ifs
    · rw [ih]; rfl
    · rfl
    · rfl

theorem send_fw_read_identity (env : Env W) (idx : Nat) (s : State W) :
    stateIdentity (send_fw_read env idx s).1 = stateIdentity s := by
  unfold send_fw_read
  simp only
  split_ifs <;> rfl

theorem send_fw_reads_loop_identity (env : Env W) (now : Nat) (l : List Nat) (s : State W) :
    stateIdentity (send_fw_reads_loop env now l s) = stateIdentity s := by
  induction l generalizing s with
  | nil => rfl
  | cons i rest ih =>
    unfold send_fw_reads_loop
    simp only
    split_ifs
    · exact ih s
    · exact ih s
    · rw [ih, send_fw_read_identity]
    · exact send_fw_read_identity env _ s

theorem handle_begin_identity (env : Env W) (t : CanardRxTransfer) (s : State W) :
    stateIdentity (handle_begin_firmware_update env t s) = stateIdentity s := by
  unfold handle_begin_firmware_update
  split_ifs
  · split
    · rfl
    · split_ifs <;> rfl
  · rfl

theorem commit_chunk_identity (env : Env W) (efuel : Nat) (s : State W) :
    stateIdentity (commit_chunk env efuel s).1 = stateIdentity s := by
  have hprep : ∀ s3 c, commit_prepare env efuel s = (s3, c) → (c = none ∨ c = some Ctl.stuck) →
      stateIdentity s3 = stateIdentity s := by
    intro s3 c h hc
    obtain ⟨_, _, E, w, T, hs3, _⟩ := commit_prepare_erased env efuel s s3 c h hc
    rw [hs3]
    rfl
  have hnext : ∀ x : State W, stateIdentity (commit_next_read env x) = stateIdentity x := by
    intro x
    show stateIdentity (processTx_loop env _ _) = _
    rw [processTx_loop_identity, send_fw_read_identity]
    rfl
  have heof : ∀ x : State W, stateIdentity (commit_end_of_file env x) = stateIdentity x := by
    intro x
    unfold commit_end_of_file
    simp only
    split_ifs <;> rfl
  rcases commit_chunk_cases env efuel s with ⟨_, e⟩ | ⟨_, _, e⟩ | ⟨s3, hp, e⟩ | ⟨s3, hp, _, e⟩ |
    ⟨s3, hp, _, _, e⟩ | ⟨s3, hp, _, _, e⟩
  · rw [e]; rfl
  · rw [e]
    show stateIdentity (commit_too_big env _) = _
    split_ifs <;> rfl
  · rw [e]; exact hprep s3 _ hp (Or.inr rfl)
  · rw [e]
    exact (show stateIdentity (after_write env s s3) = stateIdentity s3 from rfl).trans
      (hprep s3 _ hp (Or.inl rfl))
  · rw [e]
    show stateIdentity (commit_end_of_file env _) = _
    rw [heof]
    exact (show stateIdentity (commit_position env _ _ (after_write env s s3))
      = stateIdentity s3 from rfl).trans (hprep s3 _ hp (Or.inl rfl))
  · rw [e]
    show stateIdentity (commit_next_read env _) = _
    rw [hnext]
    exact (show stateIdentity (commit_position env _ _ (after_write env s s3))
      = stateIdentity s3 from rfl).trans (hprep s3 _ hp (Or.inl rfl))

theorem handle_file_read_response_identity (env : Env W) (efuel fuel : Nat)
    (t : CanardRxTransfer) (s : State W) :
    stateIdentity (handle_file_read_response env efuel fuel t s).1 = stateIdentity s := by
  unfold handle_file_read_response
  split_ifs
  · rfl
  · split
    · rfl
    · next idx _ =>
      simp only
      split_ifs
      · rfl
      · exact commit_loop_preserves env efuel (fun x => stateIdentity x = stateIdentity s)
          (fun x hx _ => (commit_chunk_identity env efuel x).trans hx)
          (fun x hx => hx) fuel _ rfl

theorem identified_can_handle_DNA (env : Env W) (dna : DnaEnv) (n : Node W)
    (h : n.st.local_node_id ≠ CANARD_BROADCAST_NODE_ID) : can_handle_DNA env dna n = n := by
  unfold can_handle_DNA
  rw [if_pos h]

theorem identified_onTransferReceived (env : Env W) (dna : DnaEnv) (info : InfoEnv)
    (efuel fuel : Nat) (t : CanardRxTransfer) (n : Node W)
    (h : n.st.local_node_id ≠ CANARD_BROADCAST_NODE_ID) :
    identity (onTransferReceived env dna info efuel fuel t n).1 = identity n := by
  have key : ∀ s' : State W, stateIdentity s' = stateIdentity n.st →
      ∀ m : Node W, m.st = s' → m.rng = n.rng → identity m = identity n := by
    intro s' hs m hm hr
    unfold identity
    unfold stateIdentity at hs
    rw [hm, hr]
    simp only [Prod.mk.injEq] at hs ⊢
    exact ⟨hs.1, hs.2.1, hs.2.2.1, hs.2.2.2, trivial⟩
  unfold onTransferReceived
  rw [if_neg h]
  split_ifs
  · exact key _ (show stateIdentity (canardRequestOrRespond env _ n.st).1 = _ from rfl) _ rfl rfl
  · exact key _ (handle_begin_identity env t n.st) _ rfl rfl
  · exact key _ (handle_file_read_response_identity env efuel fuel t n.st) _ rfl rfl
  · rfl
  · rfl

theorem identified_nodeStep (env : Env W) (dna : DnaEnv) (info : InfoEnv) (efuel fuel : Nat)
    (n : Node W) (h : n.st.local_node_id ≠ CANARD_BROADCAST_NODE_ID) (i : NodeInput W) :
    identity (nodeStep env dna info efuel fuel n i) = identity n := by
  have key : ∀ s' : State W, stateIdentity s' = stateIdentity n.st →
      identity { n with st := s' } = identity n := by
    intro s' hs
    unfold identity
    unfold stateIdentity at hs
    simp only [Prod.mk.injEq] at hs ⊢
    exact ⟨hs.1, hs.2.1, hs.2.2.1, hs.2.2.2, trivial⟩
  cases i with
  | rx t => exact identified_onTransferReceived env dna info efuel fuel t n h
  | dna_poll =>
    show identity (can_handle_DNA env dna n) = _
    rw [identified_can_handle_DNA env dna n h]
  | reads =>
    show identity (if n.st.fw.node_id ≠ 0 then _ else n) = _
    split_ifs
    · exact key _ (send_fw_reads_loop_identity env _ _ n.st)
    · rfl
  | drain => exact key _ (processTx_loop_identity env _ n.st)
  | hardware w => rfl

theorem identified_nodeRun (env : Env W) (dna : DnaEnv) (info : InfoEnv) (efuel fuel : Nat)
    (inputs : List (NodeInput W)) :
    ∀ n : Node W, n.st.local_node_id ≠ CANARD_BROADCAST_NODE_ID →
      identity (nodeRun env dna info efuel fuel inputs n) = identity n := by
  induction inputs with
  | nil => exact fun _ _ => rfl
  | cons i rest ih =>
    intro n h
    have h1 := identified_nodeStep env dna info efuel fuel n h i
    have hloc : (nodeStep env dna info efuel fuel n i).st.local_node_id = n.st.local_node_id :=
      congrArg Prod.fst h1
    show identity (nodeRun env dna info efuel fuel rest (nodeStep env dna info efuel fuel n i)) = _
    rw [ih _ (by rw [hloc]; exact h), h1]

/-- C25: once the local node id is different from BROADCAST, it never changes
again and no further allocation request is sent: along every run of received
transfers, calls of `can_handle_DNA`, `send_fw_reads` and `processTx` and
changes of the clock, the local node id and the allocation state (transfer id,
request deadline, unique id offset, random generator) stay as they are; each
call of `can_handle_DNA` returns at once, with nothing sent and nothing
changed, and `onTransferReceived` dispatches on the data type id without
calling `handle_allocation_response`. A RestartNode transfer calls
`NVIC_SystemReset()`, after which the node starts over; the run is taken up to
there. -/
theorem identified_node_keeps_identity (env : Env W) (dna : DnaEnv) (info : InfoEnv)
    (efuel fuel : Nat) (n : Node W) (h : n.st.local_node_id ≠ CANARD_BROADCAST_NODE_ID) :
    can_handle_DNA env dna n = n ∧
    (∀ t, identity (onTransferReceived env dna info efuel fuel t n).1 = identity n) ∧
    (∀ inputs,
      identity (nodeRun env dna info efuel fuel inputs n) = identity n ∧
      (nodeRun env dna info efuel fuel inputs n).st.local_node_id = n.st.local_node_id ∧
      can_handle_DNA env dna (nodeRun env dna info efuel fuel inputs n)
        = nodeRun env dna info efuel fuel inputs n) := by
  refine ⟨identified_can_handle_DNA env dna n h,
    fun t => identified_onTransferReceived env dna info efuel fuel t n h, fun inputs => ?_⟩
  have h1 := identified_nodeRun env dna info efuel fuel inputs n h
  have hloc : (nodeRun env dna info efuel fuel inputs n).st.local_node_id
      = n.st.local_node_id := congrArg Prod.fst h1
  exact ⟨h1, hloc, identified_can_handle_DNA env dna _ (by rw [hloc]; exact h)⟩

set_option maxRecDepth 100000 in
/-- Witness for C25: node 42 is offered an Allocation message and polled. -/
theorem identified_node_keeps_identity_witness :
    identifiedNode.st.local_node_id ≠ CANARD_BROADCAST_NODE_ID ∧
    (nodeRun (simEnv 1 sizes2k) simDna simInfo 4 4
      [NodeInput.rx (allocationMessage [77, 16]), NodeInput.dna_poll]
      identifiedNode).st.local_node_id = identifiedNode.st.local_node_id :=
  ⟨by decide,
    ((identified_node_keeps_identity (simEnv 1 sizes2k) simDna simInfo 4 4 identifiedNode
      (by decide)).2.2
      [NodeInput.rx (allocationMessage [77, 16]), NodeInput.dna_poll]).2.1⟩


/-! ## The write position (C27) -/

/-- The write position where the sector index cannot wrap: on a flash of at
most 255 sectors, each at least `CHUNK` bytes long, whose total size is at most
`2^32 - CHUNK` (with a decoder that keeps payloads within `CHUNK` bytes), in
every state of an update and in whatever state a call of
`handle_file_read_response` stops, `ofs` is the sum of the sizes of the sectors
below `sector` plus `sector_ofs`, and `sector_ofs` is below the size of
`sector`, whenever `sector` is one of the existing sectors. -/
theorem position_consistent (env : Env W) (n : Nat) (G : Geometry env n)
    (hmin : SectorsAtLeastChunk env n) (hdec : DecoderBounded env)
    (s : State W) (hr : Reachable env s) (efuel fuel : Nat) (t : CanardRxTransfer) :
    (s.fw.sector < n →
      s.fw.ofs = sector_start env s.fw.sector + s.fw.sector_ofs ∧
      s.fw.sector_ofs < env.flash_func_sector_size s.fw.sector) ∧
    ((handle_file_read_response env efuel fuel t s).1.fw.sector < n →
      (handle_file_read_response env efuel fuel t s).1.fw.ofs
        = sector_start env (handle_file_read_response env efuel fuel t s).1.fw.sector
          + (handle_file_read_response env efuel fuel t s).1.fw.sector_ofs ∧
      (handle_file_read_response env efuel fuel t s).1.fw.sector_ofs
        < env.flash_func_sector_size (handle_file_read_response env efuel fuel t s).1.fw.sector) := by
  have hs : FlashInv env n s :=
    (FlashInv.flash_invariant env n G hmin hdec).reachable (FlashInv.flash_start env n G) s hr
  exact ⟨hs.2.2.1,
    ((FlashInv.flash_invariant env n G hmin hdec).handler efuel fuel t s hs).2.2.1⟩

/-- C27 at the failing input: on a flash of 257 sectors of 256 bytes, after 256
full chunks served in order the update is in progress with `ofs = 65536`, the
start of the existing sector 256, but the `uint8_t` field `sector` is 0 again
with `sector_ofs = 0`: the sizes of the sectors below `sector` plus
`sector_ofs` give 0. -/
theorem position_lost_after_256_sectors :
    Reachable (simEnv 1 (uniformFlash 257)) (servedState (uniformFlash 257) 256) ∧
    (servedState (uniformFlash 257) 256).fw.node_id = 10 ∧
    (servedState (uniformFlash 257) 256).fw.ofs = 65536 ∧
    (servedState (uniformFlash 257) 256).fw.sector = 0 ∧
    (servedState (uniformFlash 257) 256).fw.sector_ofs = 0 ∧
    sector_start (simEnv 1 (uniformFlash 257)) 0 + 0 = 0 ∧
    uniformFlash 257 0 = 256 ∧ uniformFlash 257 256 = 256 := by
  obtain ⟨hr, hl, ho, hs, hso, _, _⟩ := servedState_uniformFlash 257 (by decide) 256
  exact ⟨hr, hl.node, ho, hs, hso, rfl, by decide, by decide⟩


/-! ## Transfer ids of the slots (C26) -/

/-- A checked run of an update leads from a state of an update to a state of an
update. -/
theorem updateRun_reachable (env : Env W) (fuel : Nat) (inputs : List (UpdateInput W)) :
    ∀ s : State W, Reachable env s → runOk env fuel inputs s = true →
      Reachable env (updateRun env fuel inputs s) := by
  induction inputs with
  | nil => exact fun s h _ => h
  | cons i rest ih =>
    intro s hr hok
    cases i with
    | reads =>
      simp only [runOk, Bool.and_eq_true, decide_eq_true_eq] at hok
      exact ih _ (Reachable.reads s hr hok.1) hok.2
    | response t =>
      simp only [runOk, Bool.and_eq_true] at hok
      exact ih _ (Reachable.response s fuel fuel t hr hok.1) hok.2
    | hardware w =>
      simp only [runOk] at hok
      exact ih _ (Reachable.hardware s w hr) hok

set_option maxRecDepth 1000000 in
set_option maxHeartbeats 4000000 in
/-- The run with the 32 lost reads is one of an update in progress. -/
theorem aliasRun_ok :
    runOk clockEnv 4 aliasRun
      (handle_begin_firmware_update clockEnv beginRequest (idleState 2 1000)) = true := by
  decide

set_option maxRecDepth 1000000 in
set_option maxHeartbeats 4000000 in
/-- The slots after the run with the 32 lost reads. -/
theorem aliasState_slots :
    (aliasState.fw.slot 0).tx_id = 2 ∧ (aliasState.fw.slot 1).tx_id = 2 ∧
    (aliasState.fw.slot 0).sent_ms ≠ 0 ∧ (aliasState.fw.slot 1).sent_ms ≠ 0 ∧
    (aliasState.fw.slot 0).have_reply = true ∧ (aliasState.fw.slot 1).have_reply = false ∧
    (aliasState.fw.slot 0).offset = 512 ∧ (aliasState.fw.slot 1).offset = 256 ∧
    (aliasState.fw.slot 0).pkt.data = chunkOf 1 ∧ aliasState.fw.node_id = 10 ∧
    aliasState.fw.ofs = 256 := by
  decide

set_option maxRecDepth 1000000 in
set_option maxHeartbeats 4000000 in
/-- The newest request after the run, and where its response goes. -/
theorem aliasState_delivery :
    aliasState.trace.head? = some (Event.tx
      { dest := 10, signature := dronecan.FILE_READ_SIGNATURE,
        data_type_id := dronecan.FILE_READ_ID, transfer_id := 2,
        priority := dronecan.PRIORITY_HIGH, kind := CanardTransferType.request,
        payload := TxPayload.read_request [102, 119] 256 } 1) ∧
    find_slot clockEnv.P aliasState.fw 2 = some 0 ∧
    ((handle_file_read_response clockEnv 4 4 (readResponse 2 (chunkOf 7)) aliasState).1.fw.slot
      0).pkt.data = chunkOf 7 ∧
    ((handle_file_read_response clockEnv 4 4 (readResponse 2 (chunkOf 7)) aliasState).1.fw.slot
      1).have_reply = false := by
  decide

theorem SameTx.tx_trans {s1 s2 s3 : State W} (h1 : SameTx s1 s2) (h2 : SameTx s2 s3) :
    SameTx s1 s3 where
  transfer_id := h2.transfer_id.trans h1.transfer_id
  tx := fun i => (h2.tx i).trans (h1.tx i)
  offset := fun i => (h2.offset i).trans (h1.offset i)
  reads := h2.reads.trans h1.reads
  node := by
    rcases h2.node with h | h
    · rw [h]; exact h1.node
    · exact Or.inr h

/-- Events that are no read request and no start of an update do not show
among the reads issued. -/
theorem issued_quiet (T tr : List Event)
    (h : ∀ e ∈ T, (∃ f ok, e = Event.can_send f ok) ∨ (∃ k, e = Event.erase k) ∨
      e = Event.keep_unlocked true) :
    issued (T ++ tr) = issued tr := by
  induction T with
  | nil => rfl
  | cons e T ih =>
    have ih1 := ih (fun e he => h e (List.mem_cons_of_mem _ he))
    rcases h e (List.mem_cons_self _ _) with ⟨f, ok, rfl⟩ | ⟨k, rfl⟩ | rfl
    · exact ih1
    · exact ih1
    · exact ih1

/-- A slot assignment that keeps `tx_id` and `offset` issues no read. -/
theorem setSlot_sameTx (s s' : State W) (idx : Nat) (r : ReadSlot)
    (hfw : s'.fw.reads = (s.fw.setSlot idx r).reads)
    (htid : s'.fw.transfer_id = s.fw.transfer_id) (hn : s'.fw.node_id = s.fw.node_id)
    (htr : issued s'.trace = issued s.trace)
    (h1 : r.tx_id = (s.fw.slot idx).tx_id) (h2 : r.offset = (s.fw.slot idx).offset) :
    SameTx s s' := by
  have hslot : ∀ i, s'.fw.slot i = (s.fw.setSlot idx r).slot i := fun i => by
    unfold FwUpdate.slot
    rw [hfw]
  refine ⟨htid, fun i => ?_, fun i => ?_, htr, Or.inl hn⟩
  · rw [hslot, slot_setSlot]
    split_ifs with h
    · rw [h1, h.1]
    · rfl
  · rw [hslot, slot_setSlot]
    split_ifs with h
    · rw [h2, h.1]
    · rfl

theorem processTx_sameTx (env : Env W) (s : State W) : SameTx s (processTx env s) := by
  obtain ⟨T, hT, hev⟩ := processTx_loop_trace env s.tx_queue s
  have hfw : (processTx env s).fw = s.fw := processTx_fw env s
  refine ⟨by rw [hfw], fun i => by rw [hfw], fun i => by rw [hfw], ?_, Or.inl (by rw [hfw])⟩
  show issued (processTx_loop env s.tx_queue s).trace = _
  rw [hT]
  exact issued_quiet T s.trace (fun e he => Or.inl (hev e he))

theorem busy_begin_sameTx (env : Env W) (t : CanardRxTransfer) (s : State W)
    (h : s.fw.node_id ≠ 0) : SameTx s (handle_begin_firmware_update env t s) := by
  unfold handle_begin_firmware_update
  rw [if_neg h]
  exact ⟨rfl, fun _ => rfl, fun _ => rfl, rfl, Or.inl rfl⟩

theorem mark_reply_sameTx (env : Env W) (idx : Nat) (s : State W) :
    SameTx s (mark_reply env idx s) :=
  setSlot_sameTx s _ idx _ rfl rfl rfl rfl rfl rfl

theorem decode_response_sameTx (env : Env W) (t : CanardRxTransfer) (idx : Nat) (s : State W) :
    SameTx s (decode_response env t idx s).1 :=
  setSlot_sameTx s _ idx _ rfl rfl rfl rfl rfl rfl

theorem commit_bad_sequence_sameTx (s : State W) : SameTx s (commit_bad_sequence s) :=
  setSlot_sameTx s _ s.fw.idx _ rfl rfl rfl rfl rfl rfl

theorem commit_prepare_sameTx (env : Env W) (efuel : Nat) (s s3 : State W) (c : Option Ctl)
    (h : commit_prepare env efuel s = (s3, c)) (hc : c = none ∨ c = some Ctl.stuck) :
    SameTx s s3 := by
  obtain ⟨_, _, E, w, T, hs3, hT⟩ := commit_prepare_erased env efuel s s3 c h hc
  rw [hs3]
  exact ⟨rfl, fun _ => rfl, fun _ => rfl,
    issued_quiet T s.trace (fun e he => Or.inr (hT e he)), Or.inl rfl⟩

/-- What `send_fw_read(idx)` adds to the reads issued. -/
theorem send_fw_read_issued (env : Env W) (idx : Nat) (s : State W) :
    issued (send_fw_read env idx s).1.trace = (s.fw.slot idx).offset :: issued s.trace := by
  unfold send_fw_read
  simp only
  split_ifs <;> rfl

/-- One call of `send_fw_read` for slot `j`, whose offset no other slot has,
keeps the transfer ids in step with the reads issued; of slot `j` nothing is
asked before the call. -/
theorem TxInv.tx_send (env : Env W) (z : State W) (j : Nat) (hj : j < env.P)
    (hlen : z.fw.reads.length = env.P)
    (htid : z.fw.transfer_id = (issued z.trace).length % 32)
    (hothers : ∀ i, i < env.P → i ≠ j →
      age (issued z.trace) (z.fw.slot i).offset < (issued z.trace).length →
      (z.fw.slot i).tx_id
        = ((issued z.trace).length - 1 - age (issued z.trace) (z.fw.slot i).offset) % 32)
    (hdist : ∀ i, i < env.P → i ≠ j → (z.fw.slot i).offset ≠ (z.fw.slot j).offset) :
    TxInv env (send_fw_read env j z).1 := by
  obtain ⟨sent, hfw⟩ := send_fw_read_fw env j z
  have hiss := send_fw_read_issued env j z
  have htid' : (send_fw_read env j z).1.fw.transfer_id
      = incrementTransferID z.fw.transfer_id := by rw [hfw]
  have hslot : ∀ i, (send_fw_read env j z).1.fw.slot i
      = if j = i ∧ j < z.fw.reads.length then
          { (z.fw.slot j) with tx_id := z.fw.transfer_id, have_reply := false, sent_ms := sent }
        else z.fw.slot i := by
    intro i
    rw [hfw]
    exact slot_setSlot z.fw j i _
  unfold TxInv
  rw [hiss, htid']
  refine ⟨?_, fun i hi => ?_⟩
  · unfold incrementTransferID
    rw [htid, List.length_cons]
    omega
  · rw [hslot i]
    by_cases hij : j = i
    · subst hij
      rw [if_pos ⟨rfl, hlen ▸ hj⟩]
      intro _
      simp only [age, if_true, List.length_cons, Nat.add_sub_cancel, Nat.sub_zero]
      exact htid
    · rw [if_neg (fun h => hij h.1)]
      have hne : (z.fw.slot j).offset ≠ (z.fw.slot i).offset :=
        fun e => hdist i hi (fun h => hij h.symm) e.symm
      simp only [age, if_neg hne, List.length_cons, Nat.add_sub_cancel]
      intro ha
      rw [hothers i hi (fun h => hij h.symm) (by omega)]
      congr 1
      omega

/-- A step that issues no read keeps the transfer ids in step. -/
theorem TxInv.tx_same {env : Env W} {s s' : State W}
    (h : s.fw.node_id ≠ 0 → TxInv env s) (hs : SameTx s s') :
    s'.fw.node_id ≠ 0 → TxInv env s' := by
  intro hn'
  have hn : s.fw.node_id ≠ 0 := by
    rcases hs.node with e | e
    · rw [← e]; exact hn'
    · exact absurd e hn'
  obtain ⟨h1, h2⟩ := h hn
  unfold TxInv
  rw [hs.transfer_id, hs.reads]
  refine ⟨h1, fun i hi => ?_⟩
  rw [hs.offset i, hs.tx i]
  exact h2 i hi

/-! ## The ring of offsets -/

/-- The ring reads `reads` and `idx` only. -/
theorem OffsetRing.ring_congr {env : Env W} {s s' : State W} (h : OffsetRing env s)
    (hr : s'.fw.reads = s.fw.reads) (hi : s'.fw.idx = s.fw.idx) : OffsetRing env s' := by
  have hslot : ∀ i, s'.fw.slot i = s.fw.slot i := fun i => by
    unfold FwUpdate.slot
    rw [hr]
  unfold OffsetRing at *
  simp only [hslot, hr, hi]
  exact h

/-- The slots of a ring carry pairwise distinct offsets. -/
theorem OffsetRing.distinct {env : Env W} {s : State W} (hP : PipelineOk env)
    (h : OffsetRing env s) (i j : Nat) (hi : i < env.P) (hj : j < env.P) (hij : i ≠ j) :
    (s.fw.slot i).offset ≠ (s.fw.slot j).offset := by
  obtain ⟨_, h2, c, hc⟩ := h
  obtain ⟨k1, hk1, e1⟩ := mod_rotate_exists env.P s.fw.idx i h2 hi
  obtain ⟨k2, hk2, e2⟩ := mod_rotate_exists env.P s.fw.idx j h2 hj
  have hk : k1 ≠ k2 := fun hk => hij (by rw [← e1, ← e2, hk])
  rw [← e1, ← e2, hc k1 hk1, hc k2 hk2]
  have := hP.2
  unfold CHUNK
  omega

/-- The ring is set up by every accepted BeginFirmwareUpdate request. -/
theorem OffsetRing.ring_start (env : Env W) (hP : PipelineOk env) (s0 : State W)
    (t : CanardRxTransfer) (pkt : BeginFirmwareUpdateRequest) (h0 : s0.fw.node_id = 0)
    (hd : env.BeginFirmwareUpdateRequest_decode t = some pkt)
    (hl : pkt.path.length ≤ PATH_MAX) :
    OffsetRing env (handle_begin_firmware_update env t s0) := by
  have hfw : (handle_begin_firmware_update env t s0).fw = begin_context env t pkt := by
    unfold handle_begin_firmware_update
    rw [if_pos h0, hd]
    simp only [if_neg (Nat.not_lt.2 hl)]
    rfl
  have hslot : ∀ i, i < env.P → (handle_begin_firmware_update env t s0).fw.slot i
      = { zeroSlot with offset := i * CHUNK } := by
    intro i hi
    rw [hfw]
    simp only [begin_context, FwUpdate.slot, seed_reads_slot env.P i hi]
  have hidx : (handle_begin_firmware_update env t s0).fw.idx = 0 := by rw [hfw]; rfl
  refine ⟨by rw [hfw]; simp [begin_context, seed_reads], by rw [hidx]; exact hP.1, 0,
    fun k hk => ?_⟩
  rw [hidx, Nat.zero_add, Nat.mod_eq_of_lt hk, hslot k hk]
  have := hP.2
  show k * CHUNK = _
  unfold CHUNK
  omega

/-- The ring survives every step of an update, whatever the decoder leaves in
the packets: only the commit of a full chunk moves an offset, by `P * CHUNK`,
and rotates `idx`. -/
theorem OffsetRing.ring_invariant (env : Env W) (hP : PipelineOk env) :
    CommitInvariant env (OffsetRing env) where
  benign := by
    intro s s' hs hb
    obtain ⟨h1, h2, c, hc⟩ := hs
    refine ⟨hb.len.trans h1, by rw [hb.idx]; exact h2, c, fun k hk => ?_⟩
    rw [hb.offset, hb.idx]
    exact hc k hk
  decode := by
    intro t idx s hs
    obtain ⟨h1, h2, c, hc⟩ := hs
    have hoff : ∀ i, ((decode_response env t idx s).1.fw.slot i).offset
        = (s.fw.slot i).offset := by
      intro i
      simp only [decode_response, slot_setSlot]
      split_ifs with h
      · rw [← h.1]
      · rfl
    refine ⟨by simp [decode_response, h1], h2, c, fun k hk => ?_⟩
    rw [hoff]
    exact hc k hk
  stuck := by
    intro efuel s s3 hs hp
    obtain ⟨_, _, E, w, T, hs3, _⟩ :=
      commit_prepare_erased env efuel s s3 _ hp (Or.inr rfl)
    exact hs.ring_congr (by rw [hs3]) (by rw [hs3])
  failed := by
    intro efuel s s3 hs hp _
    obtain ⟨_, _, E, w, T, hs3, _⟩ :=
      commit_prepare_erased env efuel s s3 _ hp (Or.inl rfl)
    exact hs.ring_congr (by rw [hs3]; rfl) (by rw [hs3]; rfl)
  last := by
    intro efuel s s3 hs hp _ _
    obtain ⟨e1, e2, _, _⟩ := commit_position_fw env efuel s s3 hp
      (s.fw.slot s.fw.idx).pkt.len (env.flash_func_sector_size s.fw.sector)
    exact hs.ring_congr e1 e2
  next := by
    intro efuel s s3 hs hp _ _
    obtain ⟨e1, e2, _, _⟩ := commit_position_fw env efuel s s3 hp
      (s.fw.slot s.fw.idx).pkt.len (env.flash_func_sector_size s.fw.sector)
    obtain ⟨h1, h2, c, hc⟩ := hs
    generalize commit_position env (s.fw.slot s.fw.idx).pkt.len
      (env.flash_func_sector_size s.fw.sector) (after_write env s s3) = x at e1 e2 ⊢
    have hxslot : ∀ i, x.fw.slot i = s.fw.slot i := fun i => by
      unfold FwUpdate.slot
      rw [e1]
    have hxl : x.fw.idx < x.fw.reads.length := by rw [e1, e2, h1]; exact h2
    have hslot : ∀ i, (commit_rotate env x).fw.slot i
        = if x.fw.idx = i then
            { (x.fw.slot x.fw.idx) with
              have_reply := false, sent_ms := 0,
              offset := ((x.fw.slot x.fw.idx).offset + env.P * CHUNK) % 4294967296 }
          else x.fw.slot i := by
      intro i
      show FwUpdate.slot (FwUpdate.setSlot _ _ _) i = _
      rw [slot_setSlot]
      simp only [hxl, and_true]
    have hoff : ∀ i, ((commit_rotate env x).fw.slot i).offset
        = if s.fw.idx = i then ((s.fw.slot s.fw.idx).offset + env.P * CHUNK) % 4294967296
          else (s.fw.slot i).offset := by
      intro i
      rw [hslot, e2]
      split_ifs
      · show ((x.fw.slot s.fw.idx).offset + env.P * CHUNK) % 4294967296 = _
        rw [hxslot]
      · rw [hxslot]
    have hidx : (commit_rotate env x).fw.idx = (s.fw.idx + 1) % env.P := by
      show (x.fw.idx + 1) % env.P = _
      rw [e2]
    refine ⟨?_, ?_, c + 1, fun k hk => ?_⟩
    · show (FwUpdate.setSlot _ _ _).reads.length = _
      rw [setSlot_length, e1]
      exact h1
    · rw [hidx]
      exact Nat.mod_lt _ hP.1
    · rw [hidx, Nat.mod_add_mod, hoff]
      by_cases hk1 : k + 1 < env.P
      · have hne : s.fw.idx ≠ (s.fw.idx + 1 + k) % env.P := by
          rw [Nat.add_assoc]
          exact Ne.symm (mod_rotate_ne env.P s.fw.idx (1 + k) h2 (by omega) (by omega))
        rw [if_neg hne, Nat.add_assoc, Nat.add_comm 1 k, hc (k + 1) hk1]
        have e : c + (k + 1) = c + 1 + k := by ring
        rw [e]
      · have hk2 : 1 + k = env.P := by omega
        have he : s.fw.idx = (s.fw.idx + 1 + k) % env.P := by
          rw [Nat.add_assoc, hk2, mod_rotate_full env.P s.fw.idx h2]
        rw [if_pos he]
        have h0 := hc 0 hP.1
        rw [Nat.add_zero, Nat.mod_eq_of_lt h2, Nat.add_zero] at h0
        rw [h0, Nat.mod_add_mod]
        have e : c * CHUNK + env.P * CHUNK = (c + 1 + k) * CHUNK := by
          rw [← hk2]
          ring
        rw [e]

/-- The ring holds in every state of an update. -/
theorem OffsetRing.ring_reachable (env : Env W) (hP : PipelineOk env) (s : State W)
    (hr : Reachable env s) : OffsetRing env s :=
  (OffsetRing.ring_invariant env hP).reachable (OffsetRing.ring_start env hP) s hr

/-- The pass of `send_fw_reads` over the slots keeps the transfer ids in step
with the reads issued. -/
theorem TxInv.tx_reads_loop (env : Env W) (hP : PipelineOk env)
    (now : Nat) (l : List Nat) :
    ∀ s : State W, OffsetRing env s → s.fw.node_id ≠ 0 → TxInv env s →
      TxInv env (send_fw_reads_loop env now l s) := by
  induction l with
  | nil => exact fun s _ _ h => h
  | cons i rest ih =>
    intro s hs hn ht
    have hj : (s.fw.idx + i) % env.P < env.P := Nat.mod_lt _ hP.1
    have hsend : TxInv env (send_fw_read env ((s.fw.idx + i) % env.P) s).1 :=
      TxInv.tx_send env s _ hj hs.1 ht.1 (fun k hk _ => ht.2 k hk)
        (fun k hk hkj => hs.distinct hP k _ hk hj hkj)
    unfold send_fw_reads_loop
    simp only
    split_ifs
    · exact ih s hs hn ht
    · exact ih s hs hn ht
    · refine ih _ ((OffsetRing.ring_invariant env hP).benign _ _ hs
        (send_fw_read_benign env _ s)) ?_ hsend
      obtain ⟨sent, hfw⟩ := send_fw_read_fw env ((s.fw.idx + i) % env.P) s
      rw [hfw]
      exact hn
    · exact hsend

/-- One pass through the body of the commit loop keeps the transfer ids in
step with the reads issued while the update goes on. -/
theorem TxInv.tx_chunk (env : Env W) (hP : PipelineOk env)
    (efuel : Nat) (s : State W) (hs : OffsetRing env s) (ht : s.fw.node_id ≠ 0 → TxInv env s) :
    (commit_chunk env efuel s).1.fw.node_id ≠ 0 → TxInv env (commit_chunk env efuel s).1 := by
  have hslot := (OffsetRing.ring_invariant env hP).chunk efuel s hs
  rcases commit_chunk_cases env efuel s with ⟨_, e⟩ | ⟨_, _, e⟩ | ⟨s3, hp, e⟩ | ⟨s3, hp, hw, e⟩ |
    ⟨s3, hp, hw, hl, e⟩ | ⟨s3, hp, hw, hl, e⟩
  · rw [e]
    exact TxInv.tx_same ht (commit_bad_sequence_sameTx s)
  · rw [e]
    intro hn
    exact absurd (by split_ifs <;> rfl) hn
  · rw [e]
    exact TxInv.tx_same ht (commit_prepare_sameTx env efuel s s3 _ hp (Or.inr rfl))
  · rw [e]
    exact TxInv.tx_same ht ((commit_prepare_sameTx env efuel s s3 _ hp (Or.inl rfl)).tx_trans
      ⟨rfl, fun _ => rfl, fun _ => rfl, rfl, Or.inl rfl⟩)
  · rw [e]
    intro hn
    exact absurd (commit_end_of_file_node env _) hn
  · rw [e] at hslot ⊢
    intro hn
    -- the state after the write and the move of the position
    have hx : SameTx s (commit_position env (s.fw.slot s.fw.idx).pkt.len
        (env.flash_func_sector_size s.fw.sector) (after_write env s s3)) :=
      (commit_prepare_sameTx env efuel s s3 _ hp (Or.inl rfl)).tx_trans
        ⟨rfl, fun _ => rfl, fun _ => rfl, rfl, Or.inl rfl⟩
    obtain ⟨hreads, hidx, hnode, _⟩ := commit_position_fw env efuel s s3 hp
      (s.fw.slot s.fw.idx).pkt.len (env.flash_func_sector_size s.fw.sector)
    generalize commit_position env (s.fw.slot s.fw.idx).pkt.len
      (env.flash_func_sector_size s.fw.sector) (after_write env s s3) = x at hx hreads hidx hnode hslot hn ⊢
    have hbn := commit_next_read_benign env x
    have hnx : x.fw.node_id ≠ 0 := by
      rcases hbn.node with h | h
      · exact fun h0 => hn (h.trans h0)
      · exact absurd h hn
    have hns : s.fw.node_id ≠ 0 := by rw [← hnode]; exact hnx
    obtain ⟨t1, t2⟩ := ht hns
    have hclear : ∀ i, i ≠ x.fw.idx →
        (commit_clear_slot env x).fw.slot i = x.fw.slot i := by
      intro i hi
      show (x.fw.setSlot x.fw.idx _).slot i = _
      rw [slot_setSlot, if_neg (fun h => hi h.1.symm)]
    have hix : x.fw.idx < env.P := by rw [hidx]; exact hs.2.1
    have hsend : TxInv env (send_fw_read env (commit_clear_slot env x).fw.idx
        (commit_clear_slot env x)).1 := by
      refine TxInv.tx_send env (commit_clear_slot env x) x.fw.idx hix ?_ ?_ ?_ ?_
      · show (x.fw.reads.set _ _).length = _
        rw [List.length_set, hreads]
        exact hs.1
      · show x.fw.transfer_id = (issued x.trace).length % 32
        rw [hx.transfer_id, hx.reads]
        exact t1
      · intro i hi hne
        rw [hclear i hne]
        show age (issued x.trace) _ < (issued x.trace).length →
          _ = ((issued x.trace).length - 1 - age (issued x.trace) _) % 32
        rw [hx.reads, hx.offset i, hx.tx i]
        exact t2 i hi
      · intro i hi hne
        have h1 := hslot.distinct hP i x.fw.idx hi hix hne
        rw [hbn.offset i, hbn.offset x.fw.idx] at h1
        exact h1
    have hsame : SameTx (send_fw_read env (commit_clear_slot env x).fw.idx
        (commit_clear_slot env x)).1 (commit_next_read env x) :=
      (processTx_sameTx env _).tx_trans ⟨rfl, fun _ => rfl, fun _ => rfl, rfl, Or.inl rfl⟩
    exact TxInv.tx_same (fun _ => hsend) hsame hn

/-- The transfer ids are in step with the reads issued in whatever state
`handle_file_read_response` stops. -/
theorem TxInv.tx_handler (env : Env W) (hP : PipelineOk env)
    (efuel fuel : Nat) (t : CanardRxTransfer) (s : State W) (hs : OffsetRing env s)
    (ht : s.fw.node_id ≠ 0 → TxInv env s) :
    (handle_file_read_response env efuel fuel t s).1.fw.node_id ≠ 0 →
      TxInv env (handle_file_read_response env efuel fuel t s).1 := by
  have hI := OffsetRing.ring_invariant env hP
  unfold handle_file_read_response
  split_ifs
  · exact ht
  · split
    · exact TxInv.tx_same ht ⟨rfl, fun _ => rfl, fun _ => rfl, rfl, Or.inl rfl⟩
    · next idx _ =>
      simp only
      split_ifs
      · exact TxInv.tx_same ht (decode_response_sameTx env t idx s)
      · exact (commit_loop_preserves env efuel
          (fun x => OffsetRing env x ∧ (x.fw.node_id ≠ 0 → TxInv env x))
          (fun x hx _ => ⟨hI.chunk efuel x hx.1, TxInv.tx_chunk env hP efuel x hx.1 hx.2⟩)
          (fun x hx => ⟨hI.benign _ _ hx.1 (set_progress_benign x),
            TxInv.tx_same hx.2 ⟨rfl, fun _ => rfl, fun _ => rfl, rfl, Or.inl rfl⟩⟩) fuel _
          ⟨hI.benign _ _ (hI.decode t idx s hs) (mark_reply_benign env idx _),
            TxInv.tx_same ht ((decode_response_sameTx env t idx s).tx_trans
              (mark_reply_sameTx env idx _))⟩).2

/-- In every state of an update in progress the transfer ids are in step with
the reads issued. -/
theorem TxInv.tx_reachable (env : Env W) (hP : PipelineOk env)
    (s : State W) (hr : Reachable env s) :
    OffsetRing env s ∧ (s.fw.node_id ≠ 0 → TxInv env s) := by
  have hI := OffsetRing.ring_invariant env hP
  induction hr with
  | start s0 t pkt h0 hd hl =>
    refine ⟨OffsetRing.ring_start env hP s0 t pkt h0 hd hl, fun _ => ?_⟩
    have htr : issued (handle_begin_firmware_update env t s0).trace = [] := by
      unfold handle_begin_firmware_update
      rw [if_pos h0, hd]
      simp only [if_neg (Nat.not_lt.2 hl)]
      rfl
    have hfw : (handle_begin_firmware_update env t s0).fw.transfer_id = 0 := by
      unfold handle_begin_firmware_update
      rw [if_pos h0, hd]
      simp only [if_neg (Nat.not_lt.2 hl)]
      rfl
    unfold TxInv
    rw [htr, hfw]
    exact ⟨rfl, fun i _ h => absurd h (Nat.lt_irrefl 0)⟩
  | reads s _ hn ih =>
    exact ⟨hI.benign _ _ ih.1 (send_fw_reads_benign env s),
      fun _ => TxInv.tx_reads_loop env hP _ _ s ih.1 hn (ih.2 hn)⟩
  | response s efuel fuel t _ _ ih =>
    exact ⟨hI.handler efuel fuel t s ih.1, TxInv.tx_handler env hP efuel fuel t s ih.1 ih.2⟩
  | busy s t _ hn ih =>
    exact ⟨hI.benign _ _ ih.1 (busy_begin_benign env t s hn),
      TxInv.tx_same ih.2 (busy_begin_sameTx env t s hn)⟩
  | drain s _ ih =>
    exact ⟨hI.benign _ _ ih.1 (processTx_benign env s),
      TxInv.tx_same ih.2 (processTx_sameTx env s)⟩
  | hardware s w _ ih =>
    exact ⟨hI.benign _ _ ih.1
        ⟨rfl, rfl, rfl, rfl, rfl, Or.inl rfl, rfl, fun _ => rfl, fun _ => rfl, rfl⟩,
      TxInv.tx_same ih.2 ⟨rfl, fun _ => rfl, fun _ => rfl, rfl, Or.inl rfl⟩⟩

/-- Two offsets that were both requested have different ages. -/
theorem age_ne (l : List Nat) (o1 o2 : Nat) (hne : o1 ≠ o2) (h1 : age l o1 < l.length)
    (h2 : age l o2 < l.length) : age l o1 ≠ age l o2 := by
  induction l with
  | nil => exact absurd h1 (Nat.lt_irrefl 0)
  | cons o l ih =>
    simp only [age, List.length_cons] at h1 h2 ⊢
    by_cases a : o = o1
    · have b : o ≠ o2 := fun b => hne (a.symm.trans b)
      rw [if_pos a, if_neg b]
      omega
    · by_cases b : o = o2
      · rw [if_neg a, if_pos b]
        omega
      · rw [if_neg a] at h1
        rw [if_neg b] at h2
        rw [if_neg a, if_neg b]
        have := ih (by omega) (by omega)
        omega

/-- The search finds the slot that holds the transfer id when no other slot
holds it. -/
theorem find_slot_unique (P : Nat) (fw : FwUpdate) (tid j : Nat) (hj : j < P)
    (h : (fw.slot j).tx_id = tid) (hu : ∀ i, i < P → i ≠ j → (fw.slot i).tx_id ≠ tid) :
    find_slot P fw tid = some j := by
  cases hf : find_slot P fw tid with
  | none =>
    unfold find_slot at hf
    rw [List.find?_eq_none] at hf
    exact absurd (by simpa using h) (hf j (List.mem_range.2 hj))
  | some k =>
    unfold find_slot at hf
    have hk : k < P := List.mem_range.1 (List.mem_of_find?_eq_some hf)
    have hp : (fw.slot k).tx_id = tid := by simpa using List.find?_some hf
    by_cases hkj : k = j
    · rw [hkj]
    · exact absurd hp (hu k hk hkj)

/-- One pass through the body of the commit loop leaves the buffered packets
alone. -/
theorem commit_chunk_pkt (env : Env W) (efuel : Nat) (s : State W) (i : Nat) :
    ((commit_chunk env efuel s).1.fw.slot i).pkt = (s.fw.slot i).pkt := by
  have hprep : ∀ s3 c, commit_prepare env efuel s = (s3, c) → (c = none ∨ c = some Ctl.stuck) →
      s3.fw.reads = s.fw.reads := by
    intro s3 c h hc
    obtain ⟨_, _, E, w, T, hs3, _⟩ := commit_prepare_erased env efuel s s3 c h hc
    rw [hs3]
  have hslot : ∀ x : State W, x.fw.reads = s.fw.reads → (x.fw.slot i).pkt = (s.fw.slot i).pkt := by
    intro x hx
    unfold FwUpdate.slot
    rw [hx]
  rcases commit_chunk_cases env efuel s with ⟨_, e⟩ | ⟨_, _, e⟩ | ⟨s3, hp, e⟩ | ⟨s3, hp, _, e⟩ |
    ⟨s3, hp, _, _, e⟩ | ⟨s3, hp, _, _, e⟩
  · rw [e]
    exact (commit_bad_sequence_benign s).pkt i
  · rw [e]
    exact (commit_too_big_benign env s).pkt i
  · rw [e]
    exact hslot s3 (hprep s3 _ hp (Or.inr rfl))
  · rw [e]
    exact hslot _ (hprep s3 _ hp (Or.inl rfl))
  · rw [e]
    exact ((commit_end_of_file_benign env _).pkt i).trans
      (hslot (commit_position env (s.fw.slot s.fw.idx).pkt.len
        (env.flash_func_sector_size s.fw.sector) (after_write env s s3))
        (commit_position_fw env efuel s s3 hp _ _).1)
  · rw [e]
    exact (((commit_next_read_benign env _).pkt i).trans (commit_rotate_pkt env _ i)).trans
      (hslot (commit_position env (s.fw.slot s.fw.idx).pkt.len
        (env.flash_func_sector_size s.fw.sector) (after_write env s s3))
        (commit_position_fw env efuel s s3 hp _ _).1)

/-- The handler leaves the packets as the decoding into the slot found left
them. -/
theorem handler_pkt (env : Env W) (efuel fuel : Nat) (t : CanardRxTransfer) (s : State W)
    (j : Nat) (hsrc : t.source_node_id = s.fw.node_id)
    (hfind : find_slot env.P s.fw t.transfer_id = some j) (i : Nat) :
    ((handle_file_read_response env efuel fuel t s).1.fw.slot i).pkt
      = ((decode_response env t j s).1.fw.slot i).pkt := by
  unfold handle_file_read_response
  rw [if_neg (not_not.2 hsrc), hfind]
  simp only
  split_ifs
  · rfl
  · exact commit_loop_preserves env efuel
      (fun x => (x.fw.slot i).pkt = ((decode_response env t j s).1.fw.slot i).pkt)
      (fun x hx _ => (commit_chunk_pkt env efuel x i).trans hx)
      (fun x hx => hx) fuel _ ((mark_reply_benign env j _).pkt i)

/-- C26 fails: on a pipeline of two slots, after both reads were issued
(transfer ids 0 and 1), the first chunk was committed, slot 0 asked for offset
512 with transfer id 2 and buffered the answer, and the read of slot 1 for
offset 256 was lost and issued again 32 times, 600 ms apart, the update is in
progress and both slots have been sent, but both hold `tx_id` 2; the newest
request is the one of slot 1. The search finds slot 0, and the response to the
request of slot 1 overwrites the packet buffered in slot 0, while slot 1 stays
without reply. -/
theorem tx_id_shared_after_32_resends :
    Reachable clockEnv aliasState ∧ clockEnv.P = 2 ∧ aliasState.fw.node_id = 10 ∧
    ((aliasState.fw.slot 0).tx_id = 2 ∧ (aliasState.fw.slot 1).tx_id = 2 ∧
      (aliasState.fw.slot 0).sent_ms ≠ 0 ∧ (aliasState.fw.slot 1).sent_ms ≠ 0 ∧
      (aliasState.fw.slot 0).have_reply = true ∧ (aliasState.fw.slot 1).have_reply = false ∧
      (aliasState.fw.slot 0).offset = 512 ∧ (aliasState.fw.slot 1).offset = 256 ∧
      (aliasState.fw.slot 0).pkt.data = chunkOf 1) ∧
    aliasState.trace.head? = some (Event.tx
      { dest := 10, signature := dronecan.FILE_READ_SIGNATURE,
        data_type_id := dronecan.FILE_READ_ID, transfer_id := 2,
        priority := dronecan.PRIORITY_HIGH, kind := CanardTransferType.request,
        payload := TxPayload.read_request [102, 119] 256 } 1) ∧
    find_slot clockEnv.P aliasState.fw 2 = some 0 ∧
    ((handle_file_read_response clockEnv 4 4 (readResponse 2 (chunkOf 7)) aliasState).1.fw.slot
      0).pkt.data = chunkOf 7 ∧
    ((handle_file_read_response clockEnv 4 4 (readResponse 2 (chunkOf 7)) aliasState).1.fw.slot
      1).have_reply = false :=
  ⟨updateRun_reachable clockEnv 4 aliasRun _
      (Reachable.start (idleState 2 1000) beginRequest { source_node_id := 0, path := [102, 119] }
        rfl rfl (by decide)) aliasRun_ok,
    rfl, aliasState_slots.2.2.2.2.2.2.2.2.2.1,
    ⟨aliasState_slots.1, aliasState_slots.2.1, aliasState_slots.2.2.1, aliasState_slots.2.2.2.1,
      aliasState_slots.2.2.2.2.1, aliasState_slots.2.2.2.2.2.1, aliasState_slots.2.2.2.2.2.2.1,
      aliasState_slots.2.2.2.2.2.2.2.1, aliasState_slots.2.2.2.2.2.2.2.2.1⟩,
    aliasState_delivery.1, aliasState_delivery.2.1, aliasState_delivery.2.2.1,
    aliasState_delivery.2.2.2⟩

/-- C26 with the bound it needs: in every state of an update in progress, two
slots that have been sent in this update and whose latest reads are both among
the last 32 reads issued hold different `tx_id`s (`P` between 1 and 255,
whatever the decoder does). When this holds of all `P` slots, the search of
`handle_file_read_response` finds, for a response that carries the `tx_id` of a
slot, that slot; the handler decodes a response of the server into that slot
and leaves the packet of every other slot as it was. -/
theorem recent_slots_have_distinct_tx_ids (env : Env W) (hP : PipelineOk env)
    (s : State W) (hr : Reachable env s) (hn : s.fw.node_id ≠ 0) :
    (∀ i j, i < env.P → j < env.P → i ≠ j → Recent s i → Recent s j →
      (s.fw.slot i).tx_id ≠ (s.fw.slot j).tx_id) ∧
    ((∀ i, i < env.P → Recent s i) → ∀ (t : CanardRxTransfer) (j : Nat), j < env.P →
      (s.fw.slot j).tx_id = t.transfer_id →
      find_slot env.P s.fw t.transfer_id = some j ∧
      ∀ efuel fuel,
        (t.source_node_id = s.fw.node_id →
          ((handle_file_read_response env efuel fuel t s).1.fw.slot j).pkt
            = (env.ReadResponse_decode t (s.fw.slot j).pkt).1) ∧
        ∀ i, i ≠ j →
          ((handle_file_read_response env efuel fuel t s).1.fw.slot i).pkt
            = (s.fw.slot i).pkt) := by
  obtain ⟨hs, ht⟩ := TxInv.tx_reachable env hP s hr
  obtain ⟨_, t2⟩ := ht hn
  have hdist : ∀ i j, i < env.P → j < env.P → i ≠ j → Recent s i → Recent s j →
      (s.fw.slot i).tx_id ≠ (s.fw.slot j).tx_id := by
    intro i j hi hj hij ri rj
    unfold Recent at ri rj
    have ai : age (issued s.trace) (s.fw.slot i).offset < (issued s.trace).length :=
      Nat.lt_of_lt_of_le ri (Nat.min_le_left _ _)
    have aj : age (issued s.trace) (s.fw.slot j).offset < (issued s.trace).length :=
      Nat.lt_of_lt_of_le rj (Nat.min_le_left _ _)
    have bi : age (issued s.trace) (s.fw.slot i).offset < 32 :=
      Nat.lt_of_lt_of_le ri (Nat.min_le_right _ _)
    have bj : age (issued s.trace) (s.fw.slot j).offset < 32 :=
      Nat.lt_of_lt_of_le rj (Nat.min_le_right _ _)
    have hne := age_ne (issued s.trace) _ _ (hs.distinct hP i j hi hj hij) ai aj
    rw [t2 i hi ai, t2 j hj aj]
    omega
  refine ⟨hdist, fun hall t j hj htid => ?_⟩
  have hfind : find_slot env.P s.fw t.transfer_id = some j :=
    find_slot_unique env.P s.fw t.transfer_id j hj htid
      (fun i hi hij e => hdist i j hi hj hij (hall i hi) (hall j hj) (e.trans htid.symm))
  have hslots : ∀ i, ((decode_response env t j s).1.fw.slot i)
      = if j = i ∧ j < s.fw.reads.length then
          { (s.fw.slot j) with pkt := (env.ReadResponse_decode t (s.fw.slot j).pkt).1 }
        else s.fw.slot i := fun i => slot_setSlot s.fw j i _
  refine ⟨hfind, fun efuel fuel => ⟨fun hsrc => ?_, fun i hij => ?_⟩⟩
  · rw [handler_pkt env efuel fuel t s j hsrc hfind j, hslots j,
      if_pos ⟨rfl, hs.1 ▸ hj⟩]
  · by_cases hsrc : t.source_node_id = s.fw.node_id
    · rw [handler_pkt env efuel fuel t s j hsrc hfind i, hslots i,
        if_neg (fun h => hij h.1.symm)]
    · unfold handle_file_read_response
      rw [if_pos hsrc]

set_option maxRecDepth 100000 in
/-- Witness for C26: the two slot pipeline right after both reads were issued;
the response with transfer id 1 is found at slot 1 and leaves the packet of
slot 0 alone. -/
theorem recent_slots_have_distinct_tx_ids_witness :
    PipelineOk (simEnv 2 sizes2k) ∧
    Reachable (simEnv 2 sizes2k) sentState ∧ sentState.fw.node_id ≠ 0 ∧
    (∀ i, i < 2 → Recent sentState i) ∧
    (sentState.fw.slot 0).tx_id ≠ (sentState.fw.slot 1).tx_id ∧
    find_slot 2 sentState.fw 1 = some 1 ∧
    ((handle_file_read_response (simEnv 2 sizes2k) 4 4 (readResponse 1 (chunkOf 1))
      sentState).1.fw.slot 0).pkt = (sentState.fw.slot 0).pkt :=
  have hP : PipelineOk (simEnv 2 sizes2k) := by unfold PipelineOk; decide
  have hr : Reachable (simEnv 2 sizes2k) sentState :=
    Reachable.reads _ (startedState_reachable 2 sizes2k) (by decide)
  have hn : sentState.fw.node_id ≠ 0 := by decide
  have hall : ∀ i, i < 2 → Recent sentState i := by decide
  have h := recent_slots_have_distinct_tx_ids (simEnv 2 sizes2k) hP sentState hr hn
  ⟨hP, hr, hn, hall,
    h.1 0 1 (by decide) (by decide) (by decide) (hall 0 (by decide)) (hall 1 (by decide)),
    (h.2 hall (readResponse 1 (chunkOf 1)) 1 (by decide) (by decide)).1,
    (((h.2 hall (readResponse 1 (chunkOf 1)) 1 (by decide) (by decide)).2 4 4).2 0 (by decide))⟩


/-! ## The window of the pipeline (C3) -/

/-- A run with bounded decodes is a run of an update. -/
theorem BoundedRun.to_reachable {env : Env W} {s : State W} (h : BoundedRun env s) :
    Reachable env s := by
  induction h with
  | start s0 t pkt h0 hd hl => exact Reachable.start s0 t pkt h0 hd hl
  | reads s _ hn ih => exact Reachable.reads s ih hn
  | response s efuel fuel t _ _ hret ih => exact Reachable.response s efuel fuel t ih hret
  | busy s t _ hn ih => exact Reachable.busy s t ih hn
  | drain s _ ih => exact Reachable.drain s ih
  | hardware s w _ ih => exact Reachable.hardware s w ih

/-- A decode that leaves at most `CHUNK` bytes keeps the slot invariant. -/
theorem SlotInv.slot_decode (env : Env W) (t : CanardRxTransfer) (idx : Nat) (s : State W)
    (hs : SlotInv env s)
    (hb : (env.ReadResponse_decode t (s.fw.slot idx).pkt).1.len ≤ CHUNK) :
    SlotInv env (decode_response env t idx s).1 := by
  obtain ⟨h1, h2, h3, h4, h5, h6⟩ := hs
  have hoff : ∀ i, ((decode_response env t idx s).1.fw.slot i).offset
      = (s.fw.slot i).offset := by
    intro i
    simp only [decode_response, slot_setSlot]
    split_ifs with h
    · rw [← h.1]
    · rfl
  refine ⟨by simp [decode_response, h1], h2, h3, fun i hi => ?_, fun i hi => ?_,
    fun hn k hk => ?_⟩
  · simp only [decode_response, slot_setSlot]
    split_ifs with h
    · exact hb
    · exact h4 i hi
  · obtain ⟨m, hm⟩ := h5 i hi
    exact ⟨m, by rw [hoff]; exact hm⟩
  · rw [hoff]
    exact h6 hn k hk

/-- One pass through the body of the commit loop keeps the slot invariant; no
decode is made there. -/
theorem SlotInv.slot_chunk (env : Env W) (hP : PipelineOk env) (efuel : Nat) (s : State W)
    (hs : SlotInv env s) : SlotInv env (commit_chunk env efuel s).1 := by
  rcases commit_chunk_cases env efuel s with ⟨_, e⟩ | ⟨_, _, e⟩ | ⟨s3, hp, e⟩ | ⟨s3, hp, hw, e⟩ |
    ⟨s3, hp, hw, hl, e⟩ | ⟨s3, hp, hw, hl, e⟩
  · rw [e]
    exact hs.slot_benign (commit_bad_sequence_benign s)
  · rw [e]
    exact hs.slot_benign (commit_too_big_benign env s)
  · rw [e]
    exact SlotInv.slot_stuck env efuel s s3 hs hp
  · rw [e]
    exact SlotInv.slot_failed env efuel s s3 hs hp
  · rw [e]
    exact (SlotInv.slot_last env efuel s s3 hs hp).slot_benign (commit_end_of_file_benign env _)
  · rw [e]
    exact (SlotInv.slot_next env hP efuel s s3 hs hp hl).slot_benign
      (commit_next_read_benign env _)

/-- The slot invariant holds in whatever state `handle_file_read_response`
stops, when its decode leaves at most `CHUNK` bytes. -/
theorem SlotInv.slot_handler (env : Env W) (hP : PipelineOk env) (efuel fuel : Nat)
    (t : CanardRxTransfer) (s : State W) (hs : SlotInv env s) (hb : DecodeBounded env t s) :
    SlotInv env (handle_file_read_response env efuel fuel t s).1 := by
  unfold handle_file_read_response
  split_ifs with hsrc
  · exact hs
  · split
    · exact hs.slot_benign (rtt_backoff_benign s)
    · next idx hfind =>
      have hd := SlotInv.slot_decode env t idx s hs (hb (not_not.1 hsrc) idx hfind)
      simp only
      split_ifs
      · exact hd
      · exact commit_loop_preserves env efuel (SlotInv env)
          (fun x hx _ => SlotInv.slot_chunk env hP efuel x hx)
          (fun x hx => hx.slot_benign (set_progress_benign x)) fuel _
          (hd.slot_benign (mark_reply_benign env idx _))

/-- The slot invariant holds along every run with bounded decodes. -/
theorem SlotInv.slot_bounded_run (env : Env W) (hP : PipelineOk env) (s : State W)
    (hr : BoundedRun env s) : SlotInv env s := by
  induction hr with
  | start s0 t pkt h0 hd hl => exact SlotInv.slot_start env hP s0 t pkt h0 hd hl
  | reads s _ _ ih => exact ih.slot_benign (send_fw_reads_benign env s)
  | response s efuel fuel t _ hb _ ih => exact SlotInv.slot_handler env hP efuel fuel t s ih hb
  | busy s t _ hn ih => exact ih.slot_benign (busy_begin_benign env t s hn)
  | drain s _ ih => exact ih.slot_benign (processTx_benign env s)
  | hardware s w _ ih =>
    exact ih.slot_benign
      ⟨rfl, rfl, rfl, rfl, rfl, Or.inl rfl, rfl, fun _ => rfl, fun _ => rfl, rfl⟩

/-- With a decoder that keeps packets within `CHUNK` bytes every run of an
update has bounded decodes. -/
theorem Reachable.to_bounded (env : Env W) (hP : PipelineOk env) (hdec : DecoderBounded env)
    (s : State W) (hr : Reachable env s) : BoundedRun env s := by
  induction hr with
  | start s0 t pkt h0 hd hl => exact BoundedRun.start s0 t pkt h0 hd hl
  | reads s _ hn ih => exact BoundedRun.reads s ih hn
  | response s efuel fuel t _ hret ih =>
    refine BoundedRun.response s efuel fuel t ih (fun _ idx hfind => ?_) hret
    have hidx : idx < env.P := List.mem_range.1 (List.mem_of_find?_eq_some hfind)
    exact hdec t _ ((SlotInv.slot_bounded_run env hP s ih).2.2.2.1 idx hidx)
  | busy s t _ hn ih => exact BoundedRun.busy s t ih hn
  | drain s _ ih => exact BoundedRun.drain s ih
  | hardware s w _ ih => exact BoundedRun.hardware s w ih

end APBootloader
